import Mathlib

/-! HMAC request signing and verification of terraform-provider-h3.

A shallow embedding of `internal/client/client.go` (the signing HTTP client) and
`internal/pkg/hmac/validator.go` (the verifier), together with models of the Go
standard-library functions they call (`sort.Strings`, `strings.Join`,
`encoding/hex`, `crypto/sha256`, `crypto/hmac`, `net/url`, `net/http.Header`).

Go strings and byte slices are sequences of bytes: `GoString = List UInt8`.
A Go map is a list of entries with distinct keys; the order of the list is the
order in which one `range` loop visits the entries, which Go leaves unspecified.
-/

/-- A Go `string` or `[]byte`: a finite sequence of bytes. -/
abbrev GoString := List UInt8

/-- The bytes of an ASCII literal. -/
def ascii (s : String) : GoString := s.toList.map (fun c => UInt8.ofNat c.toNat)

/-! ## `sort.Strings` and `strings.Join` -/

/-- Go's `a <= b` on strings: bytewise lexicographic order, a proper prefix first. -/
def strLe : GoString → GoString → Bool
  | [], _ => true
  | _ :: _, [] => false
  | a :: as, b :: bs =>
    if a.toNat < b.toNat then true
    else if b.toNat < a.toNat then false
    else strLe as bs

/-- The relation `sort.Strings` sorts by. -/
def StrLE (a b : GoString) : Prop := strLe a b = true

instance : DecidableRel StrLE := fun a b => inferInstanceAs (Decidable (strLe a b = true))

/-- Model of `sort.Strings`: the input rearranged into non-decreasing order.
Equal strings are indistinguishable, so the algorithm Go uses does not matter. -/
def sortStrings (l : List GoString) : List GoString := List.insertionSort StrLE l

/-- Model of `strings.Join(elems, sep)`. -/
def Join : List GoString → GoString → GoString
  | [], _ => []
  | [a], _ => a
  | a :: b :: rest, sep => a ++ sep ++ Join (b :: rest) sep

/-! ## `encoding/hex` -/

/-- One character of the table `"0123456789abcdef"`. -/
def hexDigit (n : Nat) : UInt8 :=
  if n < 10 then UInt8.ofNat (48 + n) else UInt8.ofNat (87 + n)

/-- Model of `hex.EncodeToString`: two lowercase hex characters per byte. -/
def hexEncode : GoString → GoString
  | [] => []
  | b :: rest => hexDigit (b.toNat / 16) :: hexDigit (b.toNat % 16) :: hexEncode rest

/-! ## `crypto/sha256` (FIPS 180-4) on 32-bit words held in `Nat` -/

namespace Sha256

/-- The 64 round constants. -/
def K : List Nat := [
  0x428a2f98, 0x71374491, 0xb5c0fbcf, 0xe9b5dba5, 0x3956c25b, 0x59f111f1, 0x923f82a4, 0xab1c5ed5,
  0xd807aa98, 0x12835b01, 0x243185be, 0x550c7dc3, 0x72be5d74, 0x80deb1fe, 0x9bdc06a7, 0xc19bf174,
  0xe49b69c1, 0xefbe4786, 0x0fc19dc6, 0x240ca1cc, 0x2de92c6f, 0x4a7484aa, 0x5cb0a9dc, 0x76f988da,
  0x983e5152, 0xa831c66d, 0xb00327c8, 0xbf597fc7, 0xc6e00bf3, 0xd5a79147, 0x06ca6351, 0x14292967,
  0x27b70a85, 0x2e1b2138, 0x4d2c6dfc, 0x53380d13, 0x650a7354, 0x766a0abb, 0x81c2c92e, 0x92722c85,
  0xa2bfe8a1, 0xa81a664b, 0xc24b8b70, 0xc76c51a3, 0xd192e819, 0xd6990624, 0xf40e3585, 0x106aa070,
  0x19a4c116, 0x1e376c08, 0x2748774c, 0x34b0bcb5, 0x391c0cb3, 0x4ed8aa4a, 0x5b9cca4f, 0x682e6ff3,
  0x748f82ee, 0x78a5636f, 0x84c87814, 0x8cc70208, 0x90befffa, 0xa4506ceb, 0xbef9a3f7, 0xc67178f2]

/-- Addition modulo 2^32. -/
def add32 (a b : Nat) : Nat := (a + b) % 4294967296

/-- Rotate a 32-bit word right by `n` bits. -/
def rotr (x n : Nat) : Nat := ((x >>> n) ||| (x <<< (32 - n))) % 4294967296

def ssig0 (x : Nat) : Nat := rotr x 7 ^^^ rotr x 18 ^^^ (x >>> 3)
def ssig1 (x : Nat) : Nat := rotr x 17 ^^^ rotr x 19 ^^^ (x >>> 10)
def bsig0 (x : Nat) : Nat := rotr x 2 ^^^ rotr x 13 ^^^ rotr x 22
def bsig1 (x : Nat) : Nat := rotr x 6 ^^^ rotr x 11 ^^^ rotr x 25
def ch (x y z : Nat) : Nat := (x &&& y) ^^^ ((4294967295 - x) &&& z)
def maj (x y z : Nat) : Nat := (x &&& y) ^^^ (x &&& z) ^^^ (y &&& z)

/-- Big-endian encoding of `n` on `k` bytes. -/
def beBytes : Nat → Nat → List Nat
  | 0, _ => []
  | k + 1, n => (n / 256 ^ k) % 256 :: beBytes k n

/-- Padding: the byte 0x80, zeros up to 56 modulo 64, then the bit length on 8 bytes. -/
def pad (msg : List Nat) : List Nat :=
  msg ++ 128 :: List.replicate ((119 - msg.length % 64) % 64) 0 ++ beBytes 8 (8 * msg.length)

/-- Reads big-endian 32-bit words. -/
def toWords : List Nat → List Nat
  | b0 :: b1 :: b2 :: b3 :: rest => (((b0 * 256 + b1) * 256 + b2) * 256 + b3) :: toWords rest
  | _ => []

/-- Message schedule, most recent word first: `w` holds W[t-1], W[t-2], ... -/
def schedule : Nat → List Nat → List Nat
  | 0, w => w
  | n + 1, w =>
    schedule n
      (add32 (add32 (add32 (ssig1 (w.getD 1 0)) (w.getD 6 0)) (ssig0 (w.getD 14 0))) (w.getD 15 0)
        :: w)

/-- The eight working variables (also the chaining value). -/
structure St where
  a : Nat
  b : Nat
  c : Nat
  d : Nat
  e : Nat
  f : Nat
  g : Nat
  h : Nat

/-- One round of the compression function. -/
def round (s : St) (k w : Nat) : St :=
  let t1 := add32 (add32 (add32 (add32 s.h (bsig1 s.e)) (ch s.e s.f s.g)) k) w
  let t2 := add32 (bsig0 s.a) (maj s.a s.b s.c)
  ⟨add32 t1 t2, s.a, s.b, s.c, add32 s.d t1, s.e, s.f, s.g⟩

def rounds : St → List Nat → List Nat → St
  | s, k :: ks, w :: ws => rounds (round s k w) ks ws
  | s, _, _ => s

/-- The compression function on one 64-byte block. -/
def compress (s : St) (block : List Nat) : St :=
  let w := (schedule 48 (toWords block).reverse).reverse
  let r := rounds s K w
  ⟨add32 s.a r.a, add32 s.b r.b, add32 s.c r.c, add32 s.d r.d,
   add32 s.e r.e, add32 s.f r.f, add32 s.g r.g, add32 s.h r.h⟩

/-- Folds `compress` over the first `n` 64-byte blocks of `m`. -/
def blocks : Nat → St → List Nat → St
  | 0, s, _ => s
  | n + 1, s, m => blocks n (compress s (m.take 64)) (m.drop 64)

/-- The initial hash value. -/
def init : St :=
  ⟨0x6a09e667, 0xbb67ae85, 0x3c6ef372, 0xa54ff53a, 0x510e527f, 0x9b05688c, 0x1f83d9ab, 0x5be0cd19⟩

/-- The 32 digest bytes of a message given as byte values. -/
def digest (msg : List Nat) : List Nat :=
  let p := pad msg
  let s := blocks (p.length / 64) init p
  beBytes 4 s.a ++ beBytes 4 s.b ++ beBytes 4 s.c ++ beBytes 4 s.d ++
  beBytes 4 s.e ++ beBytes 4 s.f ++ beBytes 4 s.g ++ beBytes 4 s.h

end Sha256

/-- Model of `sha256.Sum256`. -/
def sha256 (msg : GoString) : GoString :=
  (Sha256.digest (msg.map UInt8.toNat)).map UInt8.ofNat

/-! ## `crypto/hmac` (RFC 2104) -/

/-- The key block of HMAC xored with a pad byte. -/
def hmacPad (key : GoString) (p : Nat) : GoString :=
  (key ++ List.replicate (64 - key.length) 0).map (fun (b : UInt8) => UInt8.ofNat (b.toNat ^^^ p))

/-- Model of `hmac.New(sha256.New, key)`, `Write(msg)`, `Sum(nil)`. -/
def hmacSha256 (key msg : GoString) : GoString :=
  let k := if key.length > 64 then sha256 key else key
  sha256 (hmacPad k 0x5c ++ sha256 (hmacPad k 0x36 ++ msg))

/-- The accumulator of `subtle.ConstantTimeCompare`: `v |= x[i] ^ y[i]` over all positions. -/
def xorAcc : GoString → GoString → Nat → Nat
  | x :: xs, y :: ys, v => xorAcc xs ys (v ||| (x.toNat ^^^ y.toNat))
  | _, _, v => v

/-- Model of `subtle.ConstantTimeCompare(x, y) == 1`. -/
def ConstantTimeCompare (x y : GoString) : Bool :=
  if x.length ≠ y.length then false else xorAcc x y 0 == 0

/-- Model of `hmac.Equal`. -/
def hmacEqual (mac1 mac2 : GoString) : Bool := ConstantTimeCompare mac1 mac2

/-! ## `net/url` -/

/-- Model of `strings.Cut(s, sep)` for a one-byte separator: the text before the first
separator, the text after it, and whether the separator was found. -/
def Cut (c : UInt8) : GoString → GoString × GoString × Bool
  | [] => ([], [], false)
  | b :: rest =>
    if b = c then ([], rest, true)
    else ((b :: (Cut c rest).1), (Cut c rest).2.1, (Cut c rest).2.2)

/-- Model of `strings.Split(s, sep)` for a one-byte separator. -/
def Split (c : UInt8) : GoString → List GoString
  | [] => [[]]
  | b :: rest =>
    if b = c then [] :: Split c rest
    else match Split c rest with
      | [] => [[b]]
      | seg :: segs => (b :: seg) :: segs

/-- Model of `ishex` of net/url. -/
def ishex (c : UInt8) : Bool :=
  (48 ≤ c.toNat && c.toNat ≤ 57) || (97 ≤ c.toNat && c.toNat ≤ 102) ||
    (65 ≤ c.toNat && c.toNat ≤ 70)

/-- Model of `unhex` of net/url. -/
def unhex (c : UInt8) : Nat :=
  if 48 ≤ c.toNat ∧ c.toNat ≤ 57 then c.toNat - 48
  else if 97 ≤ c.toNat ∧ c.toNat ≤ 102 then c.toNat - 97 + 10
  else if 65 ≤ c.toNat ∧ c.toNat ≤ 70 then c.toNat - 65 + 10
  else 0

/-- Model of `unescape(s, mode)` of net/url for the modes used here. A `%` that is not
followed by two hex digits is an error (`none`); `%XX` becomes the byte XX; `+` becomes a
space when `plusAsSpace` (mode `encodeQueryComponent`) and stays `+` otherwise
(modes `encodePath`, `encodeFragment`). -/
def unescape (plusAsSpace : Bool) : GoString → Option GoString
  | [] => some []
  | c :: rest =>
    if c = 37 then
      match rest with
      | h1 :: h2 :: rest2 =>
        if ishex h1 && ishex h2 then
          (unescape plusAsSpace rest2).map (fun t => UInt8.ofNat (unhex h1 * 16 + unhex h2) :: t)
        else none
      | _ => none
    else if c = 43 && plusAsSpace then (unescape plusAsSpace rest).map (fun t => 32 :: t)
    else (unescape plusAsSpace rest).map (fun t => c :: t)

/-- Model of `url.QueryUnescape`. -/
def QueryUnescape (s : GoString) : Option GoString := unescape true s

/-- Model of `url.Values` (`map[string][]string`): entries with distinct keys. -/
abbrev Values := List (GoString × List GoString)

/-- The statement `m[key] = append(m[key], value)`. -/
def Values.add : Values → GoString → GoString → Values
  | [], key, value => [(key, [value])]
  | (k, vs) :: rest, key, value =>
    if k = key then (k, vs ++ [value]) :: rest else (k, vs) :: Values.add rest key value

/-- One iteration of the loop of `url.parseQuery` on the segment `key` cut off at `&`:
a segment with a semicolon, an empty segment, and a segment whose key or value has a
malformed escape are skipped. -/
def parseQueryStep (m : Values) (key : GoString) : Values :=
  if key.contains 59 then m
  else if key = [] then m
  else
    match QueryUnescape (Cut 61 key).1, QueryUnescape (Cut 61 key).2.1 with
    | some k, some v => m.add k v
    | _, _ => m

/-- Model of `url.ParseQuery` with its error dropped, as `URL.Query()` does. The loop
`for query != "" { key, query, _ = strings.Cut(query, "&"); ... }` visits the
`&`-separated segments of the query in order. -/
def ParseQuery (query : GoString) : Values := (Split 38 query).foldl parseQueryStep []

/-- The fields of `url.URL` that the signer and the verifier read. -/
structure URL where
  Path : GoString
  RawQuery : GoString
deriving DecidableEq

/-- Model of `(*URL).Query()`. -/
def URL.Query (u : URL) : Values := ParseQuery u.RawQuery

/-- Model of `stringContainsCTLByte`. -/
def containsCTL (s : GoString) : Bool := s.any (fun b => b.toNat < 32 || b.toNat = 127)

def isAlpha (c : UInt8) : Bool :=
  (97 ≤ c.toNat && c.toNat ≤ 122) || (65 ≤ c.toNat && c.toNat ≤ 90)

def isDigit (c : UInt8) : Bool := 48 ≤ c.toNat && c.toNat ≤ 57

/-- Model of `getScheme` of net/url, scanning from index `i`: `none` is the error
"missing protocol scheme", otherwise the scheme and the rest. -/
def getSchemeFrom (rawURL : GoString) : GoString → Nat → Option (GoString × GoString)
  | [], _ => some ([], rawURL)
  | c :: cs, i =>
    if isAlpha c then getSchemeFrom rawURL cs (i + 1)
    else if isDigit c || c = 43 || c = 45 || c = 46 then
      if i = 0 then some ([], rawURL) else getSchemeFrom rawURL cs (i + 1)
    else if c = 58 then
      if i = 0 then none else some (rawURL.take i, cs)
    else some ([], rawURL)

def getScheme (rawURL : GoString) : Option (GoString × GoString) :=
  getSchemeFrom rawURL rawURL 0

/-- The query split of `url.parse`: a lone trailing `?` is dropped (ForceQuery), otherwise
the text is cut at the first `?`. -/
def splitQuery (rest : GoString) : GoString × GoString :=
  if rest.getLast? = some 63 ∧ rest.count 63 = 1 then (rest.dropLast, [])
  else ((Cut 63 rest).1, (Cut 63 rest).2.1)

/-- The path part of `rest` in `url.parse`: for `//authority/path` the text from the first
`/` after the authority, otherwise `rest` itself. The syntax checks of `parseAuthority`
(user info, port, host characters) are not modelled: every authority is accepted. -/
def pathAfterAuthority (scheme rest : GoString) : GoString :=
  if (scheme ≠ [] ∨ rest.take 3 ≠ [47, 47, 47]) ∧ rest.take 2 = [47, 47] then
    if (Cut 47 (rest.drop 2)).2.2 then 47 :: (Cut 47 (rest.drop 2)).2.1 else []
  else rest

/-- Model of `url.parse(rawURL, false)` restricted to the fields `Path` and `RawQuery`. -/
def urlParseNoFragment (rawURL : GoString) : Option URL :=
  if containsCTL rawURL then none
  else if rawURL = [42] then some ⟨[42], []⟩
  else
    match getScheme rawURL with
    | none => none
    | some (scheme, rest0) =>
      let rest := (splitQuery rest0).1
      let rawQuery := (splitQuery rest0).2
      if rest.head? ≠ some 47 ∧ scheme ≠ [] then some ⟨[], rawQuery⟩
      else if rest.head? ≠ some 47 ∧ (Cut 47 rest).1.contains 58 then none
      else
        match unescape false (pathAfterAuthority scheme rest) with
        | none => none
        | some p => some ⟨p, rawQuery⟩

/-- Model of `url.Parse`: the fragment after the first `#` is cut off and must unescape;
the rest is parsed by `url.parse`. -/
def urlParse (rawURL : GoString) : Option URL :=
  match urlParseNoFragment (Cut 35 rawURL).1 with
  | none => none
  | some u =>
    if (Cut 35 rawURL).2.1 = [] then some u
    else if (unescape false (Cut 35 rawURL).2.1).isSome then some u
    else none

/-! ## `net/http` -/

/-- Model of `http.Header` (`map[string][]string` keyed by canonical header names). The
names this program uses (`Content-Type`, `X-H3-Key-Id`, `X-H3-Date`, `X-H3-Signature`)
are already in canonical MIME form, so `CanonicalMIMEHeaderKey` leaves them unchanged. -/
structure Header where
  entries : List (GoString × List GoString)
deriving DecidableEq

/-- Model of `Header.Get`: the first value stored under the key, or the empty string. -/
def Header.Get (h : Header) (key : GoString) : GoString :=
  match h.entries.find? (fun e => e.1 == key) with
  | some (_, v :: _) => v
  | _ => []

/-- The statement `h[key] = []string{value}` on the entry list. -/
def setEntry : List (GoString × List GoString) → GoString → GoString →
    List (GoString × List GoString)
  | [], key, value => [(key, [value])]
  | (k, vs) :: rest, key, value =>
    if k = key then (key, [value]) :: rest else (k, vs) :: setEntry rest key value

/-- Model of `Header.Set`. -/
def Header.Set (h : Header) (key value : GoString) : Header := ⟨setEntry h.entries key value⟩

/-- The fields of `http.Request` that the signer and the verifier use. -/
structure Request where
  Method : GoString
  URL : URL
  Header : Header
  Body : GoString
deriving DecidableEq

/-- The token characters of an HTTP method (`httpguts.IsTokenRune`). -/
def isTokenByte (c : UInt8) : Bool :=
  isAlpha c || isDigit c || (ascii "!#$%&\x27*+-.^_\x60|~").contains c

/-- Model of `validMethod` of net/http. -/
def validMethod (method : GoString) : Bool := method.length > 0 && method.all isTokenByte

/-- Model of `http.NewRequestWithContext(ctx, method, url, bytes.NewReader(body))` with a
non-nil context: an empty method means GET, the method must be a token, the URL must
parse; the new request has no headers. -/
def NewRequestWithContext (method url body : GoString) : Option Request :=
  if validMethod (if method = [] then ascii "GET" else method) then
    match urlParse url with
    | none => none
    | some u => some ⟨if method = [] then ascii "GET" else method, u, ⟨[]⟩, body⟩
  else none

/-! ## `internal/client/client.go` -/

/-- The type `Client`; `timeout` is the `Timeout` of its `httpClient`, in nanoseconds. -/
structure Client where
  baseURL : GoString
  keyID : GoString
  secretKey : GoString
  timeout : Int
  maxRetries : Int
deriving DecidableEq

/-- The strings `k+"="+v` appended to `queryParts` by the loop over `queryParams` in
`Client.Do`; the list `queryParams` gives the map entries in the order the loop visits
them. -/
def queryPartsOfParams (queryParams : List (GoString × GoString)) : List GoString :=
  queryParams.map (fun kv => kv.1 ++ ascii "=" ++ kv.2)

/-- The variable `url` of `Client.Do`: `baseURL + path`, followed when there are query
parameters by `?` and the sorted `k=v` parts joined with `&`. -/
def Client.DoURL (c : Client) (path : GoString) (queryParams : List (GoString × GoString)) :
    GoString :=
  if queryParams.length > 0 then
    c.baseURL ++ path ++ (ascii "?" ++ Join (sortStrings (queryPartsOfParams queryParams)) (ascii "&"))
  else c.baseURL ++ path

/-- The request `Client.Do` creates with `http.NewRequestWithContext` from the marshalled
body `bodyBytes`; `none` is the error "failed to create request". -/
def Client.DoRequest (c : Client) (method path : GoString)
    (queryParams : List (GoString × GoString)) (bodyBytes : GoString) : Option Request :=
  NewRequestWithContext method (c.DoURL path queryParams) bodyBytes

/-- The variable `canonical` of `Client.signRequest`, for the timestamp `date` that
`time.Now().UTC().Format(time.RFC3339)` produced. -/
def Client.signCanonical (c : Client) (req : Request) (body date : GoString) : GoString :=
  let bodyHashHex := hexEncode (sha256 body)
  let signedHeaders := sortStrings [ascii "x-h3-date:" ++ date, ascii "x-h3-key-id:" ++ c.keyID]
  let canonicalHeaders := Join signedHeaders (ascii "\n")
  let canonicalQuery := if req.URL.RawQuery ≠ [] then req.URL.RawQuery else []
  Join [req.Method, req.URL.Path, canonicalQuery, canonicalHeaders, bodyHashHex] (ascii "\n")

/-- The variable `signature` of `Client.signRequest`. -/
def Client.signature (c : Client) (req : Request) (body date : GoString) : GoString :=
  hexEncode (hmacSha256 c.secretKey (c.signCanonical req body date))

/-- Model of `Client.signRequest`: the request with the four headers set. The function
always returns a nil error. -/
def Client.signRequest (c : Client) (req : Request) (body date : GoString) : Request :=
  { req with
    Header :=
      (((req.Header.Set (ascii "Content-Type") (ascii "application/json")).Set
        (ascii "X-H3-Key-Id") c.keyID).Set (ascii "X-H3-Date") date).Set
        (ascii "X-H3-Signature") (c.signature req body date) }

/-- The signed request `Client.Do` hands to its retry loop. -/
def Client.DoSigned (c : Client) (method path : GoString)
    (queryParams : List (GoString × GoString)) (bodyBytes date : GoString) : Option Request :=
  (c.DoRequest method path queryParams bodyBytes).map (fun req => c.signRequest req bodyBytes date)

/-! ## `internal/pkg/hmac/validator.go` -/

/-- The strings `k+"="+v` appended to `queryParts` by the nested loops of
`BuildCanonicalRequest` when the outer loop visits the map entries in the order `query`. -/
def queryPartsOfValues : Values → List GoString
  | [] => []
  | (k, values) :: rest => values.map (fun v => k ++ ascii "=" ++ v) ++ queryPartsOfValues rest

/-- The variable `canonicalQuery` of `BuildCanonicalRequest`: the parts sorted and joined
with `&`. -/
def canonicalQueryOf (query : Values) : GoString :=
  Join (sortStrings (queryPartsOfValues query)) (ascii "&")

/-- The body of `BuildCanonicalRequest` when `range query` visits the entries of
`r.URL.Query()` in the order `query`. -/
def BuildCanonicalRequestRange (r : Request) (body : GoString) (query : Values) : GoString :=
  let method := r.Method
  let path := r.URL.Path
  let canonicalQuery := canonicalQueryOf query
  let signedHeaders := sortStrings
    [ascii "x-h3-date:" ++ r.Header.Get (ascii "X-H3-Date"),
     ascii "x-h3-key-id:" ++ r.Header.Get (ascii "X-H3-Key-Id")]
  let canonicalHeaders := Join signedHeaders (ascii "\n")
  let bodyHashHex := hexEncode (sha256 body)
  Join [method, path, canonicalQuery, canonicalHeaders, bodyHashHex] (ascii "\n")

/-- Model of `BuildCanonicalRequest`, visiting the query map in its stored order; the
result is the same for every other order (`canonicalQueryOf_perm`). -/
def BuildCanonicalRequest (r : Request) (body : GoString) : GoString :=
  BuildCanonicalRequestRange r body r.URL.Query

/-- Model of `VerifyHMAC`. -/
def VerifyHMAC (secretKey canonical signature : GoString) : Bool :=
  let expected := hexEncode (hmacSha256 secretKey canonical)
  hmacEqual expected signature

/-- Model of `ReadBody`: the bytes of the request body. -/
def ReadBody (r : Request) : GoString := r.Body

/-- Model of `ExtractHeaders`: the three strings and the error, if any. -/
def ExtractHeaders (r : Request) : GoString × GoString × GoString × Option String :=
  let keyID := r.Header.Get (ascii "X-H3-Key-Id")
  let date := r.Header.Get (ascii "X-H3-Date")
  let signature := r.Header.Get (ascii "X-H3-Signature")
  if keyID = [] ∨ date = [] ∨ signature = [] then
    ([], [], [], some "missing required HMAC headers")
  else (keyID, date, signature, none)

/-- The functions of validator.go chained as a receiving handler chains them:
`ExtractHeaders`, then `BuildCanonicalRequest` on the request and the body `ReadBody`
returns, then `VerifyHMAC` with the extracted signature. `none` is the failure of
`ExtractHeaders`. -/
def verifyRequest (secretKey : GoString) (r : Request) : Option Bool :=
  match ExtractHeaders r with
  | (_, _, signature, none) =>
    some (VerifyHMAC secretKey (BuildCanonicalRequest r (ReadBody r)) signature)
  | (_, _, _, some _) => none

/-! ## Reading the raw query -/

/-- The text `key=value` of one `&`-separated segment of a raw query, cut at its first
`=` and left exactly as written. -/
def rawPart (seg : GoString) : GoString := (Cut 61 seg).1 ++ ascii "=" ++ (Cut 61 seg).2.1

/-- The part `k=v` that one `&`-separated segment of a raw query contributes after
`url.ParseQuery`: nothing for a segment that is empty, holds a semicolon or has a
malformed escape, otherwise the unescaped key and the unescaped value. -/
def decodedPart (seg : GoString) : Option GoString :=
  if seg.contains 59 then none
  else if seg = [] then none
  else
    match QueryUnescape (Cut 61 seg).1, QueryUnescape (Cut 61 seg).2.1 with
    | some k, some v => some (k ++ ascii "=" ++ v)
    | _, _ => none

/-! ## Example data used by the concrete evaluations -/

/-- A client as `NewClient` builds it from a base URL, a key id and a secret. -/
def exampleClient : Client :=
  ⟨ascii "https://api.h3.cloud", ascii "key1", ascii "secret", 30000000000, 3⟩

/-- A timestamp in the RFC3339 form `signRequest` generates. -/
def exampleDate : GoString := ascii "2024-01-01T00:00:00Z"

/-- A received request with the given raw query, key id and other headers, and no body. -/
def exampleRequest (rawQuery keyID : GoString) (others : List (GoString × List GoString)) :
    Request :=
  ⟨ascii "GET", ⟨ascii "/api/vms/v1/vm1", rawQuery⟩,
    ⟨[(ascii "X-H3-Date", [exampleDate]), (ascii "X-H3-Key-Id", [keyID])] ++ others⟩, []⟩

/-! ## `internal/client/errors.go` and Go error values -/

/-- The verb `%d` of package fmt on an integer: its decimal digits, with a minus sign
when it is negative. -/
def itoa (n : Int) : GoString := ascii (toString n)

/-- The type `HTTPError`. -/
structure HTTPError where
  StatusCode : Int
  Method : GoString
  URL : GoString
  Body : GoString
deriving DecidableEq

/-- Model of `(*HTTPError).Error`: `fmt.Sprintf("HTTP %d: %s %s - %s", ...)`. -/
def HTTPError.Error (e : HTTPError) : GoString :=
  ascii "HTTP " ++ itoa e.StatusCode ++ ascii ": " ++ e.Method ++ ascii " " ++ e.URL ++
    ascii " - " ++ e.Body

/-- Model of `(*HTTPError).IsNotFound`. -/
def HTTPError.IsNotFound (e : HTTPError) : Bool := e.StatusCode == 404

/-- Model of `(*HTTPError).IsUnauthorized`. -/
def HTTPError.IsUnauthorized (e : HTTPError) : Bool := e.StatusCode == 401

/-- A non-nil Go `error`: a plain error with its message (`errors.New`, `fmt.Errorf`
without `%w`, the errors of the standard library), an error made by `fmt.Errorf` with one
`%w` (its message and the error it wraps), or a `*HTTPError`. A nil `error` is the `none`
of `Option GoError`. -/
inductive GoError where
  | errorString (msg : GoString)
  | wrapError (msg : GoString) (err : GoError)
  | httpError (e : HTTPError)
deriving DecidableEq

/-- The method `Error()`. -/
def GoError.Error : GoError → GoString
  | GoError.errorString msg => msg
  | GoError.wrapError msg _ => msg
  | GoError.httpError e => e.Error

/-- Model of `errors.Unwrap`. -/
def GoError.Unwrap : GoError → Option GoError
  | GoError.wrapError _ err => some err
  | _ => none

/-- Model of `fmt.Errorf(text + "%w", err)` where `text` is the already formatted text
before the verb: the message ends with the message of `err`, which the new error wraps;
for a nil `err` fmt prints `%!w(<nil>)` and the new error wraps nothing. -/
def Errorf (text : GoString) (err : Option GoError) : GoError :=
  match err with
  | some e => GoError.wrapError (text ++ e.Error) e
  | none => GoError.errorString (text ++ ascii "%!w(<nil>)")

/-! ## The retry loop of `Client.Do` -/

/-- Conversion to the 64-bit signed integers of Go (two's complement wrap-around). -/
def wrapInt64 (x : Int) : Int :=
  (x + 9223372036854775808) % 18446744073709551616 - 9223372036854775808

/-- The constant `time.Second`, in the nanoseconds of `time.Duration`. -/
def timeSecond : Int := 1000000000

/-- The variable `backoff` of `Client.Do` for `attempt > 0`:
`time.Duration(1<<uint(attempt-1)) * time.Second`, the shift and the product computed in
the `int64` of `time.Duration`. -/
def backoff (attempt : Nat) : Int :=
  wrapInt64 (wrapInt64 (2 ^ (attempt - 1)) * timeSecond)

/-- Which case the `select` of the backoff takes. -/
inductive SelectCase where
  /-- The case `<-time.After(backoff)`. -/
  | timer
  /-- The case `<-ctx.Done()`; `err` is what `ctx.Err()` then returns. -/
  | done (err : GoError)
deriving DecidableEq

/-- How `c.httpClient.Do(req)` followed by `io.ReadAll(resp.Body)` ends. -/
inductive RoundTrip where
  /-- The call `c.httpClient.Do(req)` returned an error. -/
  | failed (err : GoError)
  /-- A response arrived and `io.ReadAll(resp.Body)` returned an error. -/
  | readFailed (err : GoError)
  /-- A response arrived and its body was read. -/
  | response (StatusCode : Int) (respBody : GoString)
deriving DecidableEq

/-- Everything outside the program that one call of `Client.Do` depends on, given per
value of the loop variable `attempt`: the timestamp `signRequest` reads from the clock,
the error `http.NewRequestWithContext` returns when it fails, the case each backoff
`select` takes, how many bytes of the request body stream the transport reads during each
attempt, and how each attempt ends. -/
structure Env where
  date : GoString
  newRequestErr : GoError
  selectAt : Nat → SelectCase
  bodyReadAt : Nat → Nat
  roundTripAt : Nat → RoundTrip

/-- The collaborators `json.Marshal` and `json.Unmarshal` for a body type `β` and a result
type `σ`; `Unmarshal` returns the value the sink holds afterwards and the error. -/
structure JSON (β σ : Type) where
  Marshal : β → Except GoError GoString
  Unmarshal : GoString → σ → σ × Option GoError

/-- What a call of `Client.Do` does that is visible from outside, tagged with the value
of the loop variable `attempt`. -/
inductive Event where
  /-- The backoff `select` ended by the timer after the duration `d` (nanoseconds). -/
  | wait (attempt : Nat) (d : Int)
  /-- The backoff `select` for the duration `d` ended by `ctx.Done()`. -/
  | cancelled (attempt : Nat) (d : Int)
  /-- The call `c.httpClient.Do(req)`; `req.Body` is what is left to read of the body. -/
  | request (attempt : Nat) (req : Request)
  /-- The call `json.Unmarshal(respBody, result)`. -/
  | unmarshal (attempt : Nat) (respBody : GoString)
deriving DecidableEq

/-- The outcome of `Client.Do`: the error it returns (`none` for nil), what the result
sink holds afterwards (`none` for a nil sink), and the events in order. -/
structure DoResult (σ : Type) where
  err : Option GoError
  result : Option σ
  events : List Event

/-- The same outcome with earlier events put in front. -/
def DoResult.after {σ : Type} (evs : List Event) (r : DoResult σ) : DoResult σ :=
  { r with events := evs ++ r.events }

/-- The request as the next attempt finds it: `req.Body` is a `bytes.Reader` wrapped by
`io.NopCloser`, a stream that nothing in `Client.Do` rewinds, so the bytes the transport
has read during an attempt are gone from it. -/
def drainBody (env : Env) (attempt : Nat) (req : Request) : Request :=
  { req with Body := req.Body.drop (env.bodyReadAt attempt) }

/-- The events of one pass of the loop body up to the call `c.httpClient.Do(req)`, when
the `select` is ended by the timer. -/
def attemptEvents (attempt : Nat) (req : Request) : List Event :=
  (if attempt > 0 then [Event.wait attempt (backoff attempt)] else []) ++
    [Event.request attempt req]

/-- The loop `for attempt := 0; attempt <= c.maxRetries; attempt++` of `Client.Do` and the
return after it, started at `attempt` with `remaining` passes left
(`remaining = c.maxRetries + 1 - attempt`, or 0 when that is negative). The counter is an
unbounded natural number: the `int` of Go does not wrap as long as
`c.maxRetries < 2^63 - 1`. -/
def Client.retryLoop {σ : Type} (c : Client) (env : Env)
    (Unmarshal : GoString → σ → σ × Option GoError) (method url : GoString)
    (result : Option σ) : Nat → Nat → Request → Option GoError → DoResult σ
  | 0, _, _, lastErr =>
    ⟨some (Errorf (ascii "request failed after " ++ itoa c.maxRetries ++ ascii " retries: ")
      lastErr), result, []⟩
  | remaining + 1, attempt, req, _ =>
    match (if attempt > 0 then env.selectAt attempt else SelectCase.timer) with
    | SelectCase.done ctxErr =>
      ⟨some ctxErr, result, [Event.cancelled attempt (backoff attempt)]⟩
    | SelectCase.timer =>
      DoResult.after (attemptEvents attempt req)
        (match env.roundTripAt attempt with
        | RoundTrip.failed err =>
          Client.retryLoop c env Unmarshal method url result remaining (attempt + 1)
            (drainBody env attempt req) (some (Errorf (ascii "request failed: ") (some err)))
        | RoundTrip.readFailed err =>
          Client.retryLoop c env Unmarshal method url result remaining (attempt + 1)
            (drainBody env attempt req)
            (some (Errorf (ascii "failed to read response: ") (some err)))
        | RoundTrip.response statusCode respBody =>
          if statusCode ≥ 500 then
            Client.retryLoop c env Unmarshal method url result remaining (attempt + 1)
              (drainBody env attempt req)
              (some (GoError.errorString
                (ascii "server error (" ++ itoa statusCode ++ ascii "): " ++ respBody)))
          else if statusCode ≥ 400 then
            ⟨some (GoError.httpError ⟨statusCode, method, url, respBody⟩), result, []⟩
          else
            match result with
            | some sink =>
              if respBody.length > 0 then
                match Unmarshal respBody sink with
                | (sink2, some err) =>
                  ⟨some (Errorf (ascii "failed to unmarshal response: ") (some err)), some sink2,
                    [Event.unmarshal attempt respBody]⟩
                | (sink2, none) => ⟨none, some sink2, [Event.unmarshal attempt respBody]⟩
              else ⟨none, result, []⟩
            | none => ⟨none, result, []⟩)

/-- The variable `bodyBytes` of `Client.Do`: nil for a nil body, otherwise what
`json.Marshal(body)` returns. -/
def marshalBody {β σ : Type} (json : JSON β σ) (body : Option β) : Except GoError GoString :=
  match body with
  | none => Except.ok []
  | some b => json.Marshal b

/-- Model of `Client.Do`. The environment `env` says what the clock, the context, the
timers and the transport do during the call and `json` is the codec; the outcome holds
the error returned, what the result sink holds afterwards and the events of the call.
The body is marshalled (a nil body gives no bytes), the request is created and signed
once, and the loop starts at attempt 0 with `lastErr` nil. -/
def Client.Do {β σ : Type} (c : Client) (env : Env) (json : JSON β σ) (method path : GoString)
    (queryParams : List (GoString × GoString)) (body : Option β) (result : Option σ) :
    DoResult σ :=
  match marshalBody json body with
  | Except.error err =>
    ⟨some (Errorf (ascii "failed to marshal request body: ") (some err)), result, []⟩
  | Except.ok bodyBytes =>
    match c.DoRequest method path queryParams bodyBytes with
    | none =>
      ⟨some (Errorf (ascii "failed to create request: ") (some env.newRequestErr)), result, []⟩
    | some req =>
      c.retryLoop env json.Unmarshal method (c.DoURL path queryParams) result
        (c.maxRetries + 1).toNat 0 (c.signRequest req bodyBytes env.date) none

/-! ## Reading a run of the retry loop -/

/-- The outcomes after which the loop body executes `continue`: an error of
`c.httpClient.Do`, an error of `io.ReadAll`, a response with status 500 or more. -/
def RoundTrip.retryable : RoundTrip → Bool
  | RoundTrip.failed _ => true
  | RoundTrip.readFailed _ => true
  | RoundTrip.response statusCode _ => decide (statusCode ≥ 500)

/-- The value the loop body assigns to `lastErr` before `continue`. -/
def RoundTrip.lastErr : RoundTrip → GoError
  | RoundTrip.failed err => Errorf (ascii "request failed: ") (some err)
  | RoundTrip.readFailed err => Errorf (ascii "failed to read response: ") (some err)
  | RoundTrip.response statusCode respBody =>
    GoError.errorString (ascii "server error (" ++ itoa statusCode ++ ascii "): " ++ respBody)

/-- The request as attempt `a + m` finds it, when attempt `a` found `req`. -/
def requestAt (env : Env) : Nat → Nat → Request → Request
  | 0, _, req => req
  | m + 1, a, req => requestAt env m (a + 1) (drainBody env a req)

/-- The events of `m` consecutive passes of the loop body that each wait out the timer,
call the transport and `continue`, the first being attempt `a` with the request `req`. -/
def retryEvents (env : Env) : Nat → Nat → Request → List Event
  | 0, _, _ => []
  | m + 1, a, req => attemptEvents a req ++ retryEvents env m (a + 1) (drainBody env a req)

/-- The value of `lastErr` after `m` such passes, the first being attempt `a`. -/
def lastErrAfter (env : Env) (m a : Nat) (lastErr : Option GoError) : Option GoError :=
  if m = 0 then lastErr else some (env.roundTripAt (a + m - 1)).lastErr

/-- The loop gets as far as the call `c.httpClient.Do(req)` of attempt `k`: the attempts
before it end with `continue` and the backoff waits before the attempts 1 to `k` are
ended by the timer. -/
def Env.reaches (env : Env) (k : Nat) : Prop :=
  (∀ j, j < k → (env.roundTripAt j).retryable = true) ∧
  (∀ j, j < k → env.selectAt (j + 1) = SelectCase.timer)

instance (env : Env) (k : Nat) : Decidable (env.reaches k) := by
  unfold Env.reaches
  infer_instance

/-- The loop gets as far as the backoff wait before attempt `k + 1`, and there the
`select` is ended by `ctx.Done()` with `ctx.Err()` returning `ctxErr`. -/
def Env.cancelledBefore (env : Env) (k : Nat) (ctxErr : GoError) : Prop :=
  (∀ j, j < k + 1 → (env.roundTripAt j).retryable = true) ∧
  (∀ j, j < k → env.selectAt (j + 1) = SelectCase.timer) ∧
  env.selectAt (k + 1) = SelectCase.done ctxErr

instance (env : Env) (k : Nat) (ctxErr : GoError) : Decidable (env.cancelledBefore k ctxErr) := by
  unfold Env.cancelledBefore
  infer_instance

def Event.isRequest : Event → Bool
  | Event.request _ _ => true
  | _ => false

def Event.isWait : Event → Bool
  | Event.wait _ _ => true
  | _ => false

def Event.isUnmarshal : Event → Bool
  | Event.unmarshal _ _ => true
  | _ => false

/-- The number of calls `c.httpClient.Do(req)`. -/
def countRequests (evs : List Event) : Nat := evs.countP Event.isRequest

/-- The number of backoff waits ended by the timer. -/
def countWaits (evs : List Event) : Nat := evs.countP Event.isWait

/-- The number of calls `json.Unmarshal`. -/
def countUnmarshals (evs : List Event) : Nat := evs.countP Event.isUnmarshal

/-- What holds of the waits in a list of events: a wait, completed or cancelled, is
tagged with an attempt from 1 on and lasts the `backoff` of that attempt, and the request
of an attempt from 1 on comes right after the completed wait of that attempt. -/
def WaitsAreBackoffs (evs : List Event) : Prop :=
  (∀ k d, Event.wait k d ∈ evs → 1 ≤ k ∧ d = backoff k) ∧
  (∀ k d, Event.cancelled k d ∈ evs → 1 ≤ k ∧ d = backoff k) ∧
  (∀ k r, Event.request k r ∈ evs → 1 ≤ k →
    ∃ pre post, evs = pre ++ Event.wait k (backoff k) :: Event.request k r :: post)

/-- The requests handed to `c.httpClient.Do`, in order. -/
def requestsOf : List Event → List Request
  | [] => []
  | Event.request _ req :: rest => req :: requestsOf rest
  | _ :: rest => requestsOf rest

/-! ## Example environments used by the concrete evaluations -/

/-- A result sink with one string member `id`. -/
structure ExampleSink where
  id : GoString
deriving DecidableEq

/-- A decoder for the example sink, standing for `json.Unmarshal` on documents of the form
`\x7b"id":"..."\x7d` only: it stores the text between the quotes in `id`, and rejects
every other input, leaving the sink as it was. -/
def exampleUnmarshal (data : GoString) (sink : ExampleSink) : ExampleSink × Option GoError :=
  if data.take 7 = ascii "\x7b\x22id\x22:\x22" ∧ 9 ≤ data.length ∧
      data.drop (data.length - 2) = ascii "\x22\x7d" ∧
      ¬ ((data.drop 7).take (data.length - 9)).contains 34 then
    (⟨(data.drop 7).take (data.length - 9)⟩, none)
  else (sink, some (GoError.errorString (ascii "invalid character")))

/-- A codec whose request bodies are already JSON text; marshalling the empty text
fails, standing for a value `json.Marshal` rejects. -/
def exampleJSON : JSON GoString ExampleSink :=
  ⟨fun b => if b = [] then Except.error (GoError.errorString (ascii "json: unsupported value"))
    else Except.ok b, exampleUnmarshal⟩

/-- An environment given by the outcome of each attempt, the case each backoff `select`
takes and the number of body bytes each attempt reads, listed by attempt number; beyond
the lists the transport refuses the connection, the timer fires and nothing is read. -/
def scriptEnv (trips : List RoundTrip) (selects : List SelectCase) (reads : List Nat) : Env :=
  ⟨exampleDate, GoError.errorString (ascii "net/url: invalid control character in URL"),
    fun k => selects.getD k SelectCase.timer,
    fun k => reads.getD k 0,
    fun k => trips.getD k (RoundTrip.failed (GoError.errorString (ascii "connection refused")))⟩

/-- A transport that answers every attempt with status 503 and the body `busy`; no
cancellation. -/
def env503 : Env :=
  ⟨exampleDate, GoError.errorString (ascii "net/url: invalid control character in URL"),
    fun _ => SelectCase.timer, fun _ => 0, fun _ => RoundTrip.response 503 (ascii "busy")⟩

/-- The example client with 35 retries configured. -/
def exampleClient35 : Client := { exampleClient with maxRetries := 35 }

/-- The error `ctx.Err()` returns once the deadline of the context has passed. -/
def deadlineExceeded : GoError := GoError.errorString (ascii "context deadline exceeded")

/-- The error `c.httpClient.Do` returns for a GET of the example URL when the deadline of
the context passes while the request is in flight: a `*url.Error` around `ctx.Err()`. -/
def inFlightDeadline : GoError :=
  GoError.wrapError
    (ascii "Get \x22https://api.h3.cloud/api/vms/v1/vm1\x22: context deadline exceeded")
    deadlineExceeded

/-- The error `c.httpClient.Do` returns when the request declares a body of two bytes and
its body stream is already at its end. -/
def contentLengthMismatch : GoError :=
  GoError.errorString
    (ascii "Post \x22https://api.h3.cloud/api/vms/v1\x22: http: ContentLength=2 with Body length 0")

/-- Attempt 0 reads the two bytes of the body and is answered 503; the attempts 1 to 3
find the body stream at its end and fail in the transport. -/
def envDrainedBody : Env :=
  scriptEnv [RoundTrip.response 503 (ascii "busy"), RoundTrip.failed contentLengthMismatch,
    RoundTrip.failed contentLengthMismatch, RoundTrip.failed contentLengthMismatch] [] [2]

/-! ## `NewClient` and the provider configuration -/

/-- The type `Config`; `Timeout` is a `time.Duration` in nanoseconds. -/
structure Config where
  BaseURL : GoString
  KeyID : GoString
  SecretKey : GoString
  Timeout : Int
  MaxRetries : Int
deriving DecidableEq

/-- Model of `NewClient`: the error, or the client. -/
def NewClient (cfg : Config) : Except GoError Client :=
  if cfg.BaseURL = [] then
    Except.error (GoError.errorString (ascii "base URL is required"))
  else if cfg.KeyID = [] ∨ cfg.SecretKey = [] then
    Except.error
      (GoError.errorString (ascii "HMAC credentials (key_id and secret_key) are required"))
  else
    Except.ok
      { baseURL := cfg.BaseURL
        keyID := cfg.KeyID
        secretKey := cfg.SecretKey
        timeout := if cfg.Timeout = 0 then 30 * timeSecond else cfg.Timeout
        maxRetries := if cfg.MaxRetries = 0 then 3 else cfg.MaxRetries }

/-- The `client.Config` that `H3Provider.Configure` passes to `NewClient`, from the
resolved endpoint and credentials and from the attributes `timeout` and `max_retries`
(`none` for a null attribute): 30 and 3 unless the attribute is set,
`time.Duration(timeout) * time.Second` computed in `int64`. -/
def providerConfig (apiEndpoint keyID secretKey : GoString) (timeoutAttr : Option Int)
    (maxRetriesAttr : Option Int) : Config :=
  { BaseURL := apiEndpoint
    KeyID := keyID
    SecretKey := secretKey
    Timeout := wrapInt64 ((match timeoutAttr with | none => 30 | some t => t) * timeSecond)
    MaxRetries := match maxRetriesAttr with | none => 3 | some r => r }

/-! ## Total backoff -/

/-- The time one backoff wait ended by its timer takes: `time.After(d)` fires at once for
a duration that is not positive. -/
def Event.waited : Event → Int
  | Event.wait _ d => max d 0
  | _ => 0

/-- The total time spent in the backoff waits that were ended by their timer. -/
def totalWait : List Event → Int
  | [] => 0
  | e :: rest => e.waited + totalWait rest

/-- The time the backoff waits of `m` consecutive passes take, the first being attempt
`a`: attempt 0 has no wait. -/
def sumBackoff : Nat → Nat → Int
  | 0, _ => 0
  | m + 1, a => (if a > 0 then max (backoff a) 0 else 0) + sumBackoff m (a + 1)

/-! ## Unreserved characters, upper-case hex -/

/-- The unreserved characters of RFC 3986: ASCII letters, digits, `-`, `_`, `.`, `~`. -/
def isUnreserved (c : UInt8) : Bool :=
  isAlpha c || isDigit c || c = 45 || c = 95 || c = 46 || c = 126

/-- The upper-case rendering of a hex string: `a` to `f` become `A` to `F`. -/
def upperHex (s : GoString) : GoString :=
  s.map (fun (c : UInt8) => if 97 ≤ c.toNat ∧ c.toNat ≤ 102 then UInt8.ofNat (c.toNat - 32) else c)


/-! ## `internal/services/vm`: `VMResource.Create` up to the create request -/

/-- A value of the types `types.String`, `types.Int64` and `types.Bool` of the plugin
framework: null, unknown, or a known value. -/
inductive Attr (α : Type) where
  | null
  | unknown
  | known (v : α)
deriving DecidableEq

/-- The method `IsNull`. -/
def Attr.IsNull {α : Type} : Attr α → Bool
  | Attr.null => true
  | _ => false

/-- The method `ValueString`: the known value, the empty string for null and unknown. -/
def Attr.ValueString : Attr GoString → GoString
  | Attr.known v => v
  | _ => []

/-- The method `ValueInt64`: the known value, 0 for null and unknown. -/
def Attr.ValueInt64 : Attr Int → Int
  | Attr.known v => v
  | _ => 0

/-- The method `ValueBool`: the known value, false for null and unknown. -/
def Attr.ValueBool : Attr Bool → Bool
  | Attr.known v => v
  | _ => false

/-- The type `VMResourceModel`. -/
structure VMResourceModel where
  ID : Attr GoString
  ProjectID : Attr GoString
  Name : Attr GoString
  CPU : Attr Int
  Memory : Attr GoString
  DiskSize : Attr GoString
  Image : Attr GoString
  SSHKey : Attr GoString
  SSHKeyID : Attr GoString
  SubnetName : Attr GoString
  WhiteIP : Attr Bool
  SourceSnapshotID : Attr GoString
  SourceBackupID : Attr GoString
  Status : Attr GoString
  Endpoint : Attr GoString
deriving DecidableEq

/-- The type `CreateVMRequest`; a field never assigned holds the zero value. -/
structure CreateVMRequest where
  ProjectID : GoString
  Name : GoString
  CPU : Int
  Memory : GoString
  DiskSize : GoString
  Image : GoString
  SSHKey : GoString
  SSHKeyID : GoString
  SubnetName : GoString
  WhiteIP : Bool
  SourceSnapshotID : GoString
  SourceBackupID : GoString
deriving DecidableEq

/-- The object keys `json.Marshal` writes for a `CreateVMRequest`, in field order: a
field tagged `omitempty` is left out when it is the empty string. -/
def CreateVMRequest.jsonKeys (r : CreateVMRequest) : List String :=
  ["project_id", "name", "cpu", "memory"] ++
    (if r.DiskSize = [] then [] else ["disk_size"]) ++
    (if r.Image = [] then [] else ["image"]) ++
    (if r.SSHKey = [] then [] else ["ssh_key"]) ++
    (if r.SSHKeyID = [] then [] else ["ssh_key_id"]) ++
    (if r.SubnetName = [] then [] else ["subnet_name"]) ++
    ["white_ip"] ++
    (if r.SourceSnapshotID = [] then [] else ["source_snapshot_id"]) ++
    (if r.SourceBackupID = [] then [] else ["source_backup_id"])

/-- The severity of a diagnostic of the plugin framework. -/
inductive Severity where
  | Error
  | Warning
deriving DecidableEq

/-- A diagnostic of the plugin framework: severity, summary and detail. -/
structure Diagnostic where
  Severity : Severity
  Summary : String
  Detail : String
deriving DecidableEq

/-- The type `diag.Diagnostics`. -/
abbrev Diagnostics := List Diagnostic

/-- The method `Append`: each new diagnostic is added unless an equal one is there. -/
def Diagnostics.Append (d : Diagnostics) (more : Diagnostics) : Diagnostics :=
  more.foldl (fun acc x => if x ∈ acc then acc else acc ++ [x]) d

/-- The method `AddError`. -/
def Diagnostics.AddError (d : Diagnostics) (summary detail : String) : Diagnostics :=
  d.Append [⟨Severity.Error, summary, detail⟩]

/-- The method `HasError`. -/
def Diagnostics.HasError (d : Diagnostics) : Bool :=
  d.any (fun x => decide (x.Severity = Severity.Error))

/-- The local variable `hasSSHKey` of `VMResource.Create`. -/
def hasSSHKey (plan : VMResourceModel) : Bool :=
  !plan.SSHKey.IsNull && decide (plan.SSHKey.ValueString ≠ [])

/-- The local variable `hasSSHKeyID` of `VMResource.Create`. -/
def hasSSHKeyID (plan : VMResourceModel) : Bool :=
  !plan.SSHKeyID.IsNull && decide (plan.SSHKeyID.ValueString ≠ [])

/-- The variable `createReq` of `VMResource.Create` at the call of `r.client.Do`. The
conversion `int(plan.CPU.ValueInt64())` is the identity, `int` being 64 bits wide on the
platforms the provider is built for. -/
def createReqOf (plan : VMResourceModel) : CreateVMRequest :=
  let createReq : CreateVMRequest :=
    { ProjectID := plan.ProjectID.ValueString
      Name := plan.Name.ValueString
      CPU := plan.CPU.ValueInt64
      Memory := plan.Memory.ValueString
      DiskSize := []
      Image := []
      SSHKey := []
      SSHKeyID := []
      SubnetName := []
      WhiteIP := plan.WhiteIP.ValueBool
      SourceSnapshotID := []
      SourceBackupID := [] }
  let createReq :=
    if hasSSHKey plan then { createReq with SSHKey := plan.SSHKey.ValueString } else createReq
  let createReq :=
    if hasSSHKeyID plan then { createReq with SSHKeyID := plan.SSHKeyID.ValueString }
    else createReq
  let createReq :=
    if !plan.DiskSize.IsNull then { createReq with DiskSize := plan.DiskSize.ValueString }
    else createReq
  let createReq :=
    if !plan.Image.IsNull then { createReq with Image := plan.Image.ValueString } else createReq
  let createReq :=
    if !plan.SubnetName.IsNull then { createReq with SubnetName := plan.SubnetName.ValueString }
    else createReq
  let createReq :=
    if !plan.SourceSnapshotID.IsNull then
      { createReq with SourceSnapshotID := plan.SourceSnapshotID.ValueString }
    else createReq
  if !plan.SourceBackupID.IsNull then
    { createReq with SourceBackupID := plan.SourceBackupID.ValueString }
  else createReq

/-- An API call `r.client.Do(ctx, method, path, nil, body, &vm)`. -/
structure APICall where
  method : GoString
  path : GoString
  body : CreateVMRequest
deriving DecidableEq

/-- How far `VMResource.Create` gets before it touches the network: the diagnostics of
the response when it returns early or reaches the first call of `r.client.Do`, and that
call when it is reached. -/
structure CreateStart where
  Diagnostics : Diagnostics
  call : Option APICall
deriving DecidableEq

/-- Model of `VMResource.Create` up to and including its first call of `r.client.Do`.
The diagnostics the response starts with are `respDiags`; the call
`req.Plan.Get(ctx, &plan)` returns `planDiags` and leaves `plan` in the variable `plan`.
What follows the first API call (its error, the wait for the VM, the final read and the
state update) is not part of this model. -/
def VMResource.Create (respDiags planDiags : Diagnostics) (plan : VMResourceModel) :
    CreateStart :=
  let diags := respDiags.Append planDiags
  if diags.HasError then ⟨diags, none⟩
  else if !hasSSHKey plan && !hasSSHKeyID plan then
    ⟨diags.AddError "Missing SSH Key" "Either ssh_key or ssh_key_id must be provided", none⟩
  else if hasSSHKey plan && hasSSHKeyID plan then
    ⟨diags.AddError "Conflicting SSH Key Fields"
      "ssh_key and ssh_key_id are mutually exclusive - provide only one", none⟩
  else ⟨diags, some ⟨ascii "POST", ascii "/api/vms/v1", createReqOf plan⟩⟩

/-- A plan with the required attributes set and the given SSH key attributes. -/
def examplePlan (sshKey sshKeyID : Attr GoString) : VMResourceModel :=
  { ID := Attr.unknown
    ProjectID := Attr.known (ascii "p-1")
    Name := Attr.known (ascii "vm1")
    CPU := Attr.known 2
    Memory := Attr.known (ascii "4Gi")
    DiskSize := Attr.null
    Image := Attr.known (ascii "ubuntu-22.04")
    SSHKey := sshKey
    SSHKeyID := sshKeyID
    SubnetName := Attr.null
    WhiteIP := Attr.known false
    SourceSnapshotID := Attr.null
    SourceBackupID := Attr.null
    Status := Attr.unknown
    Endpoint := Attr.unknown }
/-! ## Lemmas: the order of `sort.Strings` -/

theorem strLe_refl (a : GoString) : strLe a a = true := by
  induction a with
  | nil => rfl
  | cons x xs ih => simp [strLe, ih]

theorem strLe_total (a b : GoString) : strLe a b = true ∨ strLe b a = true := by
  induction a generalizing b with
  | nil => left; rfl
  | cons x xs ih =>
    cases b with
    | nil => right; rfl
    | cons y ys =>
      rcases Nat.lt_trichotomy x.toNat y.toNat with h | h | h
      · left; simp [strLe, h]
      · rcases ih ys with h2 | h2
        · left; simp [strLe, h, h2]
        · right; simp [strLe, h, h2]
      · right; simp [strLe, h]

theorem strLe_antisymm (a b : GoString) (hab : strLe a b = true) (hba : strLe b a = true) :
    a = b := by
  induction a generalizing b with
  | nil =>
    cases b with
    | nil => rfl
    | cons y ys => simp [strLe] at hba
  | cons x xs ih =>
    cases b with
    | nil => simp [strLe] at hab
    | cons y ys =>
      rcases Nat.lt_trichotomy x.toNat y.toNat with h | h | h
      · have h2 : ¬ y.toNat < x.toNat := by omega
        simp [strLe, h, h2] at hba
      · have hxy : x = y := UInt8.toNat.inj h
        subst hxy
        simp [strLe] at hab hba
        rw [ih ys hab hba]
      · have h2 : ¬ x.toNat < y.toNat := by omega
        simp [strLe, h, h2] at hab

theorem strLe_trans (a b c : GoString) (hab : strLe a b = true) (hbc : strLe b c = true) :
    strLe a c = true := by
  induction a generalizing b c with
  | nil => rfl
  | cons x xs ih =>
    cases b with
    | nil => simp [strLe] at hab
    | cons y ys =>
      cases c with
      | nil => simp [strLe] at hbc
      | cons z zs =>
        rcases Nat.lt_trichotomy x.toNat y.toNat with h | h | h
        · rcases Nat.lt_trichotomy y.toNat z.toNat with g | g | g
          · have : x.toNat < z.toNat := by omega
            simp [strLe, this]
          · have : x.toNat < z.toNat := by omega
            simp [strLe, this]
          · have g2 : ¬ y.toNat < z.toNat := by omega
            simp [strLe, g, g2] at hbc
        · rcases Nat.lt_trichotomy y.toNat z.toNat with g | g | g
          · have : x.toNat < z.toNat := by omega
            simp [strLe, this]
          · have h1 : ¬ x.toNat < y.toNat := by omega
            have h2 : ¬ y.toNat < x.toNat := by omega
            have g1 : ¬ y.toNat < z.toNat := by omega
            have g2 : ¬ z.toNat < y.toNat := by omega
            have k1 : ¬ x.toNat < z.toNat := by omega
            have k2 : ¬ z.toNat < x.toNat := by omega
            simp only [strLe, h1, h2, g1, g2, k1, k2, if_false] at hab hbc ⊢
            exact ih ys zs hab hbc
          · have g2 : ¬ y.toNat < z.toNat := by omega
            simp [strLe, g, g2] at hbc
        · have h2 : ¬ x.toNat < y.toNat := by omega
          simp [strLe, h, h2] at hab

instance : IsTotal GoString StrLE := ⟨strLe_total⟩
instance : IsTrans GoString StrLE := ⟨strLe_trans⟩
instance : IsAntisymm GoString StrLE := ⟨strLe_antisymm⟩

theorem sortStrings_sorted (l : List GoString) : List.Sorted StrLE (sortStrings l) :=
  List.sorted_insertionSort StrLE l

theorem sortStrings_perm (l : List GoString) : (sortStrings l).Perm l :=
  List.perm_insertionSort StrLE l

/-- The result of `sort.Strings` depends only on the multiset of its input. -/
theorem sortStrings_eq_of_perm {l₁ l₂ : List GoString} (h : l₁.Perm l₂) :
    sortStrings l₁ = sortStrings l₂ :=
  List.eq_of_perm_of_sorted
    (((sortStrings_perm l₁).trans h).trans (sortStrings_perm l₂).symm)
    (sortStrings_sorted l₁) (sortStrings_sorted l₂)

/-- A sorted list is left unchanged by `sort.Strings`. -/
theorem sortStrings_of_sorted {l : List GoString} (h : List.Sorted StrLE l) :
    sortStrings l = l :=
  List.eq_of_perm_of_sorted (sortStrings_perm l) (sortStrings_sorted l) h

theorem sortStrings_pair (a b : GoString) (h : strLe a b = true) : sortStrings [a, b] = [a, b] := by
  apply sortStrings_of_sorted
  simp [List.Sorted, StrLE, h]

/-- The date line always sorts before the key-id line: they first differ at `d` < `k`. -/
theorem signedHeaders_sorted (date keyID : GoString) :
    sortStrings [ascii "x-h3-date:" ++ date, ascii "x-h3-key-id:" ++ keyID] =
      [ascii "x-h3-date:" ++ date, ascii "x-h3-key-id:" ++ keyID] := by
  apply sortStrings_pair
  rfl

/-! ## Lemmas: constant-time comparison, hex encoding, `strings.Join` -/

theorem nat_or_eq_zero (a b : Nat) : a ||| b = 0 ↔ a = 0 ∧ b = 0 := by
  constructor
  · intro h
    have key : ∀ i, (a.testBit i || b.testBit i) = false := by
      intro i
      have := congrArg (fun n => Nat.testBit n i) h
      simpa [Nat.testBit_or] using this
    constructor
    · apply Nat.eq_of_testBit_eq
      intro i
      have := key i
      simp at this
      simp [this.1]
    · apply Nat.eq_of_testBit_eq
      intro i
      have := key i
      simp at this
      simp [this.2]
  · rintro ⟨rfl, rfl⟩
    simp

theorem xorAcc_eq_zero (x y : GoString) (v : Nat) (hlen : x.length = y.length) :
    xorAcc x y v = 0 ↔ v = 0 ∧ x = y := by
  induction x generalizing y v with
  | nil =>
    cases y with
    | nil => simp [xorAcc]
    | cons b ys => simp at hlen
  | cons a xs ih =>
    cases y with
    | nil => simp at hlen
    | cons b ys =>
      simp only [List.length_cons, Nat.add_right_cancel_iff] at hlen
      rw [xorAcc, ih ys _ hlen, nat_or_eq_zero, Nat.xor_eq_zero]
      constructor
      · rintro ⟨⟨hv, hab⟩, hxs⟩
        exact ⟨hv, by rw [UInt8.toNat.inj hab, hxs]⟩
      · rintro ⟨hv, hxy⟩
        injection hxy with h1 h2
        exact ⟨⟨hv, by rw [h1]⟩, h2⟩

/-- The constant-time comparison decides equality of byte strings. -/
theorem ConstantTimeCompare_eq_true (x y : GoString) : ConstantTimeCompare x y = true ↔ x = y := by
  unfold ConstantTimeCompare
  by_cases hlen : x.length = y.length
  · simp [hlen, xorAcc_eq_zero x y 0 hlen]
  · simp only [ne_eq, hlen, not_false_eq_true, if_true]
    constructor
    · intro h; cases h
    · intro h; exact absurd (congrArg List.length h) hlen

theorem hexDigit_inj_table : ∀ m, m < 16 → ∀ n, n < 16 → hexDigit m = hexDigit n → m = n := by
  decide

theorem hexDigit_inj (m n : Nat) (hm : m < 16) (hn : n < 16) (h : hexDigit m = hexDigit n) :
    m = n := hexDigit_inj_table m hm n hn h

theorem hexEncode_injective (a b : GoString) (h : hexEncode a = hexEncode b) : a = b := by
  induction a generalizing b with
  | nil =>
    cases b with
    | nil => rfl
    | cons y ys => simp [hexEncode] at h
  | cons x xs ih =>
    cases b with
    | nil => simp [hexEncode] at h
    | cons y ys =>
      simp only [hexEncode, List.cons.injEq] at h
      obtain ⟨h1, h2, h3⟩ := h
      have hx := UInt8.toNat_lt_size x
      have hy := UInt8.toNat_lt_size y
      simp only [UInt8.size] at hx hy
      have e1 := hexDigit_inj _ _ (by omega) (by omega) h1
      have e2 := hexDigit_inj _ _ (by omega) (by omega) h2
      have : x = y := UInt8.toNat.inj (by omega)
      rw [this, ih ys h3]

theorem hexEncode_length (a : GoString) : (hexEncode a).length = 2 * a.length := by
  induction a with
  | nil => rfl
  | cons x xs ih => simp [hexEncode, ih]; omega

/-- The five-field join of the canonical request written as one concatenation. -/
theorem Join_five (a b c d e sep : GoString) :
    Join [a, b, c, d, e] sep = a ++ sep ++ b ++ sep ++ c ++ sep ++ d ++ sep ++ e := by
  simp [Join]

theorem Join_two (a b sep : GoString) : Join [a, b] sep = a ++ sep ++ b := by
  simp [Join]

/-! ## Test vectors for the models of `crypto/sha256` and `crypto/hmac` -/

set_option maxRecDepth 1000000 in
/-- The FIPS 180-4 example digest of "abc". -/
theorem sha256_abc :
    hexEncode (sha256 (ascii "abc")) =
      ascii "ba7816bf8f01cfea414140de5dae2223b00361a396177a9cb410ff61f20015ad" := by
  decide

set_option maxRecDepth 1000000 in
/-- Test case 2 of RFC 4231. -/
theorem hmacSha256_rfc4231_case2 :
    hexEncode (hmacSha256 (ascii "Jefe") (ascii "what do ya want for nothing?")) =
      ascii "5bdcc146bf60754e6a042426089575c75a003f089d2739839dec58b964ec3843" := by
  decide

/-! ## Lemmas: `http.Header` -/

theorem setEntry_get_same (es : List (GoString × List GoString)) (k v : GoString) :
    (Header.mk (setEntry es k v)).Get k = v := by
  induction es with
  | nil => simp [setEntry, Header.Get]
  | cons e rest ih =>
    obtain ⟨k2, vs⟩ := e
    by_cases h : k2 = k
    · simp [setEntry, h, Header.Get]
    · simp only [setEntry, h, if_false]
      simp only [Header.Get, List.find?_cons] at ih ⊢
      have hb : (k2 == k) = false := by simpa using h
      simp only [hb]
      exact ih

theorem setEntry_get_other (es : List (GoString × List GoString)) (k v k2 : GoString)
    (hne : k2 ≠ k) : (Header.mk (setEntry es k v)).Get k2 = (Header.mk es).Get k2 := by
  induction es with
  | nil =>
    have hb : (k == k2) = false := by simpa using fun h => hne h.symm
    simp [setEntry, Header.Get, List.find?_cons, hb]
  | cons e rest ih =>
    obtain ⟨k3, vs⟩ := e
    by_cases h : k3 = k
    · subst h
      have hb : (k3 == k2) = false := by simpa using fun h => hne h.symm
      simp [setEntry, Header.Get, List.find?_cons, hb]
    · simp only [setEntry, h, if_false]
      simp only [Header.Get, List.find?_cons] at ih ⊢
      by_cases h3 : k3 = k2
      · simp [h3]
      · have hb : (k3 == k2) = false := by simpa using h3
        simp only [hb]
        exact ih

theorem Header.get_set_same (h : Header) (k v : GoString) : (h.Set k v).Get k = v :=
  setEntry_get_same h.entries k v

theorem Header.get_set_other (h : Header) (k v k2 : GoString) (hne : k2 ≠ k) :
    (h.Set k v).Get k2 = h.Get k2 :=
  setEntry_get_other h.entries k v k2 hne

/-- The values of the four headers after the four `Set` calls of `signRequest`. -/
theorem signRequest_headers (c : Client) (req : Request) (body date : GoString) :
    (c.signRequest req body date).Header.Get (ascii "Content-Type") = ascii "application/json" ∧
    (c.signRequest req body date).Header.Get (ascii "X-H3-Key-Id") = c.keyID ∧
    (c.signRequest req body date).Header.Get (ascii "X-H3-Date") = date ∧
    (c.signRequest req body date).Header.Get (ascii "X-H3-Signature") =
      c.signature req body date := by
  simp only [Client.signRequest]
  refine ⟨?_, ?_, ?_, ?_⟩
  · rw [Header.get_set_other _ _ _ _ (by decide), Header.get_set_other _ _ _ _ (by decide),
      Header.get_set_other _ _ _ _ (by decide), Header.get_set_same]
  · rw [Header.get_set_other _ _ _ _ (by decide), Header.get_set_other _ _ _ _ (by decide),
      Header.get_set_same]
  · rw [Header.get_set_other _ _ _ _ (by decide), Header.get_set_same]
  · rw [Header.get_set_same]

/-- The canonical string of the verifier as one concatenation. -/
theorem BuildCanonicalRequestRange_eq (r : Request) (body : GoString) (query : Values) :
    BuildCanonicalRequestRange r body query =
      r.Method ++ ascii "\n" ++ r.URL.Path ++ ascii "\n" ++ canonicalQueryOf query ++ ascii "\n" ++
        (ascii "x-h3-date:" ++ r.Header.Get (ascii "X-H3-Date") ++ ascii "\n" ++
          (ascii "x-h3-key-id:" ++ r.Header.Get (ascii "X-H3-Key-Id"))) ++ ascii "\n" ++
        hexEncode (sha256 body) := by
  simp only [BuildCanonicalRequestRange, signedHeaders_sorted, Join_five, Join_two]

/-- The canonical string of the signer as one concatenation. -/
theorem signCanonical_eq (c : Client) (req : Request) (body date : GoString) :
    c.signCanonical req body date =
      req.Method ++ ascii "\n" ++ req.URL.Path ++ ascii "\n" ++ req.URL.RawQuery ++ ascii "\n" ++
        (ascii "x-h3-date:" ++ date ++ ascii "\n" ++ (ascii "x-h3-key-id:" ++ c.keyID)) ++
        ascii "\n" ++ hexEncode (sha256 body) := by
  have hq : (if req.URL.RawQuery ≠ [] then req.URL.RawQuery else []) = req.URL.RawQuery := by
    by_cases h : req.URL.RawQuery = [] <;> simp [h]
  simp only [Client.signCanonical, signedHeaders_sorted, Join_five, Join_two, hq]

/-- The function `VerifyHMAC` accepts exactly the lowercase hex HMAC of the canonical string. -/
theorem VerifyHMAC_eq_true_iff (secretKey canonical signature : GoString) :
    VerifyHMAC secretKey canonical signature = true ↔
      signature = hexEncode (hmacSha256 secretKey canonical) := by
  simp only [VerifyHMAC, hmacEqual, ConstantTimeCompare_eq_true]
  exact eq_comm

/-! ## Lemmas: query canonicalization -/

theorem queryPartsOfValues_append (a b : Values) :
    queryPartsOfValues (a ++ b) = queryPartsOfValues a ++ queryPartsOfValues b := by
  induction a with
  | nil => rfl
  | cons e rest ih =>
    obtain ⟨k, vs⟩ := e
    simp [queryPartsOfValues, ih]

/-- Visiting the entries of the query map in another order permutes the parts. -/
theorem queryPartsOfValues_perm {v₁ v₂ : Values} (h : v₁.Perm v₂) :
    (queryPartsOfValues v₁).Perm (queryPartsOfValues v₂) := by
  induction h with
  | nil => exact List.Perm.refl _
  | cons e _ ih =>
    obtain ⟨k, vs⟩ := e
    simp only [queryPartsOfValues]
    exact List.Perm.append_left _ ih
  | swap e₁ e₂ l =>
    obtain ⟨k₁, vs₁⟩ := e₁
    obtain ⟨k₂, vs₂⟩ := e₂
    simp only [queryPartsOfValues, ← List.append_assoc]
    exact List.Perm.append_right _ List.perm_append_comm
  | trans _ _ ih₁ ih₂ => exact ih₁.trans ih₂

/-- A string is a part exactly when it is `k=v` for a value `v` stored under a key `k`. -/
theorem mem_queryPartsOfValues (query : Values) (s : GoString) :
    s ∈ queryPartsOfValues query ↔
      ∃ k vs v, (k, vs) ∈ query ∧ v ∈ vs ∧ s = k ++ ascii "=" ++ v := by
  induction query with
  | nil => simp [queryPartsOfValues]
  | cons e rest ih =>
    obtain ⟨k0, vs0⟩ := e
    simp only [queryPartsOfValues, List.mem_append, List.mem_map, ih, List.mem_cons]
    constructor
    · rintro (⟨v, hv, rfl⟩ | ⟨k, vs, v, hm, hv, rfl⟩)
      · exact ⟨k0, vs0, v, Or.inl rfl, hv, rfl⟩
      · exact ⟨k, vs, v, Or.inr hm, hv, rfl⟩
    · rintro ⟨k, vs, v, hm | hm, hv, rfl⟩
      · injection hm with h1 h2
        subst h1 h2
        exact Or.inl ⟨v, hv, rfl⟩
      · exact Or.inr ⟨k, vs, v, hm, hv, rfl⟩

theorem canonicalQueryOf_perm {v₁ v₂ : Values}
    (h : (queryPartsOfValues v₁).Perm (queryPartsOfValues v₂)) :
    canonicalQueryOf v₁ = canonicalQueryOf v₂ := by
  simp only [canonicalQueryOf, sortStrings_eq_of_perm h]

theorem DoURL_perm (c : Client) (path : GoString) {q₁ q₂ : List (GoString × GoString)}
    (h : (queryPartsOfParams q₁).Perm (queryPartsOfParams q₂)) :
    c.DoURL path q₁ = c.DoURL path q₂ := by
  have hlen : q₁.length = q₂.length := by
    simpa [queryPartsOfParams] using h.length_eq
  simp only [Client.DoURL, hlen, sortStrings_eq_of_perm h]

theorem queryPartsOfParams_perm {q₁ q₂ : List (GoString × GoString)} (h : q₁.Perm q₂) :
    (queryPartsOfParams q₁).Perm (queryPartsOfParams q₂) :=
  h.map _

/-! ## Lemmas: `url.ParseQuery` -/

theorem queryPartsOfValues_add (m : Values) (k v : GoString) :
    (queryPartsOfValues (m.add k v)).Perm (queryPartsOfValues m ++ [k ++ ascii "=" ++ v]) := by
  induction m with
  | nil => simp [Values.add, queryPartsOfValues]
  | cons e rest ih =>
    obtain ⟨k2, vs⟩ := e
    by_cases h : k2 = k
    · subst h
      simp only [Values.add, if_true, queryPartsOfValues, List.map_append, List.map_cons,
        List.map_nil, List.append_assoc]
      exact List.Perm.append_left _ List.perm_append_comm
    · simp only [Values.add, h, if_false, queryPartsOfValues]
      rw [List.append_assoc]
      exact List.Perm.append_left _ ih

theorem queryPartsOfValues_step (m : Values) (seg : GoString) :
    (queryPartsOfValues (parseQueryStep m seg)).Perm
      (queryPartsOfValues m ++ (decodedPart seg).toList) := by
  unfold parseQueryStep decodedPart
  by_cases h1 : seg.contains 59 = true
  · rw [if_pos h1, if_pos h1]
    simp
  · by_cases h2 : seg = []
    · rw [if_neg h1, if_neg h1, if_pos h2, if_pos h2]
      simp
    · rw [if_neg h1, if_neg h1, if_neg h2, if_neg h2]
      cases hk : QueryUnescape (Cut 61 seg).1 with
      | none => simp
      | some k =>
        cases hv : QueryUnescape (Cut 61 seg).2.1 with
        | none => simp
        | some v => simpa using queryPartsOfValues_add m k v

theorem queryPartsOfValues_foldl (segs : List GoString) (m : Values) :
    (queryPartsOfValues (segs.foldl parseQueryStep m)).Perm
      (queryPartsOfValues m ++ segs.filterMap decodedPart) := by
  induction segs generalizing m with
  | nil => simp
  | cons seg rest ih =>
    simp only [List.foldl_cons]
    refine (ih _).trans ?_
    refine ((queryPartsOfValues_step m seg).append_right _).trans ?_
    rw [List.append_assoc]
    refine List.Perm.append_left _ ?_
    cases h : decodedPart seg with
    | none => simp [List.filterMap_cons, h]
    | some p => simp [List.filterMap_cons, h]

/-- The parts built from `URL.Query()` are, up to order, the decoded parts of the
`&`-separated segments of the raw query. -/
theorem queryPartsOfValues_ParseQuery (query : GoString) :
    (queryPartsOfValues (ParseQuery query)).Perm ((Split 38 query).filterMap decodedPart) := by
  simpa [ParseQuery, queryPartsOfValues] using queryPartsOfValues_foldl (Split 38 query) []

/-- A byte other than `%` and `+` is copied by `unescape`. -/
theorem unescape_cons_plain (p : Bool) (c : UInt8) (rest : GoString) (h37 : c ≠ 37)
    (h43 : c ≠ 43) : unescape p (c :: rest) = (unescape p rest).map (fun t => c :: t) := by
  rcases rest with _ | ⟨h1, _ | ⟨h2, r2⟩⟩ <;> simp [unescape, h37, h43]

/-- A string without `%` and `+` is left unchanged by `url.QueryUnescape`. -/
theorem QueryUnescape_of_plain (s : GoString) (h : ∀ b ∈ s, b ≠ 37 ∧ b ≠ 43) :
    QueryUnescape s = some s := by
  unfold QueryUnescape
  induction s with
  | nil => rfl
  | cons c rest ih =>
    have hc := h c (List.mem_cons_self _ _)
    have ih2 := ih (fun b hb => h b (List.mem_cons_of_mem _ hb))
    rw [unescape_cons_plain true c rest hc.1 hc.2, ih2]
    rfl

theorem Cut_fst_subset (c : UInt8) (s : GoString) : ∀ b ∈ (Cut c s).1, b ∈ s := by
  induction s with
  | nil => simp [Cut]
  | cons x rest ih =>
    intro b hb
    by_cases hx : x = c
    · simp [Cut, hx] at hb
    · simp only [Cut, hx, if_false, List.mem_cons] at hb ⊢
      rcases hb with hb | hb
      · exact Or.inl hb
      · exact Or.inr (ih b hb)

theorem Cut_snd_subset (c : UInt8) (s : GoString) : ∀ b ∈ (Cut c s).2.1, b ∈ s := by
  induction s with
  | nil => simp [Cut]
  | cons x rest ih =>
    intro b hb
    by_cases hx : x = c
    · simp only [Cut, hx, if_true] at hb
      exact List.mem_cons_of_mem _ hb
    · simp only [Cut, hx, if_false] at hb
      exact List.mem_cons_of_mem _ (ih b hb)

theorem Split_ne_nil (c : UInt8) (s : GoString) : Split c s ≠ [] := by
  cases s with
  | nil => simp [Split]
  | cons x rest =>
    by_cases hx : x = c
    · simp [Split, hx]
    · simp only [Split, hx, if_false]
      split <;> simp

theorem Split_subset (c : UInt8) (s : GoString) : ∀ seg ∈ Split c s, ∀ b ∈ seg, b ∈ s := by
  induction s with
  | nil => simp [Split]
  | cons x rest ih =>
    intro seg hseg b hb
    by_cases hx : x = c
    · simp only [Split, hx, if_true, List.mem_cons] at hseg
      rcases hseg with hseg | hseg
      · subst hseg; simp at hb
      · exact List.mem_cons_of_mem _ (ih seg hseg b hb)
    · simp only [Split, hx, if_false] at hseg
      cases hs : Split c rest with
      | nil => exact absurd hs (Split_ne_nil c rest)
      | cons s0 segs =>
        rw [hs] at hseg ih
        simp only [List.mem_cons] at hseg
        rcases hseg with hseg | hseg
        · subst hseg
          simp only [List.mem_cons] at hb ⊢
          rcases hb with hb | hb
          · exact Or.inl hb
          · exact Or.inr (ih s0 (List.mem_cons_self _ _) b hb)
        · exact List.mem_cons_of_mem _ (ih seg (List.mem_cons_of_mem _ hseg) b hb)

/-- A non-empty segment without `%`, `+` and `;` contributes its raw text. -/
theorem decodedPart_of_plain (seg : GoString) (hne : seg ≠ [])
    (h : ∀ b ∈ seg, b ≠ 37 ∧ b ≠ 43 ∧ b ≠ 59) : decodedPart seg = some (rawPart seg) := by
  have h59 : ¬ (seg.contains 59 = true) := by
    intro hc
    exact (h 59 (List.mem_of_elem_eq_true hc)).2.2 rfl
  have hk := QueryUnescape_of_plain (Cut 61 seg).1
    (fun b hb => ⟨(h b (Cut_fst_subset 61 seg b hb)).1, (h b (Cut_fst_subset 61 seg b hb)).2.1⟩)
  have hv := QueryUnescape_of_plain (Cut 61 seg).2.1
    (fun b hb => ⟨(h b (Cut_snd_subset 61 seg b hb)).1, (h b (Cut_snd_subset 61 seg b hb)).2.1⟩)
  unfold decodedPart
  rw [if_neg h59, if_neg hne, hk, hv]
  rfl

theorem filterMap_decodedPart_of_plain (segs : List GoString)
    (h : ∀ seg ∈ segs, ∀ b ∈ seg, b ≠ 37 ∧ b ≠ 43 ∧ b ≠ 59) :
    segs.filterMap decodedPart = (segs.filter (fun seg => seg ≠ [])).map rawPart := by
  induction segs with
  | nil => rfl
  | cons seg rest ih =>
    have ih2 := ih (fun s hs => h s (List.mem_cons_of_mem _ hs))
    by_cases hne : seg = []
    · subst hne
      simp [List.filterMap_cons, decodedPart, ih2]
    · have hd := decodedPart_of_plain seg hne (h seg (List.mem_cons_self _ _))
      simp [List.filterMap_cons, hd, hne, ih2]

/-! ## Signer against verifier -/

set_option maxRecDepth 1000000 in
/-- C1, evaluated where the code diverges from it. For the call
`Do(ctx, "GET", "/api/s3/v1/buckets/b", {"project_id": "a+b"}, nil, ...)` the request is
created, `signRequest` signs the canonical query `project_id=a+b` taken verbatim from
`URL.RawQuery`, and `BuildCanonicalRequest` on that same signed request rebuilds the
canonical query `project_id=a b` from `URL.Query()`: the two canonical strings differ. -/
theorem signCanonical_ne_BuildCanonicalRequest_at_plus :
    (exampleClient.DoRequest (ascii "GET") (ascii "/api/s3/v1/buckets/b")
        [(ascii "project_id", ascii "a+b")] []).map
      (fun req => exampleClient.signCanonical req [] exampleDate) =
      some (ascii "GET\n/api/s3/v1/buckets/b\nproject_id=a+b\nx-h3-date:2024-01-01T00:00:00Z\nx-h3-key-id:key1\ne3b0c44298fc1c149afbf4c8996fb92427ae41e4649b934ca495991b7852b855") ∧
    (exampleClient.DoSigned (ascii "GET") (ascii "/api/s3/v1/buckets/b")
        [(ascii "project_id", ascii "a+b")] [] exampleDate).map
      (fun req => BuildCanonicalRequest req []) =
      some (ascii "GET\n/api/s3/v1/buckets/b\nproject_id=a b\nx-h3-date:2024-01-01T00:00:00Z\nx-h3-key-id:key1\ne3b0c44298fc1c149afbf4c8996fb92427ae41e4649b934ca495991b7852b855") ∧
    (exampleClient.DoRequest (ascii "GET") (ascii "/api/s3/v1/buckets/b")
        [(ascii "project_id", ascii "a+b")] []).map
      (fun req => decide (exampleClient.signCanonical req [] exampleDate =
        BuildCanonicalRequest (exampleClient.signRequest req [] exampleDate) [])) =
      some false := by
  decide

set_option maxRecDepth 1000000 in
/-- C2, evaluated where the code diverges from it. The request of the call
`Do(ctx, "GET", "/api/s3/v1/buckets/b", {"project_id": "a+b"}, nil, ...)`, signed by
`signRequest` with the non-empty credentials `key1` / `secret`, carries the three headers
(`ExtractHeaders` succeeds), and `VerifyHMAC` with the same secret over the canonical
string `BuildCanonicalRequest` rebuilds returns false. -/
theorem verify_sign_false_at_plus :
    (exampleClient.DoSigned (ascii "GET") (ascii "/api/s3/v1/buckets/b")
        [(ascii "project_id", ascii "a+b")] [] exampleDate).map
      (fun req => (ExtractHeaders req, verifyRequest exampleClient.secretKey req)) =
      some ((ascii "key1", exampleDate,
          ascii "3532a59eeeefd421c43674c73efbb73787b4a9e1f5a19bd2b33332f4519657eb", none),
        some false) := by
  decide

/-! ## Tampering -/

/-- Once a signature is valid for one canonical string, it is valid for another exactly
when the two have the same HMAC. -/
theorem VerifyHMAC_of_valid (secretKey c c2 signature : GoString)
    (hvalid : VerifyHMAC secretKey c signature = true) :
    VerifyHMAC secretKey c2 signature = true ↔
      hmacSha256 secretKey c2 = hmacSha256 secretKey c := by
  rw [VerifyHMAC_eq_true_iff] at hvalid ⊢
  subst hvalid
  constructor
  · intro h; exact (hexEncode_injective _ _ h).symm
  · intro h; rw [h]

/-- Cancellation in the five-field layout: when at most one of the last four fields
differs, equal layouts have equal fields. -/
theorem canonical_fields_eq {α : Type} (m p nl dp kp q q2 d d2 k k2 h h2 : List α)
    (hone : (q2 = q ∧ d2 = d ∧ k2 = k) ∨ (q2 = q ∧ d2 = d ∧ h2 = h) ∨
      (q2 = q ∧ k2 = k ∧ h2 = h) ∨ (d2 = d ∧ k2 = k ∧ h2 = h))
    (heq : m ++ nl ++ p ++ nl ++ q2 ++ nl ++ (dp ++ d2 ++ nl ++ (kp ++ k2)) ++ nl ++ h2 =
      m ++ nl ++ p ++ nl ++ q ++ nl ++ (dp ++ d ++ nl ++ (kp ++ k)) ++ nl ++ h) :
    q2 = q ∧ d2 = d ∧ k2 = k ∧ h2 = h := by
  rcases hone with ⟨h1, h2, h3⟩ | ⟨h1, h2, h3⟩ | ⟨h1, h2, h3⟩ | ⟨h1, h2, h3⟩
  · subst h1 h2 h3
    simp only [List.append_assoc, List.append_cancel_left_eq] at heq
    exact ⟨rfl, rfl, rfl, heq⟩
  · subst h1 h2 h3
    simp only [List.append_assoc, List.append_cancel_left_eq, List.append_cancel_right_eq] at heq
    exact ⟨rfl, rfl, heq, rfl⟩
  · subst h1 h2 h3
    simp only [List.append_assoc, List.append_cancel_left_eq, List.append_cancel_right_eq] at heq
    exact ⟨rfl, heq, rfl, rfl⟩
  · subst h1 h2 h3
    simp only [List.append_assoc, List.append_cancel_left_eq, List.append_cancel_right_eq] at heq
    exact ⟨heq, rfl, rfl, rfl⟩

/-- The canonical string determines each of its last four fields when the others are
held fixed. -/
theorem BuildCanonicalRequest_eq_iff (r r2 : Request) (body body2 : GoString)
    (hm : r2.Method = r.Method) (hp : r2.URL.Path = r.URL.Path)
    (hone :
      (canonicalQueryOf r2.URL.Query = canonicalQueryOf r.URL.Query ∧
        r2.Header.Get (ascii "X-H3-Date") = r.Header.Get (ascii "X-H3-Date") ∧
        r2.Header.Get (ascii "X-H3-Key-Id") = r.Header.Get (ascii "X-H3-Key-Id")) ∨
      (canonicalQueryOf r2.URL.Query = canonicalQueryOf r.URL.Query ∧
        r2.Header.Get (ascii "X-H3-Date") = r.Header.Get (ascii "X-H3-Date") ∧
        sha256 body2 = sha256 body) ∨
      (canonicalQueryOf r2.URL.Query = canonicalQueryOf r.URL.Query ∧
        r2.Header.Get (ascii "X-H3-Key-Id") = r.Header.Get (ascii "X-H3-Key-Id") ∧
        sha256 body2 = sha256 body) ∨
      (r2.Header.Get (ascii "X-H3-Date") = r.Header.Get (ascii "X-H3-Date") ∧
        r2.Header.Get (ascii "X-H3-Key-Id") = r.Header.Get (ascii "X-H3-Key-Id") ∧
        sha256 body2 = sha256 body)) :
    BuildCanonicalRequest r2 body2 = BuildCanonicalRequest r body ↔
      canonicalQueryOf r2.URL.Query = canonicalQueryOf r.URL.Query ∧
      r2.Header.Get (ascii "X-H3-Date") = r.Header.Get (ascii "X-H3-Date") ∧
      r2.Header.Get (ascii "X-H3-Key-Id") = r.Header.Get (ascii "X-H3-Key-Id") ∧
      sha256 body2 = sha256 body := by
  rw [BuildCanonicalRequest, BuildCanonicalRequest, BuildCanonicalRequestRange_eq,
    BuildCanonicalRequestRange_eq, hm, hp]
  generalize canonicalQueryOf r2.URL.Query = q2 at hone ⊢
  generalize canonicalQueryOf r.URL.Query = q at hone ⊢
  generalize r2.Header.Get (ascii "X-H3-Date") = d2 at hone ⊢
  generalize r.Header.Get (ascii "X-H3-Date") = d at hone ⊢
  generalize r2.Header.Get (ascii "X-H3-Key-Id") = k2 at hone ⊢
  generalize r.Header.Get (ascii "X-H3-Key-Id") = k at hone ⊢
  generalize hh2 : sha256 body2 = s2 at hone ⊢
  generalize hh : sha256 body = s at hone ⊢
  constructor
  · intro heq
    have hone2 : (q2 = q ∧ d2 = d ∧ k2 = k) ∨ (q2 = q ∧ d2 = d ∧ hexEncode s2 = hexEncode s) ∨
        (q2 = q ∧ k2 = k ∧ hexEncode s2 = hexEncode s) ∨
        (d2 = d ∧ k2 = k ∧ hexEncode s2 = hexEncode s) := by
      rcases hone with ⟨h1, h2, h3⟩ | ⟨h1, h2, h3⟩ | ⟨h1, h2, h3⟩ | ⟨h1, h2, h3⟩
      · exact Or.inl ⟨h1, h2, h3⟩
      · exact Or.inr (Or.inl ⟨h1, h2, congrArg hexEncode h3⟩)
      · exact Or.inr (Or.inr (Or.inl ⟨h1, h2, congrArg hexEncode h3⟩))
      · exact Or.inr (Or.inr (Or.inr ⟨h1, h2, congrArg hexEncode h3⟩))
    obtain ⟨e1, e2, e3, e4⟩ := canonical_fields_eq _ _ _ _ _ _ _ _ _ _ _ _ _ hone2 heq
    exact ⟨e1, e2, e3, hexEncode_injective _ _ e4⟩
  · rintro ⟨h1, h2, h3, h4⟩
    rw [h1, h2, h3, h4]

set_option maxRecDepth 1000000 in
/-- C3, evaluated where the code diverges from it. A signature that `VerifyHMAC` accepts
for a request whose query holds the values `1&a=2` and `1&a=2&a=1` under the key `a` is
still accepted after the first value is changed to `2&a=1`, signature and everything else
unchanged: `BuildCanonicalRequest` joins the decoded values without escaping them, so
both queries canonicalize to `a=1&a=2&a=1&a=2&a=1`. -/
theorem tamper_query_value_undetected :
    VerifyHMAC (ascii "secret")
      (BuildCanonicalRequest
        (exampleRequest (ascii "a=1%26a%3D2&a=1%26a%3D2%26a%3D1") (ascii "key1") []) [])
      (ascii "de0bad5b6e60060312bfbde350070c2e2a7c3c72693a1c1ebc2725738275d579") = true ∧
    (exampleRequest (ascii "a=1%26a%3D2&a=1%26a%3D2%26a%3D1") (ascii "key1") []).URL.Query =
      [(ascii "a", [ascii "1&a=2", ascii "1&a=2&a=1"])] ∧
    (exampleRequest (ascii "a=2%26a%3D1&a=1%26a%3D2%26a%3D1") (ascii "key1") []).URL.Query =
      [(ascii "a", [ascii "2&a=1", ascii "1&a=2&a=1"])] ∧
    VerifyHMAC (ascii "secret")
      (BuildCanonicalRequest
        (exampleRequest (ascii "a=2%26a%3D1&a=1%26a%3D2%26a%3D1") (ascii "key1") []) [])
      (ascii "de0bad5b6e60060312bfbde350070c2e2a7c3c72693a1c1ebc2725738275d579") = true := by
  decide

/-- Tampering with one component. Let `signature` be valid for the request `r` with body
`body`, and let `r2`, `body2` keep the method and the path and differ from them in at
most one of: the query, the X-H3-Date value, the X-H3-Key-Id value, the body. Then the rebuilt canonical
string is unchanged exactly when the sorted `&`-join of the decoded query parts, the
date, the key id and the SHA-256 digest of the body are all unchanged (so every change
of the date or of the key id changes it), and `VerifyHMAC` over the rebuilt canonical
string returns false exactly when its HMAC-SHA256 differs from that of the original. -/
theorem tamper_detected_iff_hmac_differs (secretKey signature : GoString) (r r2 : Request)
    (body body2 : GoString)
    (hvalid : VerifyHMAC secretKey (BuildCanonicalRequest r body) signature = true)
    (hm : r2.Method = r.Method) (hp : r2.URL.Path = r.URL.Path)
    (hone :
      (canonicalQueryOf r2.URL.Query = canonicalQueryOf r.URL.Query ∧
        r2.Header.Get (ascii "X-H3-Date") = r.Header.Get (ascii "X-H3-Date") ∧
        r2.Header.Get (ascii "X-H3-Key-Id") = r.Header.Get (ascii "X-H3-Key-Id")) ∨
      (canonicalQueryOf r2.URL.Query = canonicalQueryOf r.URL.Query ∧
        r2.Header.Get (ascii "X-H3-Date") = r.Header.Get (ascii "X-H3-Date") ∧
        sha256 body2 = sha256 body) ∨
      (canonicalQueryOf r2.URL.Query = canonicalQueryOf r.URL.Query ∧
        r2.Header.Get (ascii "X-H3-Key-Id") = r.Header.Get (ascii "X-H3-Key-Id") ∧
        sha256 body2 = sha256 body) ∨
      (r2.Header.Get (ascii "X-H3-Date") = r.Header.Get (ascii "X-H3-Date") ∧
        r2.Header.Get (ascii "X-H3-Key-Id") = r.Header.Get (ascii "X-H3-Key-Id") ∧
        sha256 body2 = sha256 body)) :
    (BuildCanonicalRequest r2 body2 = BuildCanonicalRequest r body ↔
      canonicalQueryOf r2.URL.Query = canonicalQueryOf r.URL.Query ∧
      r2.Header.Get (ascii "X-H3-Date") = r.Header.Get (ascii "X-H3-Date") ∧
      r2.Header.Get (ascii "X-H3-Key-Id") = r.Header.Get (ascii "X-H3-Key-Id") ∧
      sha256 body2 = sha256 body) ∧
    (VerifyHMAC secretKey (BuildCanonicalRequest r2 body2) signature = false ↔
      hmacSha256 secretKey (BuildCanonicalRequest r2 body2) ≠
        hmacSha256 secretKey (BuildCanonicalRequest r body)) := by
  refine ⟨BuildCanonicalRequest_eq_iff r r2 body body2 hm hp hone, ?_⟩
  rw [Ne, ← VerifyHMAC_of_valid secretKey _ _ signature hvalid]
  cases VerifyHMAC secretKey (BuildCanonicalRequest r2 body2) signature <;> simp

set_option maxRecDepth 1000000 in
/-- An instance of the lemma on tampering: the key id of a validly signed request is
changed from `key1` to `key2`; the canonical string changes and `VerifyHMAC` returns false. -/
theorem tamper_detected_iff_hmac_differs_witness :
    VerifyHMAC (ascii "secret")
      (BuildCanonicalRequest (exampleRequest (ascii "a=1") (ascii "key1") []) [])
      (ascii "a1935a6725d3d37dab5932351dcbc589a6b554a8cc1990fa3b7472b35774c73f") = true ∧
    BuildCanonicalRequest (exampleRequest (ascii "a=1") (ascii "key2") []) [] ≠
      BuildCanonicalRequest (exampleRequest (ascii "a=1") (ascii "key1") []) [] ∧
    VerifyHMAC (ascii "secret")
      (BuildCanonicalRequest (exampleRequest (ascii "a=1") (ascii "key2") []) [])
      (ascii "a1935a6725d3d37dab5932351dcbc589a6b554a8cc1990fa3b7472b35774c73f") = false :=
  have h := tamper_detected_iff_hmac_differs (ascii "secret")
    (ascii "a1935a6725d3d37dab5932351dcbc589a6b554a8cc1990fa3b7472b35774c73f")
    (exampleRequest (ascii "a=1") (ascii "key1") [])
    (exampleRequest (ascii "a=1") (ascii "key2") []) [] []
    (by decide) rfl rfl (Or.inr (Or.inl ⟨rfl, rfl, rfl⟩))
  ⟨by decide, fun heq => absurd (h.1.mp heq).2.2.1 (by decide), h.2.mpr (by decide)⟩

/-! ## Order independence and the format of the canonical string -/

/-- C4. Visiting the entries of `queryParams` in another order leaves the URL built by
`Client.Do`, the request it creates and the signed request (canonical string and
signature included) unchanged; visiting the entries of the query map in another order
leaves the canonical query and the canonical string of `BuildCanonicalRequest` unchanged.
More generally each result is the same for any two inputs that yield the same multiset
of `key=value` strings. -/
theorem query_order_independent (c : Client) (method path body date : GoString)
    (q₁ q₂ : List (GoString × GoString)) (r : Request) (v₁ v₂ : Values)
    (hq : q₁.Perm q₂) (hv : v₁.Perm v₂) :
    c.DoURL path q₁ = c.DoURL path q₂ ∧
    c.DoRequest method path q₁ body = c.DoRequest method path q₂ body ∧
    c.DoSigned method path q₁ body date = c.DoSigned method path q₂ body date ∧
    canonicalQueryOf v₁ = canonicalQueryOf v₂ ∧
    BuildCanonicalRequestRange r body v₁ = BuildCanonicalRequestRange r body v₂ ∧
    (∀ q₃, (queryPartsOfParams q₃).Perm (queryPartsOfParams q₁) →
      c.DoURL path q₃ = c.DoURL path q₁) ∧
    (∀ v₃, (queryPartsOfValues v₃).Perm (queryPartsOfValues v₁) →
      BuildCanonicalRequestRange r body v₃ = BuildCanonicalRequestRange r body v₁) := by
  have hurl := DoURL_perm c path (queryPartsOfParams_perm hq)
  have hcq := canonicalQueryOf_perm (queryPartsOfValues_perm hv)
  refine ⟨hurl, ?_, ?_, hcq, ?_, ?_, ?_⟩
  · simp only [Client.DoRequest, hurl]
  · simp only [Client.DoSigned, Client.DoRequest, hurl]
  · simp only [BuildCanonicalRequestRange, hcq]
  · intro q₃ h
    exact DoURL_perm c path h
  · intro v₃ h
    simp only [BuildCanonicalRequestRange, canonicalQueryOf_perm h]

/-- Witness for C4: the parameters `a=1`, `b=2` visited in both orders. -/
theorem query_order_independent_witness :
    exampleClient.DoURL (ascii "/p") [(ascii "b", ascii "2"), (ascii "a", ascii "1")] =
      exampleClient.DoURL (ascii "/p") [(ascii "a", ascii "1"), (ascii "b", ascii "2")] ∧
    BuildCanonicalRequestRange (exampleRequest [] (ascii "key1") []) []
        [(ascii "b", [ascii "2"]), (ascii "a", [ascii "1"])] =
      BuildCanonicalRequestRange (exampleRequest [] (ascii "key1") []) []
        [(ascii "a", [ascii "1"]), (ascii "b", [ascii "2"])] :=
  have h := query_order_independent exampleClient (ascii "GET") (ascii "/p") [] exampleDate
    [(ascii "b", ascii "2"), (ascii "a", ascii "1")]
    [(ascii "a", ascii "1"), (ascii "b", ascii "2")]
    (exampleRequest [] (ascii "key1") [])
    [(ascii "b", [ascii "2"]), (ascii "a", [ascii "1"])]
    [(ascii "a", [ascii "1"]), (ascii "b", [ascii "2"])]
    (List.Perm.swap _ _ _) (List.Perm.swap _ _ _)
  ⟨h.1, h.2.2.2.2.1⟩

theorem hexDigit_lower_table : ∀ n, n < 16 → hexDigit n ∈ ascii "0123456789abcdef" := by
  decide

/-- Every character `hex.EncodeToString` writes is a digit or a lowercase letter a-f. -/
theorem hexEncode_lower (s : GoString) : ∀ ch ∈ hexEncode s, ch ∈ ascii "0123456789abcdef" := by
  induction s with
  | nil => simp [hexEncode]
  | cons b rest ih =>
    intro ch hch
    have hb := UInt8.toNat_lt_size b
    simp only [UInt8.size] at hb
    simp only [hexEncode, List.mem_cons] at hch
    rcases hch with h | h | h
    · rw [h]; exact hexDigit_lower_table _ (by omega)
    · rw [h]; exact hexDigit_lower_table _ (by omega)
    · exact ih ch h

theorem sha256_length (msg : GoString) : (sha256 msg).length = 32 := by
  simp [sha256, Sha256.digest, Sha256.beBytes]

/-- C5. `BuildCanonicalRequest` returns method, path, canonical query, canonical headers
and body digest joined by newlines, where the canonical headers are the line
`x-h3-date:<X-H3-Date value>`, a newline, and the line `x-h3-key-id:<X-H3-Key-Id value>`
(the date line never sorts after the key-id line), and the digest is 64 lowercase hex
characters encoding SHA-256 of the body. `signRequest` builds its canonical string by the
same layout from the request's method, path and raw query, the generated date and the
client's key id. -/
theorem canonical_request_layout (r : Request) (body : GoString) (c : Client) (req : Request)
    (reqBody date : GoString) :
    BuildCanonicalRequest r body =
      r.Method ++ ascii "\n" ++ r.URL.Path ++ ascii "\n" ++ canonicalQueryOf r.URL.Query ++
        ascii "\n" ++
        (ascii "x-h3-date:" ++ r.Header.Get (ascii "X-H3-Date") ++ ascii "\n" ++
          (ascii "x-h3-key-id:" ++ r.Header.Get (ascii "X-H3-Key-Id"))) ++ ascii "\n" ++
        hexEncode (sha256 body) ∧
    strLe (ascii "x-h3-date:" ++ r.Header.Get (ascii "X-H3-Date"))
      (ascii "x-h3-key-id:" ++ r.Header.Get (ascii "X-H3-Key-Id")) = true ∧
    (hexEncode (sha256 body)).length = 64 ∧
    (∀ ch ∈ hexEncode (sha256 body), ch ∈ ascii "0123456789abcdef") ∧
    c.signCanonical req reqBody date =
      req.Method ++ ascii "\n" ++ req.URL.Path ++ ascii "\n" ++ req.URL.RawQuery ++ ascii "\n" ++
        (ascii "x-h3-date:" ++ date ++ ascii "\n" ++ (ascii "x-h3-key-id:" ++ c.keyID)) ++
        ascii "\n" ++ hexEncode (sha256 reqBody) ∧
    strLe (ascii "x-h3-date:" ++ date) (ascii "x-h3-key-id:" ++ c.keyID) = true := by
  refine ⟨BuildCanonicalRequestRange_eq r body _, rfl, ?_, hexEncode_lower _,
    signCanonical_eq c req reqBody date, rfl⟩
  rw [hexEncode_length, sha256_length]

/-! ## The canonical query -/

theorem queryPartsOfValues_length (query : Values) :
    (queryPartsOfValues query).length = (query.map (fun e => e.2.length)).sum := by
  induction query with
  | nil => rfl
  | cons e rest ih =>
    obtain ⟨k, vs⟩ := e
    simp [queryPartsOfValues, ih]

/-- C6. The canonical query of `BuildCanonicalRequest` is the `&`-join of a list `parts`
that holds exactly one string `key=value` per value stored under a key of the request's
query, and that is sorted in non-decreasing bytewise order of the whole strings (so
`a-x=1` comes before `a=b`, although the key `a` sorts before the key `a-x`); a request
with an empty raw query, or with no pairs, has the empty canonical query. -/
theorem canonical_query_sorted_pairs (r : Request) (body path : GoString) :
    (∃ parts : List GoString,
      parts.Perm (queryPartsOfValues r.URL.Query) ∧
      (∀ s, s ∈ parts ↔ ∃ k vs v, (k, vs) ∈ r.URL.Query ∧ v ∈ vs ∧ s = k ++ ascii "=" ++ v) ∧
      parts.length = (r.URL.Query.map (fun e => e.2.length)).sum ∧
      List.Sorted StrLE parts ∧
      canonicalQueryOf r.URL.Query = Join parts (ascii "&") ∧
      BuildCanonicalRequest r body =
        r.Method ++ ascii "\n" ++ r.URL.Path ++ ascii "\n" ++ Join parts (ascii "&") ++
          ascii "\n" ++
          (ascii "x-h3-date:" ++ r.Header.Get (ascii "X-H3-Date") ++ ascii "\n" ++
            (ascii "x-h3-key-id:" ++ r.Header.Get (ascii "X-H3-Key-Id"))) ++ ascii "\n" ++
          hexEncode (sha256 body)) ∧
    canonicalQueryOf (URL.Query ⟨path, ascii "a=b&a-x=1"⟩) = ascii "a-x=1&a=b" ∧
    strLe (ascii "a-x=1") (ascii "a=b") = true ∧
    strLe (ascii "a=b") (ascii "a-x=1") = false ∧
    strLe (ascii "a") (ascii "a-x") = true ∧
    canonicalQueryOf (URL.Query ⟨path, []⟩) = [] ∧
    canonicalQueryOf [] = [] := by
  refine ⟨⟨sortStrings (queryPartsOfValues r.URL.Query), sortStrings_perm _, ?_, ?_,
    sortStrings_sorted _, rfl, BuildCanonicalRequestRange_eq r body _⟩,
    ?_, by decide, by decide, by decide, ?_, by decide⟩
  · intro s
    rw [(sortStrings_perm _).mem_iff, mem_queryPartsOfValues]
  · rw [(sortStrings_perm _).length_eq, queryPartsOfValues_length]
  · show canonicalQueryOf (ParseQuery (ascii "a=b&a-x=1")) = ascii "a-x=1&a=b"
    decide
  · show canonicalQueryOf (ParseQuery []) = []
    decide

set_option maxRecDepth 1000000 in
/-- C7, evaluated where the code diverges from it. For an inbound request with the raw
query `q=a%2Bb+c`, `BuildCanonicalRequest` builds the canonical query `q=a+b c`: reading
the query through `r.URL.Query()` decodes the escape `%2B` and turns the `+` into a
space. So it is not true that every part is the text of a segment of the raw query. -/
theorem canonical_query_decodes_escapes :
    canonicalQueryOf (URL.Query ⟨ascii "/p", ascii "q=a%2Bb+c"⟩) = ascii "q=a+b c" ∧
    BuildCanonicalRequest (exampleRequest (ascii "q=a%2Bb+c") (ascii "key1") []) [] =
      ascii "GET\n/api/vms/v1/vm1\nq=a+b c\nx-h3-date:2024-01-01T00:00:00Z\nx-h3-key-id:key1\ne3b0c44298fc1c149afbf4c8996fb92427ae41e4649b934ca495991b7852b855" ∧
    ¬ ∀ r : Request, ∀ p ∈ queryPartsOfValues r.URL.Query,
        ∃ seg ∈ Split 38 r.URL.RawQuery, p = rawPart seg := by
  refine ⟨by decide, by decide, ?_⟩
  intro h
  obtain ⟨seg, hseg, heq⟩ :=
    h (exampleRequest (ascii "q=a%2Bb+c") (ascii "key1") []) (ascii "q=a+b c") (by decide)
  have hs : Split 38 (exampleRequest (ascii "q=a%2Bb+c") (ascii "key1") []).URL.RawQuery =
      [ascii "q=a%2Bb+c"] := by decide
  rw [hs, List.mem_singleton] at hseg
  subst hseg
  revert heq
  decide

/-- Reading the canonical query off the raw query. The parts of the canonical query are,
up to order, the decoded parts of the `&`-separated segments of the raw query: key and value unescaped by
`url.QueryUnescape`, nothing for a segment that is empty, holds `;` or has a malformed
escape. When the raw query holds no `%`, `+` or `;`, the parts are exactly the raw text
`key=value` of its non-empty segments, cut at the first `=`. -/
theorem canonical_query_parts_of_raw (r : Request)
    (hplain : ∀ b ∈ r.URL.RawQuery, b ≠ 37 ∧ b ≠ 43 ∧ b ≠ 59) :
    (queryPartsOfValues r.URL.Query).Perm ((Split 38 r.URL.RawQuery).filterMap decodedPart) ∧
    (queryPartsOfValues r.URL.Query).Perm
      (((Split 38 r.URL.RawQuery).filter (fun seg => seg ≠ [])).map rawPart) ∧
    canonicalQueryOf r.URL.Query =
      Join (sortStrings (((Split 38 r.URL.RawQuery).filter (fun seg => seg ≠ [])).map rawPart))
        (ascii "&") := by
  have h1 := queryPartsOfValues_ParseQuery r.URL.RawQuery
  have h2 := filterMap_decodedPart_of_plain (Split 38 r.URL.RawQuery)
    (fun seg hseg b hb => hplain b (Split_subset 38 r.URL.RawQuery seg hseg b hb))
  have h3 : (queryPartsOfValues r.URL.Query).Perm
      (((Split 38 r.URL.RawQuery).filter (fun seg => seg ≠ [])).map rawPart) := by
    rw [← h2]; exact h1
  exact ⟨h1, h3, by rw [canonicalQueryOf, sortStrings_eq_of_perm h3]⟩

/-- An instance of reading the canonical query off the raw query `b=2&&a=1&c`. -/
theorem canonical_query_parts_of_raw_witness :
    (∀ b ∈ (exampleRequest (ascii "b=2&&a=1&c") (ascii "key1") []).URL.RawQuery,
      b ≠ 37 ∧ b ≠ 43 ∧ b ≠ 59) ∧
    canonicalQueryOf (exampleRequest (ascii "b=2&&a=1&c") (ascii "key1") []).URL.Query =
      ascii "a=1&b=2&c=" :=
  ⟨by decide,
    (canonical_query_parts_of_raw (exampleRequest (ascii "b=2&&a=1&c") (ascii "key1") [])
      (by decide)).2.2.trans (by decide)⟩

/-! ## Signed headers, the signature, the comparison -/

/-- C8. Two requests that agree on method, path, query and on the values of X-H3-Date and
X-H3-Key-Id have the same canonical string for the same body, whatever other headers
(X-H3-Signature, Content-Type, ...) either of them carries. Agreement on the query is
only needed after parsing, which equal raw queries give. -/
theorem canonical_ignores_other_headers (r r2 : Request) (body : GoString)
    (hm : r2.Method = r.Method) (hp : r2.URL.Path = r.URL.Path)
    (hq : r2.URL.Query = r.URL.Query)
    (hd : r2.Header.Get (ascii "X-H3-Date") = r.Header.Get (ascii "X-H3-Date"))
    (hk : r2.Header.Get (ascii "X-H3-Key-Id") = r.Header.Get (ascii "X-H3-Key-Id")) :
    BuildCanonicalRequest r2 body = BuildCanonicalRequest r body := by
  simp only [BuildCanonicalRequest, BuildCanonicalRequestRange, hm, hp, hq, hd, hk]

/-- Witness for C8: the same request without and with the headers X-H3-Signature,
Content-Type and Accept. -/
theorem canonical_ignores_other_headers_witness :
    (exampleRequest (ascii "a=1") (ascii "key1")
        [(ascii "X-H3-Signature", [ascii "00ff"]), (ascii "Content-Type", [ascii "text/plain"]),
          (ascii "Accept", [ascii "*/*"])]).Header ≠
      (exampleRequest (ascii "a=1") (ascii "key1") []).Header ∧
    BuildCanonicalRequest
        (exampleRequest (ascii "a=1") (ascii "key1")
          [(ascii "X-H3-Signature", [ascii "00ff"]), (ascii "Content-Type", [ascii "text/plain"]),
            (ascii "Accept", [ascii "*/*"])]) (ascii "body") =
      BuildCanonicalRequest (exampleRequest (ascii "a=1") (ascii "key1") []) (ascii "body") :=
  ⟨by decide,
    canonical_ignores_other_headers (exampleRequest (ascii "a=1") (ascii "key1") [])
      (exampleRequest (ascii "a=1") (ascii "key1")
        [(ascii "X-H3-Signature", [ascii "00ff"]), (ascii "Content-Type", [ascii "text/plain"]),
          (ascii "Accept", [ascii "*/*"])]) (ascii "body") rfl rfl rfl rfl rfl⟩

/-- C9. After `signRequest` the request carries Content-Type `application/json`, the
client's key id in X-H3-Key-Id, the generated timestamp in X-H3-Date, and in
X-H3-Signature the lowercase hex HMAC-SHA256, keyed by the secret, of the canonical
string; that canonical string holds exactly the date and key id sent in the two headers.
Method, URL and body of the request are left as they were. -/
theorem signRequest_sets_headers (c : Client) (req : Request) (body date : GoString) :
    (c.signRequest req body date).Header.Get (ascii "Content-Type") = ascii "application/json" ∧
    (c.signRequest req body date).Header.Get (ascii "X-H3-Key-Id") = c.keyID ∧
    (c.signRequest req body date).Header.Get (ascii "X-H3-Date") = date ∧
    (c.signRequest req body date).Header.Get (ascii "X-H3-Signature") =
      hexEncode (hmacSha256 c.secretKey (c.signCanonical req body date)) ∧
    c.signCanonical req body date =
      req.Method ++ ascii "\n" ++ req.URL.Path ++ ascii "\n" ++ req.URL.RawQuery ++ ascii "\n" ++
        (ascii "x-h3-date:" ++ (c.signRequest req body date).Header.Get (ascii "X-H3-Date") ++
          ascii "\n" ++
          (ascii "x-h3-key-id:" ++
            (c.signRequest req body date).Header.Get (ascii "X-H3-Key-Id"))) ++
        ascii "\n" ++ hexEncode (sha256 body) ∧
    (hexEncode (hmacSha256 c.secretKey (c.signCanonical req body date))).length = 64 ∧
    (∀ ch ∈ hexEncode (hmacSha256 c.secretKey (c.signCanonical req body date)),
      ch ∈ ascii "0123456789abcdef") ∧
    (c.signRequest req body date).Method = req.Method ∧
    (c.signRequest req body date).URL = req.URL ∧
    (c.signRequest req body date).Body = req.Body := by
  obtain ⟨h1, h2, h3, h4⟩ := signRequest_headers c req body date
  refine ⟨h1, h2, h3, h4, ?_, ?_, hexEncode_lower _, rfl, rfl, rfl⟩
  · rw [h2, h3]
    exact signCanonical_eq c req body date
  · rw [hexEncode_length]
    simp only [hmacSha256]
    rw [sha256_length]

/-- C10. `VerifyHMAC` returns true exactly when the signature equals, byte for byte, the
lowercase hex encoding of HMAC-SHA256 of the canonical string under the secret key, and
false in every other case. -/
theorem VerifyHMAC_true_iff_signature_eq (secretKey canonical signature : GoString) :
    (VerifyHMAC secretKey canonical signature = true ↔
      signature = hexEncode (hmacSha256 secretKey canonical)) ∧
    (VerifyHMAC secretKey canonical signature = false ↔
      signature ≠ hexEncode (hmacSha256 secretKey canonical)) ∧
    (∀ ch ∈ hexEncode (hmacSha256 secretKey canonical), ch ∈ ascii "0123456789abcdef") := by
  refine ⟨VerifyHMAC_eq_true_iff _ _ _, ?_, hexEncode_lower _⟩
  rw [Ne, ← VerifyHMAC_eq_true_iff]
  cases VerifyHMAC secretKey canonical signature <;> simp

/-! ## Lemmas: the retry loop -/

theorem retryLoop_zero {σ : Type} (c : Client) (env : Env)
    (U : GoString → σ → σ × Option GoError) (method url : GoString) (result : Option σ)
    (a : Nat) (req : Request) (lastErr : Option GoError) :
    c.retryLoop env U method url result 0 a req lastErr =
      ⟨some (Errorf (ascii "request failed after " ++ itoa c.maxRetries ++ ascii " retries: ")
        lastErr), result, []⟩ := rfl

/-- A pass that waits out the timer and ends with `continue`. -/
theorem retryLoop_continue {σ : Type} (c : Client) (env : Env)
    (U : GoString → σ → σ × Option GoError) (method url : GoString) (result : Option σ)
    (rem a : Nat) (req : Request) (lastErr : Option GoError)
    (hsel : a > 0 → env.selectAt a = SelectCase.timer)
    (hretry : (env.roundTripAt a).retryable = true) :
    c.retryLoop env U method url result (rem + 1) a req lastErr =
      DoResult.after (attemptEvents a req)
        (c.retryLoop env U method url result rem (a + 1) (drainBody env a req)
          (some (env.roundTripAt a).lastErr)) := by
  have hs : (if a > 0 then env.selectAt a else SelectCase.timer) = SelectCase.timer := by
    by_cases h : a > 0
    · simp [h, hsel h]
    · simp [h]
  rw [Client.retryLoop, hs]
  cases hrt : env.roundTripAt a with
  | failed err => simp [RoundTrip.lastErr]
  | readFailed err => simp [RoundTrip.lastErr]
  | response statusCode respBody =>
    rw [hrt] at hretry
    have h500 : statusCode ≥ 500 := by simpa [RoundTrip.retryable] using hretry
    simp [RoundTrip.lastErr, h500]

/-- A pass whose backoff wait is ended by `ctx.Done()`. -/
theorem retryLoop_cancelled {σ : Type} (c : Client) (env : Env)
    (U : GoString → σ → σ × Option GoError) (method url : GoString) (result : Option σ)
    (rem a : Nat) (req : Request) (lastErr : Option GoError) (ctxErr : GoError)
    (ha : a > 0) (hsel : env.selectAt a = SelectCase.done ctxErr) :
    c.retryLoop env U method url result (rem + 1) a req lastErr =
      ⟨some ctxErr, result, [Event.cancelled a (backoff a)]⟩ := by
  rw [Client.retryLoop]
  simp [ha, hsel]

/-- A pass that receives a response with a status below 500. -/
theorem retryLoop_response {σ : Type} (c : Client) (env : Env)
    (U : GoString → σ → σ × Option GoError) (method url : GoString) (result : Option σ)
    (rem a : Nat) (req : Request) (lastErr : Option GoError) (statusCode : Int)
    (respBody : GoString)
    (hsel : a > 0 → env.selectAt a = SelectCase.timer)
    (hrt : env.roundTripAt a = RoundTrip.response statusCode respBody)
    (h500 : statusCode < 500) :
    c.retryLoop env U method url result (rem + 1) a req lastErr =
      DoResult.after (attemptEvents a req)
        (if statusCode ≥ 400 then
          ⟨some (GoError.httpError ⟨statusCode, method, url, respBody⟩), result, []⟩
        else
          match result with
          | some sink =>
            if respBody.length > 0 then
              match U respBody sink with
              | (sink2, some err) =>
                ⟨some (Errorf (ascii "failed to unmarshal response: ") (some err)), some sink2,
                  [Event.unmarshal a respBody]⟩
              | (sink2, none) => ⟨none, some sink2, [Event.unmarshal a respBody]⟩
            else ⟨none, result, []⟩
          | none => ⟨none, result, []⟩) := by
  have hs : (if a > 0 then env.selectAt a else SelectCase.timer) = SelectCase.timer := by
    by_cases h : a > 0
    · simp [h, hsel h]
    · simp [h]
  have h5 : ¬ statusCode ≥ 500 := by omega
  rw [Client.retryLoop, hs, hrt]
  simp only [h5, if_false]

theorem DoResult.after_after {σ : Type} (e₁ e₂ : List Event) (r : DoResult σ) :
    DoResult.after e₁ (DoResult.after e₂ r) = DoResult.after (e₁ ++ e₂) r := by
  simp [DoResult.after]

theorem DoResult.after_nil {σ : Type} (r : DoResult σ) : DoResult.after [] r = r := by
  simp [DoResult.after]

/-- The loop after `m` passes that each end with `continue`. -/
theorem retryLoop_after_continues {σ : Type} (c : Client) (env : Env)
    (U : GoString → σ → σ × Option GoError) (method url : GoString) (result : Option σ)
    (m : Nat) : ∀ (rem a : Nat) (req : Request) (lastErr : Option GoError),
    (∀ j, j < m → (env.roundTripAt (a + j)).retryable = true) →
    (∀ j, j < m → a + j > 0 → env.selectAt (a + j) = SelectCase.timer) →
    c.retryLoop env U method url result (rem + m) a req lastErr =
      DoResult.after (retryEvents env m a req)
        (c.retryLoop env U method url result rem (a + m) (requestAt env m a req)
          (lastErrAfter env m a lastErr)) := by
  induction m with
  | zero =>
    intro rem a req lastErr _ _
    simp [retryEvents, requestAt, lastErrAfter, DoResult.after_nil]
  | succ m ih =>
    intro rem a req lastErr hretry hsel
    have h0 := hretry 0 (Nat.succ_pos m)
    have hs0 := hsel 0 (Nat.succ_pos m)
    simp only [Nat.add_zero] at h0 hs0
    have e1 : rem + (m + 1) = (rem + m) + 1 := by omega
    rw [e1, retryLoop_continue c env U method url result (rem + m) a req lastErr hs0 h0]
    rw [ih rem (a + 1) (drainBody env a req) (some (env.roundTripAt a).lastErr)
      (fun j hj => by have := hretry (j + 1) (by omega); rwa [show a + (j + 1) = a + 1 + j by omega] at this)
      (fun j hj hpos => by
        have := hsel (j + 1) (by omega) (by omega)
        rwa [show a + (j + 1) = a + 1 + j by omega] at this)]
    rw [DoResult.after_after]
    have e2 : a + 1 + m = a + (m + 1) := by omega
    have e3 : lastErrAfter env m (a + 1) (some (env.roundTripAt a).lastErr) =
        lastErrAfter env (m + 1) a lastErr := by
      unfold lastErrAfter
      by_cases hm : m = 0
      · subst hm; simp
      · simp only [hm, if_false, Nat.succ_ne_zero]
        rw [show a + 1 + m - 1 = a + (m + 1) - 1 by omega]
    rw [e2, e3]
    rfl

theorem countRequests_append (e₁ e₂ : List Event) :
    countRequests (e₁ ++ e₂) = countRequests e₁ + countRequests e₂ := by
  simp [countRequests]

theorem countWaits_append (e₁ e₂ : List Event) :
    countWaits (e₁ ++ e₂) = countWaits e₁ + countWaits e₂ := by
  simp [countWaits]

theorem countUnmarshals_append (e₁ e₂ : List Event) :
    countUnmarshals (e₁ ++ e₂) = countUnmarshals e₁ + countUnmarshals e₂ := by
  simp [countUnmarshals]

theorem countRequests_attemptEvents (a : Nat) (req : Request) :
    countRequests (attemptEvents a req) = 1 := by
  by_cases h : a > 0 <;> simp [attemptEvents, countRequests, h, Event.isRequest]

theorem countWaits_attemptEvents (a : Nat) (req : Request) :
    countWaits (attemptEvents a req) = if a > 0 then 1 else 0 := by
  by_cases h : a > 0 <;> simp [attemptEvents, countWaits, h, Event.isWait]

theorem countUnmarshals_attemptEvents (a : Nat) (req : Request) :
    countUnmarshals (attemptEvents a req) = 0 := by
  by_cases h : a > 0 <;> simp [attemptEvents, countUnmarshals, h, Event.isUnmarshal]

theorem countRequests_retryEvents (env : Env) (m : Nat) :
    ∀ (a : Nat) (req : Request), countRequests (retryEvents env m a req) = m := by
  induction m with
  | zero => intro a req; rfl
  | succ m ih =>
    intro a req
    rw [retryEvents, countRequests_append, countRequests_attemptEvents, ih]
    omega

theorem countWaits_retryEvents_pos (env : Env) (m : Nat) :
    ∀ (a : Nat) (req : Request), a > 0 → countWaits (retryEvents env m a req) = m := by
  induction m with
  | zero => intro a req _; rfl
  | succ m ih =>
    intro a req ha
    rw [retryEvents, countWaits_append, countWaits_attemptEvents, ih (a + 1) _ (by omega)]
    simp [ha]
    omega

/-- Among `m` passes starting at attempt 0 all but the first begin with a wait. -/
theorem countWaits_retryEvents_zero (env : Env) (m : Nat) (req : Request) :
    countWaits (retryEvents env m 0 req) = m - 1 := by
  cases m with
  | zero => rfl
  | succ m =>
    rw [retryEvents, countWaits_append, countWaits_attemptEvents,
      countWaits_retryEvents_pos env m 1 _ (by omega)]
    simp

theorem countUnmarshals_retryEvents (env : Env) (m : Nat) :
    ∀ (a : Nat) (req : Request), countUnmarshals (retryEvents env m a req) = 0 := by
  induction m with
  | zero => intro a req; rfl
  | succ m ih =>
    intro a req
    rw [retryEvents, countUnmarshals_append, countUnmarshals_attemptEvents, ih]

/-- Once the body is marshalled and the request created, `Client.Do` is the loop started
at attempt 0 with the signed request. -/
theorem Do_eq_retryLoop {β σ : Type} (c : Client) (env : Env) (json : JSON β σ)
    (method path : GoString) (queryParams : List (GoString × GoString)) (body : Option β)
    (result : Option σ) (bodyBytes : GoString) (req : Request)
    (hbody : marshalBody json body = Except.ok bodyBytes)
    (hreq : c.DoRequest method path queryParams bodyBytes = some req) :
    c.Do env json method path queryParams body result =
      c.retryLoop env json.Unmarshal method (c.DoURL path queryParams) result
        (c.maxRetries + 1).toNat 0 (c.signRequest req bodyBytes env.date) none := by
  simp only [Client.Do, hbody, hreq]

/-- The call `Client.Do` up to attempt `k`, when the loop gets that far. -/
theorem Do_reaches {β σ : Type} (c : Client) (env : Env) (json : JSON β σ)
    (method path : GoString) (queryParams : List (GoString × GoString)) (body : Option β)
    (result : Option σ) (bodyBytes : GoString) (req : Request) (n k : Nat)
    (hn : c.maxRetries = n)
    (hbody : marshalBody json body = Except.ok bodyBytes)
    (hreq : c.DoRequest method path queryParams bodyBytes = some req)
    (hk : k ≤ n + 1) (hreach : env.reaches k) :
    c.Do env json method path queryParams body result =
      DoResult.after (retryEvents env k 0 (c.signRequest req bodyBytes env.date))
        (c.retryLoop env json.Unmarshal method (c.DoURL path queryParams) result
          (n + 1 - k) k (requestAt env k 0 (c.signRequest req bodyBytes env.date))
          (lastErrAfter env k 0 none)) := by
  rw [Do_eq_retryLoop c env json method path queryParams body result bodyBytes req hbody hreq]
  have e : (c.maxRetries + 1).toNat = (n + 1 - k) + k := by
    rw [hn]
    have : ((n : Int) + 1).toNat = n + 1 := by omega
    omega
  rw [e, retryLoop_after_continues c env json.Unmarshal method (c.DoURL path queryParams) result k
    (n + 1 - k) 0 _ none
    (fun j hj => by simpa using hreach.1 j hj)
    (fun j hj hpos => by
      have hj0 : 0 + j = (j - 1) + 1 := by omega
      rw [hj0]
      exact hreach.2 (j - 1) (by omega))]
  simp

theorem reaches_succ (env : Env) (k : Nat) (h : env.reaches (k + 1)) : env.reaches k :=
  ⟨fun j hj => h.1 j (by omega), fun j hj => h.2 j (by omega)⟩

theorem retryEvents_succ_end (env : Env) (m : Nat) : ∀ (a : Nat) (req : Request),
    retryEvents env (m + 1) a req =
      retryEvents env m a req ++ attemptEvents (a + m) (requestAt env m a req) := by
  induction m with
  | zero => intro a req; simp [retryEvents, requestAt]
  | succ m ih =>
    intro a req
    rw [retryEvents, ih (a + 1) (drainBody env a req)]
    conv_rhs => rw [retryEvents, requestAt]
    rw [List.append_assoc, show a + 1 + m = a + (m + 1) by omega]

theorem retryEvents_succ_end_zero (env : Env) (m : Nat) (req : Request) :
    retryEvents env (m + 1) 0 req =
      retryEvents env m 0 req ++ attemptEvents m (requestAt env m 0 req) := by
  have h := retryEvents_succ_end env m 0 req
  rwa [Nat.zero_add] at h

/-- The call `Client.Do` when all passes end with `continue`: the error of line 149 around
the `lastErr` of the last pass. -/
theorem Do_exhausted {β σ : Type} (c : Client) (env : Env) (json : JSON β σ)
    (method path : GoString) (queryParams : List (GoString × GoString)) (body : Option β)
    (result : Option σ) (bodyBytes : GoString) (req : Request) (n : Nat)
    (hn : c.maxRetries = n)
    (hbody : marshalBody json body = Except.ok bodyBytes)
    (hreq : c.DoRequest method path queryParams bodyBytes = some req)
    (hreach : env.reaches n) (hlast : (env.roundTripAt n).retryable = true) :
    c.Do env json method path queryParams body result =
      ⟨some (Errorf (ascii "request failed after " ++ itoa c.maxRetries ++ ascii " retries: ")
          (some (env.roundTripAt n).lastErr)),
        result, retryEvents env (n + 1) 0 (c.signRequest req bodyBytes env.date)⟩ := by
  rw [Do_reaches c env json method path queryParams body result bodyBytes req n n hn hbody hreq
    (by omega) hreach]
  have e : n + 1 - n = 0 + 1 := by omega
  rw [e, retryLoop_continue c env json.Unmarshal method _ result 0 n _ _
    (fun hpos => by
      have := hreach.2 (n - 1) (by omega)
      rwa [show n - 1 + 1 = n by omega] at this) hlast]
  rw [retryLoop_zero, retryEvents_succ_end]
  simp [DoResult.after]

/-! ## Header extraction -/

theorem Header.get_of_absent (h : Header) (key : GoString)
    (habs : ∀ e ∈ h.entries, e.1 ≠ key) : h.Get key = [] := by
  have hf : h.entries.find? (fun e => e.1 == key) = none := by
    rw [List.find?_eq_none]
    intro e he
    simpa using habs e he
  simp [Header.Get, hf]

/-- C11. `ExtractHeaders` returns an error exactly when one of the values of X-H3-Key-Id,
X-H3-Date and X-H3-Signature is empty, which is also what `Header.Get` gives for a header
that is absent; without error it returns the three values as `Header.Get` gives them, and
with an error the three strings it returns are empty. -/
theorem ExtractHeaders_error_iff_missing (r : Request) :
    ((ExtractHeaders r).2.2.2 ≠ none ↔
      r.Header.Get (ascii "X-H3-Key-Id") = [] ∨ r.Header.Get (ascii "X-H3-Date") = [] ∨
        r.Header.Get (ascii "X-H3-Signature") = []) ∧
    ((ExtractHeaders r).2.2.2 = none ↔
      ExtractHeaders r =
        (r.Header.Get (ascii "X-H3-Key-Id"), r.Header.Get (ascii "X-H3-Date"),
          r.Header.Get (ascii "X-H3-Signature"), none)) ∧
    ((ExtractHeaders r).2.2.2 ≠ none ↔
      ExtractHeaders r = ([], [], [], some "missing required HMAC headers")) ∧
    (∀ key, (∀ e ∈ r.Header.entries, e.1 ≠ key) → r.Header.Get key = []) := by
  refine ⟨?_, ?_, ?_, fun key habs => Header.get_of_absent r.Header key habs⟩
  · unfold ExtractHeaders
    by_cases h : r.Header.Get (ascii "X-H3-Key-Id") = [] ∨ r.Header.Get (ascii "X-H3-Date") = [] ∨
        r.Header.Get (ascii "X-H3-Signature") = []
    · simp only [h, if_true]; simp
    · simp only [h, if_false]; simp
  · unfold ExtractHeaders
    by_cases h : r.Header.Get (ascii "X-H3-Key-Id") = [] ∨ r.Header.Get (ascii "X-H3-Date") = [] ∨
        r.Header.Get (ascii "X-H3-Signature") = []
    · simp only [h, if_true]; simp
    · simp only [h, if_false]
  · unfold ExtractHeaders
    by_cases h : r.Header.Get (ascii "X-H3-Key-Id") = [] ∨ r.Header.Get (ascii "X-H3-Date") = [] ∨
        r.Header.Get (ascii "X-H3-Signature") = []
    · simp only [h, if_true]; simp
    · simp only [h, if_false]; simp

/-- Witness for C11: a request with the three headers, and the same request without
X-H3-Signature. -/
theorem ExtractHeaders_error_iff_missing_witness :
    ExtractHeaders (exampleRequest [] (ascii "key1") [(ascii "X-H3-Signature", [ascii "00ff"])]) =
      (ascii "key1", exampleDate, ascii "00ff", none) ∧
    ExtractHeaders (exampleRequest [] (ascii "key1") []) =
      ([], [], [], some "missing required HMAC headers") :=
  ⟨(ExtractHeaders_error_iff_missing
      (exampleRequest [] (ascii "key1") [(ascii "X-H3-Signature", [ascii "00ff"])])).2.1.mp
      (by decide),
    (ExtractHeaders_error_iff_missing (exampleRequest [] (ascii "key1") [])).2.2.1.mp
      (by decide)⟩

/-! ## The retry loop: attempts, waits, outcomes -/

/-- C12. For a client with `maxRetries = n ≥ 0`, when the request is created, every
attempt 0 to `n` ends in a retryable outcome (an error of the transport, an error while
reading the body, a status of 500 or more) and every backoff wait is ended by its timer,
`Client.Do` calls the transport exactly `n + 1` times, waits `n` times, decodes nothing,
leaves the sink as it was and returns the error "request failed after n retries: ...". -/
theorem Do_all_retryable_issues_n_plus_one {β σ : Type} (c : Client) (env : Env)
    (json : JSON β σ) (method path : GoString) (queryParams : List (GoString × GoString))
    (body : Option β) (result : Option σ) (bodyBytes : GoString) (req : Request) (n : Nat)
    (hn : c.maxRetries = n)
    (hbody : marshalBody json body = Except.ok bodyBytes)
    (hreq : c.DoRequest method path queryParams bodyBytes = some req)
    (hreach : env.reaches n) (hlast : (env.roundTripAt n).retryable = true) :
    countRequests (c.Do env json method path queryParams body result).events = n + 1 ∧
    countWaits (c.Do env json method path queryParams body result).events = n ∧
    countUnmarshals (c.Do env json method path queryParams body result).events = 0 ∧
    (c.Do env json method path queryParams body result).events =
      retryEvents env (n + 1) 0 (c.signRequest req bodyBytes env.date) ∧
    (∃ lastErr, (c.Do env json method path queryParams body result).err =
      some (GoError.wrapError
        (ascii "request failed after " ++ itoa n ++ ascii " retries: " ++ lastErr.Error)
        lastErr)) ∧
    (c.Do env json method path queryParams body result).result = result := by
  rw [Do_exhausted c env json method path queryParams body result bodyBytes req n hn hbody hreq
    hreach hlast]
  refine ⟨countRequests_retryEvents env _ _ _, ?_, countUnmarshals_retryEvents env _ _ _, rfl,
    ⟨(env.roundTripAt n).lastErr, ?_⟩, rfl⟩
  · rw [countWaits_retryEvents_zero]; rfl
  · simp only [Errorf, hn]

set_option maxRecDepth 1000000 in
/-- Witness for C12: the client with `maxRetries = 3` and a transport that always answers
503 make exactly 4 attempts with 3 waits, and the call ends with the retries-exhausted
error. -/
theorem Do_all_retryable_issues_n_plus_one_witness :
    countRequests (exampleClient.Do env503 exampleJSON (ascii "GET") (ascii "/api/vms/v1/vm1")
      [] none (none : Option ExampleSink)).events = 4 ∧
    countWaits (exampleClient.Do env503 exampleJSON (ascii "GET") (ascii "/api/vms/v1/vm1")
      [] none (none : Option ExampleSink)).events = 3 ∧
    (exampleClient.Do env503 exampleJSON (ascii "GET") (ascii "/api/vms/v1/vm1")
      [] none (none : Option ExampleSink)).err.map GoError.Error =
      some (ascii "request failed after 3 retries: server error (503): busy") :=
  have h := Do_all_retryable_issues_n_plus_one exampleClient env503 exampleJSON (ascii "GET")
    (ascii "/api/vms/v1/vm1") [] none (none : Option ExampleSink) []
    ⟨ascii "GET", ⟨ascii "/api/vms/v1/vm1", []⟩, ⟨[]⟩, []⟩ 3 rfl rfl (by decide) (by decide)
    (by decide)
  ⟨h.1, h.2.1, by decide⟩

/-- C14. When the loop gets to attempt `k` and that attempt receives a response with
`400 ≤ status < 500`, `Client.Do` returns the `*HTTPError` holding that status, the method
passed to the call, the URL string `baseURL + path` (+ `?` + sorted query) and the
response body as read; the sink is left as it was, nothing is decoded, and the call has
made `k + 1` requests and `k` waits in all: none after that response. -/
theorem Do_client_error_returns_HTTPError {β σ : Type} (c : Client) (env : Env)
    (json : JSON β σ) (method path : GoString) (queryParams : List (GoString × GoString))
    (body : Option β) (result : Option σ) (bodyBytes : GoString) (req : Request) (n k : Nat)
    (statusCode : Int) (respBody : GoString)
    (hn : c.maxRetries = n)
    (hbody : marshalBody json body = Except.ok bodyBytes)
    (hreq : c.DoRequest method path queryParams bodyBytes = some req)
    (hk : k ≤ n) (hreach : env.reaches k)
    (hrt : env.roundTripAt k = RoundTrip.response statusCode respBody)
    (h400 : 400 ≤ statusCode) (h500 : statusCode < 500) :
    (c.Do env json method path queryParams body result).err =
      some (GoError.httpError ⟨statusCode, method, c.DoURL path queryParams, respBody⟩) ∧
    (c.Do env json method path queryParams body result).events =
      retryEvents env k 0 (c.signRequest req bodyBytes env.date) ++
        attemptEvents k (requestAt env k 0 (c.signRequest req bodyBytes env.date)) ∧
    countRequests (c.Do env json method path queryParams body result).events = k + 1 ∧
    countWaits (c.Do env json method path queryParams body result).events = k ∧
    countUnmarshals (c.Do env json method path queryParams body result).events = 0 ∧
    (c.Do env json method path queryParams body result).result = result := by
  rw [Do_reaches c env json method path queryParams body result bodyBytes req n k hn hbody hreq
    (by omega) hreach]
  have e : n + 1 - k = (n - k) + 1 := by omega
  rw [e, retryLoop_response c env json.Unmarshal method _ result (n - k) k _ _ statusCode
    respBody
    (fun hpos => by
      have := hreach.2 (k - 1) (by omega)
      rwa [show k - 1 + 1 = k by omega] at this) hrt h500]
  have h4 : statusCode ≥ 400 := h400
  simp only [h4, if_true, DoResult.after, List.append_nil]
  refine ⟨trivial, trivial, ?_, ?_, ?_, trivial⟩
  · rw [countRequests_append, countRequests_retryEvents, countRequests_attemptEvents]
  · rw [countWaits_append, countWaits_retryEvents_zero, countWaits_attemptEvents]
    by_cases hk0 : k > 0
    · simp [hk0]; omega
    · simp [hk0]; omega
  · rw [countUnmarshals_append, countUnmarshals_retryEvents, countUnmarshals_attemptEvents]

set_option maxRecDepth 1000000 in
/-- Witness for C14: a 404 on the first attempt is one request, no wait, and the
`HTTPError` with status 404. -/
theorem Do_client_error_returns_HTTPError_witness :
    (exampleClient.Do
      (scriptEnv [RoundTrip.response 404 (ascii "not found")] [] []) exampleJSON (ascii "GET")
      (ascii "/api/vms/v1/vm1") [(ascii "project_id", ascii "p1")] none
      (none : Option ExampleSink)).err =
      some (GoError.httpError ⟨404, ascii "GET",
        ascii "https://api.h3.cloud/api/vms/v1/vm1?project_id=p1", ascii "not found"⟩) ∧
    countRequests (exampleClient.Do
      (scriptEnv [RoundTrip.response 404 (ascii "not found")] [] []) exampleJSON (ascii "GET")
      (ascii "/api/vms/v1/vm1") [(ascii "project_id", ascii "p1")] none
      (none : Option ExampleSink)).events = 1 ∧
    countWaits (exampleClient.Do
      (scriptEnv [RoundTrip.response 404 (ascii "not found")] [] []) exampleJSON (ascii "GET")
      (ascii "/api/vms/v1/vm1") [(ascii "project_id", ascii "p1")] none
      (none : Option ExampleSink)).events = 0 :=
  have h := Do_client_error_returns_HTTPError exampleClient
    (scriptEnv [RoundTrip.response 404 (ascii "not found")] [] []) exampleJSON (ascii "GET")
    (ascii "/api/vms/v1/vm1") [(ascii "project_id", ascii "p1")] none
    (none : Option ExampleSink) []
    ⟨ascii "GET", ⟨ascii "/api/vms/v1/vm1", ascii "project_id=p1"⟩, ⟨[]⟩, []⟩ 3 0 404
    (ascii "not found") rfl rfl (by decide) (by decide) (by decide) rfl (by decide) (by decide)
  ⟨h.1.trans (by decide), h.2.2.1, h.2.2.2.1⟩

/-- The call `Client.Do` when the loop gets to attempt `k` and that attempt receives a
response with a status below 400. -/
theorem Do_below_400 {β σ : Type} (c : Client) (env : Env) (json : JSON β σ)
    (method path : GoString) (queryParams : List (GoString × GoString)) (body : Option β)
    (result : Option σ) (bodyBytes : GoString) (req : Request) (n k : Nat)
    (statusCode : Int) (respBody : GoString)
    (hn : c.maxRetries = n)
    (hbody : marshalBody json body = Except.ok bodyBytes)
    (hreq : c.DoRequest method path queryParams bodyBytes = some req)
    (hk : k ≤ n) (hreach : env.reaches k)
    (hrt : env.roundTripAt k = RoundTrip.response statusCode respBody)
    (h400 : statusCode < 400) :
    c.Do env json method path queryParams body result =
      DoResult.after
        (retryEvents env k 0 (c.signRequest req bodyBytes env.date) ++
          attemptEvents k (requestAt env k 0 (c.signRequest req bodyBytes env.date)))
        (match result with
          | some sink =>
            if respBody.length > 0 then
              match json.Unmarshal respBody sink with
              | (sink2, some err) =>
                ⟨some (Errorf (ascii "failed to unmarshal response: ") (some err)), some sink2,
                  [Event.unmarshal k respBody]⟩
              | (sink2, none) => ⟨none, some sink2, [Event.unmarshal k respBody]⟩
            else ⟨none, result, []⟩
          | none => ⟨none, result, []⟩) := by
  rw [Do_reaches c env json method path queryParams body result bodyBytes req n k hn hbody hreq
    (by omega) hreach]
  have e : n + 1 - k = (n - k) + 1 := by omega
  rw [e, retryLoop_response c env json.Unmarshal method _ result (n - k) k _ _ statusCode
    respBody
    (fun hpos => by
      have := hreach.2 (k - 1) (by omega)
      rwa [show k - 1 + 1 = k by omega] at this) hrt (by omega)]
  have h4 : ¬ statusCode ≥ 400 := by omega
  simp only [h4, if_false, DoResult.after_after]

theorem countRequests_reached (env : Env) (k : Nat) (req : Request) :
    countRequests (retryEvents env k 0 req ++ attemptEvents k (requestAt env k 0 req)) = k + 1 := by
  rw [countRequests_append, countRequests_retryEvents, countRequests_attemptEvents]

theorem countUnmarshals_reached (env : Env) (k : Nat) (req : Request) :
    countUnmarshals (retryEvents env k 0 req ++ attemptEvents k (requestAt env k 0 req)) = 0 := by
  rw [countUnmarshals_append, countUnmarshals_retryEvents, countUnmarshals_attemptEvents]

/-- C15. When the loop gets to attempt `k` and that attempt receives a response with a
status below 400: with a nil sink or an empty response body `Client.Do` returns nil, calls
no decoder and leaves the sink as it was; with a sink and a non-empty body it calls
`json.Unmarshal` once on that body, the sink holds what the decoder leaves in it, and the
error is nil when the decoder returns nil. Either way the call has made `k + 1` requests:
none after that response. -/
theorem Do_success_decodes_into_sink {β σ : Type} (c : Client) (env : Env) (json : JSON β σ)
    (method path : GoString) (queryParams : List (GoString × GoString)) (body : Option β)
    (result : Option σ) (bodyBytes : GoString) (req : Request) (n k : Nat)
    (statusCode : Int) (respBody : GoString)
    (hn : c.maxRetries = n)
    (hbody : marshalBody json body = Except.ok bodyBytes)
    (hreq : c.DoRequest method path queryParams bodyBytes = some req)
    (hk : k ≤ n) (hreach : env.reaches k)
    (hrt : env.roundTripAt k = RoundTrip.response statusCode respBody)
    (h400 : statusCode < 400) :
    countRequests (c.Do env json method path queryParams body result).events = k + 1 ∧
    (result = none ∨ respBody = [] →
      (c.Do env json method path queryParams body result).err = none ∧
      (c.Do env json method path queryParams body result).result = result ∧
      countUnmarshals (c.Do env json method path queryParams body result).events = 0) ∧
    (∀ sink, result = some sink → respBody ≠ [] →
      (c.Do env json method path queryParams body result).result =
        some (json.Unmarshal respBody sink).1 ∧
      countUnmarshals (c.Do env json method path queryParams body result).events = 1 ∧
      Event.unmarshal k respBody ∈ (c.Do env json method path queryParams body result).events ∧
      ((json.Unmarshal respBody sink).2 = none →
        (c.Do env json method path queryParams body result).err = none)) := by
  rw [Do_below_400 c env json method path queryParams body result bodyBytes req n k statusCode
    respBody hn hbody hreq hk hreach hrt h400]
  refine ⟨?_, ?_, ?_⟩
  · cases result with
    | none => simp [DoResult.after, countRequests_reached]
    | some sink =>
      by_cases hb : respBody.length > 0
      · simp only [hb, if_true]
        rcases hu : json.Unmarshal respBody sink with ⟨sink2, _ | err⟩ <;>
          · dsimp only [DoResult.after]
            rw [countRequests_append, countRequests_reached]
            rfl
      · simp [hb, DoResult.after, countRequests_reached]
  · intro h
    cases result with
    | none => simp [DoResult.after, countUnmarshals_reached]
    | some sink =>
      have hb : respBody = [] := by simpa using h
      subst hb
      simp [DoResult.after, countUnmarshals_reached]
  · intro sink hres hne
    subst hres
    have hb : respBody.length > 0 := List.length_pos.mpr hne
    simp only [hb, if_true]
    rcases hu : json.Unmarshal respBody sink with ⟨sink2, _ | err⟩
    · dsimp only [DoResult.after]
      refine ⟨rfl, ?_, ?_, fun _ => rfl⟩
      · rw [countUnmarshals_append, countUnmarshals_reached]
        rfl
      · exact List.mem_append_right _ (List.mem_singleton.mpr rfl)
    · dsimp only [DoResult.after]
      refine ⟨rfl, ?_, ?_, fun h => by cases h⟩
      · rw [countUnmarshals_append, countUnmarshals_reached]
        rfl
      · exact List.mem_append_right _ (List.mem_singleton.mpr rfl)

set_option maxRecDepth 1000000 in
/-- Witness for C15: a 200 response with the body `\x7b"id":"abc"\x7d` sets the `id` of the
sink to `abc` and returns nil; a 200 response with an empty body leaves the sink
untouched and returns nil. -/
theorem Do_success_decodes_into_sink_witness :
    (exampleClient.Do
      (scriptEnv [RoundTrip.response 200 (ascii "\x7b\x22id\x22:\x22abc\x22\x7d")] [] [])
      exampleJSON (ascii "GET") (ascii "/api/vms/v1/vm1") [] none
      (some (ExampleSink.mk (ascii "old")))).result = some (ExampleSink.mk (ascii "abc")) ∧
    (exampleClient.Do
      (scriptEnv [RoundTrip.response 200 (ascii "\x7b\x22id\x22:\x22abc\x22\x7d")] [] [])
      exampleJSON (ascii "GET") (ascii "/api/vms/v1/vm1") [] none
      (some (ExampleSink.mk (ascii "old")))).err = none ∧
    (exampleClient.Do (scriptEnv [RoundTrip.response 200 []] [] [])
      exampleJSON (ascii "GET") (ascii "/api/vms/v1/vm1") [] none
      (some (ExampleSink.mk (ascii "old")))).result = some (ExampleSink.mk (ascii "old")) ∧
    (exampleClient.Do (scriptEnv [RoundTrip.response 200 []] [] [])
      exampleJSON (ascii "GET") (ascii "/api/vms/v1/vm1") [] none
      (some (ExampleSink.mk (ascii "old")))).err = none :=
  have h := (Do_success_decodes_into_sink exampleClient
    (scriptEnv [RoundTrip.response 200 (ascii "\x7b\x22id\x22:\x22abc\x22\x7d")] [] [])
    exampleJSON (ascii "GET") (ascii "/api/vms/v1/vm1") [] none
    (some (ExampleSink.mk (ascii "old"))) []
    ⟨ascii "GET", ⟨ascii "/api/vms/v1/vm1", []⟩, ⟨[]⟩, []⟩ 3 0 200
    (ascii "\x7b\x22id\x22:\x22abc\x22\x7d") rfl rfl (by decide) (by decide) (by decide) rfl
    (by decide)).2.2 (ExampleSink.mk (ascii "old")) rfl (by decide)
  have h2 := (Do_success_decodes_into_sink exampleClient
    (scriptEnv [RoundTrip.response 200 []] [] [])
    exampleJSON (ascii "GET") (ascii "/api/vms/v1/vm1") [] none
    (some (ExampleSink.mk (ascii "old"))) []
    ⟨ascii "GET", ⟨ascii "/api/vms/v1/vm1", []⟩, ⟨[]⟩, []⟩ 3 0 200 [] rfl rfl (by decide)
    (by decide) (by decide) rfl (by decide)).2.1 (Or.inr rfl)
  ⟨h.1.trans (by decide), h.2.2.2 (by decide), h2.2.1, h2.1⟩

/-- C16. If `json.Marshal` fails on the request body, `Client.Do` returns the error
"failed to marshal request body: ..." wrapping the marshalling error, with no event at
all: no request. If the loop gets to attempt `k` and that attempt receives a response
with a status below 400 whose non-empty body the decoder rejects for the non-nil sink,
`Client.Do` returns the error "failed to unmarshal response: ..." wrapping the decoder's
error after `k + 1` requests in all, however large `maxRetries` is. -/
theorem Do_serialization_errors_terminal {β σ : Type} (c : Client) (env : Env)
    (json : JSON β σ) (method path : GoString) (queryParams : List (GoString × GoString))
    (b : β) (merr : GoError) (result : Option σ)
    (body : Option β) (sink : σ) (bodyBytes : GoString) (req : Request) (n k : Nat)
    (statusCode : Int) (respBody : GoString) (sink2 : σ) (uerr : GoError)
    (hmarshal : json.Marshal b = Except.error merr)
    (hn : c.maxRetries = n)
    (hbody : marshalBody json body = Except.ok bodyBytes)
    (hreq : c.DoRequest method path queryParams bodyBytes = some req)
    (hk : k ≤ n) (hreach : env.reaches k)
    (hrt : env.roundTripAt k = RoundTrip.response statusCode respBody)
    (h400 : statusCode < 400) (hne : respBody ≠ [])
    (hunmarshal : json.Unmarshal respBody sink = (sink2, some uerr)) :
    c.Do env json method path queryParams (some b) result =
      ⟨some (GoError.wrapError (ascii "failed to marshal request body: " ++ merr.Error) merr),
        result, []⟩ ∧
    (c.Do env json method path queryParams body (some sink)).err =
      some (GoError.wrapError (ascii "failed to unmarshal response: " ++ uerr.Error) uerr) ∧
    countRequests (c.Do env json method path queryParams body (some sink)).events = k + 1 ∧
    (c.Do env json method path queryParams body (some sink)).events =
      retryEvents env k 0 (c.signRequest req bodyBytes env.date) ++
        attemptEvents k (requestAt env k 0 (c.signRequest req bodyBytes env.date)) ++
        [Event.unmarshal k respBody] := by
  refine ⟨?_, ?_⟩
  · simp only [Client.Do, marshalBody, hmarshal, Errorf]
  · rw [Do_below_400 c env json method path queryParams body (some sink) bodyBytes req n k
      statusCode respBody hn hbody hreq hk hreach hrt h400]
    have hb : respBody.length > 0 := List.length_pos.mpr hne
    simp only [hb, if_true, hunmarshal, DoResult.after, Errorf]
    refine ⟨trivial, ?_, trivial⟩
    rw [countRequests_append, countRequests_reached]
    rfl

set_option maxRecDepth 1000000 in
/-- Witness for C16: a body the codec cannot marshal, and a 200 response whose body is not
the expected document, on the first attempt of a client with 3 retries left. -/
theorem Do_serialization_errors_terminal_witness :
    (exampleClient.Do (scriptEnv [RoundTrip.response 200 (ascii "oops")] [] [])
      exampleJSON (ascii "GET") (ascii "/api/vms/v1/vm1") [] (some [])
      (none : Option ExampleSink)).err.map GoError.Error =
      some (ascii "failed to marshal request body: json: unsupported value") ∧
    (exampleClient.Do (scriptEnv [RoundTrip.response 200 (ascii "oops")] [] [])
      exampleJSON (ascii "GET") (ascii "/api/vms/v1/vm1") [] (some [])
      (none : Option ExampleSink)).events = [] ∧
    (exampleClient.Do (scriptEnv [RoundTrip.response 200 (ascii "oops")] [] [])
      exampleJSON (ascii "GET") (ascii "/api/vms/v1/vm1") [] none
      (some (ExampleSink.mk (ascii "old")))).err.map GoError.Error =
      some (ascii "failed to unmarshal response: invalid character") ∧
    countRequests (exampleClient.Do (scriptEnv [RoundTrip.response 200 (ascii "oops")] [] [])
      exampleJSON (ascii "GET") (ascii "/api/vms/v1/vm1") [] none
      (some (ExampleSink.mk (ascii "old")))).events = 1 :=
  have h := Do_serialization_errors_terminal exampleClient
    (scriptEnv [RoundTrip.response 200 (ascii "oops")] [] []) exampleJSON (ascii "GET")
    (ascii "/api/vms/v1/vm1") [] [] (GoError.errorString (ascii "json: unsupported value"))
    (none : Option ExampleSink) none (ExampleSink.mk (ascii "old")) []
    ⟨ascii "GET", ⟨ascii "/api/vms/v1/vm1", []⟩, ⟨[]⟩, []⟩ 3 0 200 (ascii "oops")
    (ExampleSink.mk (ascii "old")) (GoError.errorString (ascii "invalid character"))
    rfl rfl rfl (by decide) (by decide) (by decide) rfl (by decide) (by decide) (by decide)
  ⟨by rw [h.1]; decide, by rw [h.1], by rw [h.2.1]; decide, h.2.2.1⟩

/-- C17. When all `maxRetries + 1` attempts of `Client.Do` end in a retryable outcome, the
error it returns wraps the error recorded by the last attempt, attempt `maxRetries`, and
its message is "request failed after <maxRetries> retries: " followed by the message of
that error: "server error (<code>): <body>" with the status and body of the last response
when that attempt received a response, "request failed: ..." around the transport's error,
or "failed to read response: ..." around the read error. -/
theorem Do_exhausted_wraps_last_error {β σ : Type} (c : Client) (env : Env)
    (json : JSON β σ) (method path : GoString) (queryParams : List (GoString × GoString))
    (body : Option β) (result : Option σ) (bodyBytes : GoString) (req : Request) (n : Nat)
    (hn : c.maxRetries = n)
    (hbody : marshalBody json body = Except.ok bodyBytes)
    (hreq : c.DoRequest method path queryParams bodyBytes = some req)
    (hreach : env.reaches n) (hlast : (env.roundTripAt n).retryable = true) :
    (c.Do env json method path queryParams body result).err =
      some (GoError.wrapError
        (ascii "request failed after " ++ itoa c.maxRetries ++ ascii " retries: " ++
          (env.roundTripAt n).lastErr.Error)
        (env.roundTripAt n).lastErr) ∧
    ((c.Do env json method path queryParams body result).err.bind GoError.Unwrap =
      some (env.roundTripAt n).lastErr) ∧
    (∀ statusCode respBody, env.roundTripAt n = RoundTrip.response statusCode respBody →
      (env.roundTripAt n).lastErr.Error =
        ascii "server error (" ++ itoa statusCode ++ ascii "): " ++ respBody) ∧
    (∀ err, env.roundTripAt n = RoundTrip.failed err →
      (env.roundTripAt n).lastErr = GoError.wrapError (ascii "request failed: " ++ err.Error) err) ∧
    (∀ err, env.roundTripAt n = RoundTrip.readFailed err →
      (env.roundTripAt n).lastErr =
        GoError.wrapError (ascii "failed to read response: " ++ err.Error) err) := by
  rw [Do_exhausted c env json method path queryParams body result bodyBytes req n hn hbody hreq
    hreach hlast]
  refine ⟨rfl, rfl, ?_, ?_, ?_⟩
  · intro statusCode respBody h
    rw [h]; rfl
  · intro err h
    rw [h]; rfl
  · intro err h
    rw [h]; rfl

set_option maxRecDepth 1000000 in
/-- Witness for C17: with `maxRetries = 3`, a refused connection, then 500, 502 and at last
503 with the body `busy`, the error names the last response. -/
theorem Do_exhausted_wraps_last_error_witness :
    (exampleClient.Do
      (scriptEnv [RoundTrip.failed (GoError.errorString (ascii "connection refused")),
        RoundTrip.response 500 (ascii "a"), RoundTrip.response 502 (ascii "b"),
        RoundTrip.response 503 (ascii "busy")] [] [])
      exampleJSON (ascii "GET") (ascii "/api/vms/v1/vm1") [] none
      (none : Option ExampleSink)).err =
      some (GoError.wrapError (ascii "request failed after 3 retries: server error (503): busy")
        (GoError.errorString (ascii "server error (503): busy"))) :=
  (Do_exhausted_wraps_last_error exampleClient
    (scriptEnv [RoundTrip.failed (GoError.errorString (ascii "connection refused")),
      RoundTrip.response 500 (ascii "a"), RoundTrip.response 502 (ascii "b"),
      RoundTrip.response 503 (ascii "busy")] [] [])
    exampleJSON (ascii "GET") (ascii "/api/vms/v1/vm1") [] none (none : Option ExampleSink) []
    ⟨ascii "GET", ⟨ascii "/api/vms/v1/vm1", []⟩, ⟨[]⟩, []⟩ 3 rfl rfl (by decide) (by decide)
    (by decide)).1.trans (by decide)

/-- C18. When the loop gets to the backoff wait before attempt `k + 1` (any attempt from 1
to `maxRetries`) and that wait is ended by `ctx.Done()`, `Client.Do` returns the value of
`ctx.Err()` itself; the call has made the `k + 1` requests of the attempts 0 to `k` and
makes no other, and the sink is left as it was. -/
theorem Do_cancelled_in_backoff_returns_ctx_err {β σ : Type} (c : Client) (env : Env)
    (json : JSON β σ) (method path : GoString) (queryParams : List (GoString × GoString))
    (body : Option β) (result : Option σ) (bodyBytes : GoString) (req : Request) (n k : Nat)
    (ctxErr : GoError)
    (hn : c.maxRetries = n)
    (hbody : marshalBody json body = Except.ok bodyBytes)
    (hreq : c.DoRequest method path queryParams bodyBytes = some req)
    (hk : k + 1 ≤ n) (hcancel : env.cancelledBefore k ctxErr) :
    (c.Do env json method path queryParams body result).err = some ctxErr ∧
    (c.Do env json method path queryParams body result).events =
      retryEvents env (k + 1) 0 (c.signRequest req bodyBytes env.date) ++
        [Event.cancelled (k + 1) (backoff (k + 1))] ∧
    countRequests (c.Do env json method path queryParams body result).events = k + 1 ∧
    countWaits (c.Do env json method path queryParams body result).events = k ∧
    (c.Do env json method path queryParams body result).result = result := by
  obtain ⟨hretry, hsel, hdone⟩ := hcancel
  have hreach : env.reaches k := ⟨fun j hj => hretry j (by omega), hsel⟩
  rw [Do_reaches c env json method path queryParams body result bodyBytes req n k hn hbody hreq
    (by omega) hreach]
  have e : n + 1 - k = (n - k - 1 + 1) + 1 := by omega
  rw [e, retryLoop_continue c env json.Unmarshal method _ result (n - k - 1 + 1) k _ _
    (fun hpos => by
      have := hsel (k - 1) (by omega)
      rwa [show k - 1 + 1 = k by omega] at this) (hretry k (by omega))]
  rw [retryLoop_cancelled c env json.Unmarshal method _ result (n - k - 1) (k + 1) _ _ ctxErr
    (by omega) hdone]
  rw [DoResult.after_after, ← retryEvents_succ_end_zero]
  simp only [DoResult.after]
  refine ⟨trivial, trivial, ?_, ?_, trivial⟩
  · rw [countRequests_append, countRequests_retryEvents]; rfl
  · rw [countWaits_append, countWaits_retryEvents_zero]; rfl

set_option maxRecDepth 1000000 in
/-- Witness for C18: two attempts answered 503, the context cancelled during the wait
before attempt 2. -/
theorem Do_cancelled_in_backoff_returns_ctx_err_witness :
    (exampleClient.Do
      (scriptEnv [RoundTrip.response 503 (ascii "busy"), RoundTrip.response 503 (ascii "busy")]
        [SelectCase.timer, SelectCase.timer,
          SelectCase.done (GoError.errorString (ascii "context canceled"))] [])
      exampleJSON (ascii "GET") (ascii "/api/vms/v1/vm1") [] none
      (none : Option ExampleSink)).err =
      some (GoError.errorString (ascii "context canceled")) ∧
    countRequests (exampleClient.Do
      (scriptEnv [RoundTrip.response 503 (ascii "busy"), RoundTrip.response 503 (ascii "busy")]
        [SelectCase.timer, SelectCase.timer,
          SelectCase.done (GoError.errorString (ascii "context canceled"))] [])
      exampleJSON (ascii "GET") (ascii "/api/vms/v1/vm1") [] none
      (none : Option ExampleSink)).events = 2 :=
  have h := Do_cancelled_in_backoff_returns_ctx_err exampleClient
    (scriptEnv [RoundTrip.response 503 (ascii "busy"), RoundTrip.response 503 (ascii "busy")]
      [SelectCase.timer, SelectCase.timer,
        SelectCase.done (GoError.errorString (ascii "context canceled"))] [])
    exampleJSON (ascii "GET") (ascii "/api/vms/v1/vm1") [] none (none : Option ExampleSink) []
    ⟨ascii "GET", ⟨ascii "/api/vms/v1/vm1", []⟩, ⟨[]⟩, []⟩ 3 1
    (GoError.errorString (ascii "context canceled")) rfl rfl (by decide) (by decide)
    (by decide)
  ⟨h.1, h.2.2.1⟩

/-! ## The backoff waits -/

/-- The events of one pass of the loop body and of what follows it. -/
theorem retryLoop_succ_events {σ : Type} (c : Client) (env : Env)
    (U : GoString → σ → σ × Option GoError) (method url : GoString) (result : Option σ)
    (rem a : Nat) (req : Request) (lastErr : Option GoError) :
    ((c.retryLoop env U method url result (rem + 1) a req lastErr).events =
        [Event.cancelled a (backoff a)] ∧ a > 0) ∨
    ∃ tail, (c.retryLoop env U method url result (rem + 1) a req lastErr).events =
        attemptEvents a req ++ tail ∧
      (tail = [] ∨ (∃ b, tail = [Event.unmarshal a b]) ∨
        ∃ l2, tail = (c.retryLoop env U method url result rem (a + 1) (drainBody env a req)
          l2).events) := by
  cases hs : (if a > 0 then env.selectAt a else SelectCase.timer) with
  | done ctxErr =>
    left
    have ha : a > 0 := by
      by_contra h
      simp [h] at hs
    rw [Client.retryLoop, hs]
    exact ⟨rfl, ha⟩
  | timer =>
    right
    rw [Client.retryLoop, hs]
    cases hrt : env.roundTripAt a with
    | failed err => exact ⟨_, rfl, Or.inr (Or.inr ⟨_, rfl⟩)⟩
    | readFailed err => exact ⟨_, rfl, Or.inr (Or.inr ⟨_, rfl⟩)⟩
    | response statusCode respBody =>
      by_cases h5 : statusCode ≥ 500
      · simp only [h5, if_true]
        exact ⟨_, rfl, Or.inr (Or.inr ⟨_, rfl⟩)⟩
      · by_cases h4 : statusCode ≥ 400
        · simp only [h5, h4, if_true, if_false]
          exact ⟨_, rfl, Or.inl rfl⟩
        · simp only [h5, h4, if_false]
          cases result with
          | none => exact ⟨_, rfl, Or.inl rfl⟩
          | some sink =>
            by_cases hb : respBody.length > 0
            · simp only [hb, if_true]
              rcases hu : U respBody sink with ⟨sink2, _ | err⟩
              · exact ⟨_, rfl, Or.inr (Or.inl ⟨_, rfl⟩)⟩
              · exact ⟨_, rfl, Or.inr (Or.inl ⟨_, rfl⟩)⟩
            · simp only [hb, if_false]
              exact ⟨_, rfl, Or.inl rfl⟩

theorem waitsAreBackoffs_nil : WaitsAreBackoffs [] := by
  refine ⟨?_, ?_, ?_⟩ <;>
    · intro k d h
      cases h

theorem waitsAreBackoffs_unmarshal (a : Nat) (b : GoString) :
    WaitsAreBackoffs [Event.unmarshal a b] := by
  refine ⟨?_, ?_, ?_⟩ <;>
    · intro k d h
      simp only [List.mem_singleton] at h
      cases h

theorem waitsAreBackoffs_cancelled (a : Nat) (ha : a > 0) :
    WaitsAreBackoffs [Event.cancelled a (backoff a)] := by
  refine ⟨?_, ?_, ?_⟩
  · intro k d h
    simp only [List.mem_singleton] at h
    cases h
  · intro k d h
    simp only [List.mem_singleton] at h
    injection h with hk hd
    subst hk hd
    exact ⟨ha, rfl⟩
  · intro k r h
    simp only [List.mem_singleton] at h
    cases h

theorem waitsAreBackoffs_attempt (a : Nat) (req : Request) (tail : List Event)
    (ht : WaitsAreBackoffs tail) : WaitsAreBackoffs (attemptEvents a req ++ tail) := by
  obtain ⟨h1, h2, h3⟩ := ht
  by_cases ha : a > 0
  · simp only [attemptEvents, ha, if_true, List.cons_append, List.nil_append,
      List.singleton_append]
    refine ⟨?_, ?_, ?_⟩
    · intro k d hmem
      simp only [List.mem_cons] at hmem
      rcases hmem with h | h | h
      · injection h with hk hd
        subst hk hd
        exact ⟨ha, rfl⟩
      · cases h
      · exact h1 k d h
    · intro k d hmem
      simp only [List.mem_cons] at hmem
      rcases hmem with h | h | h
      · cases h
      · cases h
      · exact h2 k d h
    · intro k r hmem hk
      simp only [List.mem_cons] at hmem
      rcases hmem with h | h | h
      · cases h
      · injection h with hk2 hr
        subst hk2 hr
        exact ⟨[], tail, rfl⟩
      · obtain ⟨pre, post, e⟩ := h3 k r h hk
        exact ⟨Event.wait a (backoff a) :: Event.request a req :: pre, post, by rw [e]; rfl⟩
  · simp only [attemptEvents, ha, if_false, List.nil_append, List.singleton_append]
    refine ⟨?_, ?_, ?_⟩
    · intro k d hmem
      simp only [List.mem_cons] at hmem
      rcases hmem with h | h
      · cases h
      · exact h1 k d h
    · intro k d hmem
      simp only [List.mem_cons] at hmem
      rcases hmem with h | h
      · cases h
      · exact h2 k d h
    · intro k r hmem hk
      simp only [List.mem_cons] at hmem
      rcases hmem with h | h
      · injection h with hk2 hr
        omega
      · obtain ⟨pre, post, e⟩ := h3 k r h hk
        exact ⟨Event.request a req :: pre, post, by rw [e]; rfl⟩

theorem waitsAreBackoffs_retryLoop {σ : Type} (c : Client) (env : Env)
    (U : GoString → σ → σ × Option GoError) (method url : GoString) (result : Option σ)
    (rem : Nat) : ∀ (a : Nat) (req : Request) (lastErr : Option GoError),
    WaitsAreBackoffs (c.retryLoop env U method url result rem a req lastErr).events := by
  induction rem with
  | zero =>
    intro a req lastErr
    rw [retryLoop_zero]
    exact waitsAreBackoffs_nil
  | succ rem ih =>
    intro a req lastErr
    rcases retryLoop_succ_events c env U method url result rem a req lastErr with
      ⟨he, ha⟩ | ⟨tail, he, ht⟩
    · rw [he]
      exact waitsAreBackoffs_cancelled a ha
    · rw [he]
      apply waitsAreBackoffs_attempt
      rcases ht with h | ⟨b, h⟩ | ⟨l2, h⟩
      · rw [h]
        exact waitsAreBackoffs_nil
      · rw [h]
        exact waitsAreBackoffs_unmarshal a b
      · rw [h]
        exact ih _ _ _

theorem waitsAreBackoffs_Do {β σ : Type} (c : Client) (env : Env) (json : JSON β σ)
    (method path : GoString) (queryParams : List (GoString × GoString)) (body : Option β)
    (result : Option σ) :
    WaitsAreBackoffs (c.Do env json method path queryParams body result).events := by
  cases hb : marshalBody json body with
  | error err =>
    simp only [Client.Do, hb]
    exact waitsAreBackoffs_nil
  | ok bodyBytes =>
    cases hr : c.DoRequest method path queryParams bodyBytes with
    | none =>
      simp only [Client.Do, hb, hr]
      exact waitsAreBackoffs_nil
    | some req =>
      simp only [Client.Do, hb, hr]
      exact waitsAreBackoffs_retryLoop c env json.Unmarshal method _ result _ _ _ _

/-- For the attempts 1 to 34 the shift and the product stay inside `int64`. -/
theorem backoff_exact_upto_34 (k : Nat) (h1 : 1 ≤ k) (h34 : k ≤ 34) :
    backoff k = 2 ^ (k - 1) * timeSecond := by
  interval_cases k <;> decide

set_option maxRecDepth 1000000 in
/-- C13 fails as stated: with `maxRetries = 35` and a transport that always answers 503,
the wait before attempt 35 is `time.After` of -1266874889709551616 ns, the `int64` product
of `1<<34` and `time.Second` wrapped around, and not 2^34 seconds; from attempt 65 on the
shift itself gives 0. -/
theorem backoff_wraps_at_attempt_35 :
    Event.wait 35 (-1266874889709551616) ∈
      (exampleClient35.Do env503 exampleJSON (ascii "GET") (ascii "/api/vms/v1/vm1") [] none
        (none : Option ExampleSink)).events ∧
    backoff 35 = -1266874889709551616 ∧
    backoff 35 ≠ 2 ^ 34 * timeSecond ∧
    backoff 65 = 0 := by
  decide

/-- C13 as amended. In every call of `Client.Do` a completed backoff wait belongs to an
attempt from 1 on (no wait precedes attempt 0) and lasts the `backoff` of that attempt;
the request of every attempt from 1 on comes right after the wait of that attempt; and
for the attempts 1 to 34 that duration is exactly 2^(attempt-1) seconds, with no jitter:
1 s, 2 s and 4 s before the 2nd, 3rd and 4th attempt. -/
theorem backoff_wait_exact_upto_attempt_34 {β σ : Type} (c : Client) (env : Env)
    (json : JSON β σ) (method path : GoString) (queryParams : List (GoString × GoString))
    (body : Option β) (result : Option σ) :
    (∀ k d, Event.wait k d ∈ (c.Do env json method path queryParams body result).events →
      1 ≤ k ∧ d = backoff k) ∧
    (∀ k r, Event.request k r ∈ (c.Do env json method path queryParams body result).events →
      1 ≤ k → ∃ pre post, (c.Do env json method path queryParams body result).events =
        pre ++ Event.wait k (backoff k) :: Event.request k r :: post) ∧
    (∀ k, 1 ≤ k → k ≤ 34 → backoff k = 2 ^ (k - 1) * timeSecond) ∧
    backoff 1 = 1000000000 ∧ backoff 2 = 2000000000 ∧ backoff 3 = 4000000000 := by
  have h := waitsAreBackoffs_Do c env json method path queryParams body result
  exact ⟨h.1, h.2.2, backoff_exact_upto_34, by decide, by decide, by decide⟩

set_option maxRecDepth 1000000 in
/-- Witness for C13 as amended: the waits of the client with `maxRetries = 3` against a
transport that always answers 503 are 1 s, 2 s and 4 s, before the attempts 1, 2 and 3. -/
theorem backoff_wait_exact_upto_attempt_34_witness :
    (exampleClient.Do env503 exampleJSON (ascii "GET") (ascii "/api/vms/v1/vm1") [] none
      (none : Option ExampleSink)).events.filter Event.isWait =
      [Event.wait 1 1000000000, Event.wait 2 2000000000, Event.wait 3 4000000000] ∧
    (1 ≤ 3 ∧ backoff 3 = 4000000000) :=
  ⟨by decide,
    (backoff_wait_exact_upto_attempt_34 exampleClient env503 exampleJSON (ascii "GET")
      (ascii "/api/vms/v1/vm1") [] none (none : Option ExampleSink)).1 3 4000000000 (by decide)⟩

/-! ## Cancellation in flight, and the request body across attempts -/

set_option maxRecDepth 1000000 in
/-- C19, evaluated where the code diverges from it. The client has `maxRetries = 3`; the
attempts 0 to 2 are answered 503 and the deadline of the context passes while the request
of attempt 3, the last one permitted, is in flight, so that `c.httpClient.Do` returns an
error. `Client.Do` then returns the error of line 149, "request failed after 3 retries:
...", and not `ctx.Err()`. When the same happens during attempt 2, the `select` of the
next pass returns `ctx.Err()`. -/
theorem Do_cancelled_in_flight_on_last_attempt :
    (exampleClient.Do
      (scriptEnv [RoundTrip.response 503 (ascii "busy"), RoundTrip.response 503 (ascii "busy"),
        RoundTrip.response 503 (ascii "busy"), RoundTrip.failed inFlightDeadline]
        [SelectCase.timer, SelectCase.timer, SelectCase.timer, SelectCase.timer,
          SelectCase.done deadlineExceeded] [])
      exampleJSON (ascii "GET") (ascii "/api/vms/v1/vm1") [] none
      (none : Option ExampleSink)).err =
      some (GoError.wrapError
        (ascii "request failed after 3 retries: request failed: Get \x22https://api.h3.cloud/api/vms/v1/vm1\x22: context deadline exceeded")
        (GoError.wrapError
          (ascii "request failed: Get \x22https://api.h3.cloud/api/vms/v1/vm1\x22: context deadline exceeded")
          inFlightDeadline)) ∧
    (exampleClient.Do
      (scriptEnv [RoundTrip.response 503 (ascii "busy"), RoundTrip.response 503 (ascii "busy"),
        RoundTrip.response 503 (ascii "busy"), RoundTrip.failed inFlightDeadline]
        [SelectCase.timer, SelectCase.timer, SelectCase.timer, SelectCase.timer,
          SelectCase.done deadlineExceeded] [])
      exampleJSON (ascii "GET") (ascii "/api/vms/v1/vm1") [] none
      (none : Option ExampleSink)).err ≠ some deadlineExceeded ∧
    (exampleClient.Do
      (scriptEnv [RoundTrip.response 503 (ascii "busy"), RoundTrip.response 503 (ascii "busy"),
        RoundTrip.failed inFlightDeadline]
        [SelectCase.timer, SelectCase.timer, SelectCase.timer,
          SelectCase.done deadlineExceeded] [])
      exampleJSON (ascii "GET") (ascii "/api/vms/v1/vm1") [] none
      (none : Option ExampleSink)).err = some deadlineExceeded := by
  decide

/-- Every request the loop hands to the transport is the request it was started with,
less the body bytes already read: method, URL and headers never change. -/
theorem retryLoop_requests_fixed {σ : Type} (c : Client) (env : Env)
    (U : GoString → σ → σ × Option GoError) (method url : GoString) (result : Option σ)
    (rem : Nat) : ∀ (a : Nat) (req : Request) (lastErr : Option GoError) (k : Nat) (r : Request),
    Event.request k r ∈ (c.retryLoop env U method url result rem a req lastErr).events →
    r.Method = req.Method ∧ r.URL = req.URL ∧ r.Header = req.Header ∧
      ∃ m, r.Body = req.Body.drop m := by
  induction rem with
  | zero =>
    intro a req lastErr k r h
    rw [retryLoop_zero] at h
    cases h
  | succ rem ih =>
    intro a req lastErr k r h
    rcases retryLoop_succ_events c env U method url result rem a req lastErr with
      ⟨he, _⟩ | ⟨tail, he, ht⟩
    · rw [he, List.mem_singleton] at h
      cases h
    · rw [he, List.mem_append] at h
      rcases h with h | h
      · have hr : r = req := by
          by_cases ha : a > 0
          · simp only [attemptEvents, ha, if_true, List.singleton_append, List.mem_cons] at h
            rcases h with h | h | h
            · cases h
            · injection h with _ h2
            · cases h
          · simp only [attemptEvents, ha, if_false, List.nil_append, List.mem_singleton] at h
            injection h with _ h2
        subst hr
        exact ⟨rfl, rfl, rfl, 0, rfl⟩
      · rcases ht with ht | ⟨b, ht⟩ | ⟨l2, ht⟩
        · rw [ht] at h; cases h
        · rw [ht, List.mem_singleton] at h; cases h
        · rw [ht] at h
          obtain ⟨h1, h2, h3, m, h4⟩ := ih _ _ _ k r h
          refine ⟨h1, h2, h3, env.bodyReadAt a + m, ?_⟩
          rw [h4]
          simp [drainBody, List.drop_drop, Nat.add_comm]

set_option maxRecDepth 1000000 in
/-- C20, evaluated where the code diverges from it. The call posts the two bytes
`\x7b\x7d`; the transport reads them during attempt 0, which is answered 503. The four
requests handed to the transport have the same method, URL and headers (one signature,
one timestamp), but only the first still has the body bytes to send: for the attempts 1
to 3 the body stream, which nothing rewinds, is at its end. -/
theorem Do_retry_resends_drained_body :
    (requestsOf (exampleClient.Do envDrainedBody exampleJSON (ascii "POST")
      (ascii "/api/vms/v1") [] (some (ascii "\x7b\x7d"))
      (none : Option ExampleSink)).events).map Request.Body =
      [ascii "\x7b\x7d", [], [], []] ∧
    (requestsOf (exampleClient.Do envDrainedBody exampleJSON (ascii "POST")
      (ascii "/api/vms/v1") [] (some (ascii "\x7b\x7d"))
      (none : Option ExampleSink)).events).map
        (fun r => (r.Method, r.URL.Path, r.Header.Get (ascii "X-H3-Key-Id"),
          r.Header.Get (ascii "X-H3-Date"), r.Header.Get (ascii "X-H3-Signature"))) =
      List.replicate 4 (ascii "POST", ascii "/api/vms/v1", ascii "key1", exampleDate,
        ascii "876481f066cf561dcc287f15cfe617e752a3e966143038206ca694697ab07cba") ∧
    (exampleClient.Do envDrainedBody exampleJSON (ascii "POST")
      (ascii "/api/vms/v1") [] (some (ascii "\x7b\x7d"))
      (none : Option ExampleSink)).err.map GoError.Error =
      some (ascii "request failed after 3 retries: request failed: Post \x22https://api.h3.cloud/api/vms/v1\x22: http: ContentLength=2 with Body length 0") := by
  decide

/-! ## The empty body -/

theorem NewRequestWithContext_body (method url body : GoString) (req : Request)
    (h : NewRequestWithContext method url body = some req) : req.Body = body := by
  unfold NewRequestWithContext at h
  by_cases hv : validMethod (if method = [] then ascii "GET" else method) = true
  · rw [if_pos hv] at h
    cases hu : urlParse url with
    | none => rw [hu] at h; cases h
    | some u =>
      rw [hu] at h
      injection h with h
      rw [← h]
  · rw [if_neg hv] at h
    cases h

theorem signRequest_body (c : Client) (req : Request) (body date : GoString) :
    (c.signRequest req body date).Body = req.Body := rfl

set_option maxRecDepth 1000000 in
/-- The SHA-256 digest of the empty byte sequence, in lowercase hex. -/
theorem sha256_empty :
    hexEncode (sha256 []) =
      ascii "e3b0c44298fc1c149afbf4c8996fb92427ae41e4649b934ca495991b7852b855" := by
  decide

/-- C21. A nil body makes `bodyBytes` empty. Every request a call of `Client.Do` with a
nil body hands to the transport has the empty body and carries, in `X-H3-Signature`, the
HMAC of the canonical string whose body digest is the lowercase hex SHA-256 of the empty
byte sequence, e3b0c442...b855 (the other four fields being those of the request, the
timestamp of the call and the key id of the client); there is such a request whenever
the request can be created and `maxRetries` is not negative. `BuildCanonicalRequest`
places the same digest for an empty body, in particular for the body it reads from a
request of such a call. -/
theorem nil_body_digest {β σ : Type} (c : Client) (env : Env) (json : JSON β σ)
    (method path : GoString) (queryParams : List (GoString × GoString)) (result : Option σ)
    (r : Request) :
    marshalBody json (none : Option β) = Except.ok [] ∧
    hexEncode (sha256 []) =
      ascii "e3b0c44298fc1c149afbf4c8996fb92427ae41e4649b934ca495991b7852b855" ∧
    (∀ k sent, Event.request k sent ∈
        (c.Do env json method path queryParams (none : Option β) result).events →
      sent.Body = [] ∧
      sent.Header.Get (ascii "X-H3-Date") = env.date ∧
      sent.Header.Get (ascii "X-H3-Key-Id") = c.keyID ∧
      sent.Header.Get (ascii "X-H3-Signature") =
        hexEncode (hmacSha256 c.secretKey
          (sent.Method ++ ascii "\n" ++ sent.URL.Path ++ ascii "\n" ++ sent.URL.RawQuery ++
            ascii "\n" ++
            (ascii "x-h3-date:" ++ env.date ++ ascii "\n" ++ (ascii "x-h3-key-id:" ++ c.keyID)) ++
            ascii "\n" ++
            ascii "e3b0c44298fc1c149afbf4c8996fb92427ae41e4649b934ca495991b7852b855")) ∧
      BuildCanonicalRequest sent (ReadBody sent) =
        sent.Method ++ ascii "\n" ++ sent.URL.Path ++ ascii "\n" ++
          canonicalQueryOf sent.URL.Query ++ ascii "\n" ++
          (ascii "x-h3-date:" ++ env.date ++ ascii "\n" ++ (ascii "x-h3-key-id:" ++ c.keyID)) ++
          ascii "\n" ++
          ascii "e3b0c44298fc1c149afbf4c8996fb92427ae41e4649b934ca495991b7852b855") ∧
    (∀ req, c.DoRequest method path queryParams [] = some req → 0 ≤ c.maxRetries →
      Event.request 0 (c.signRequest req [] env.date) ∈
        (c.Do env json method path queryParams (none : Option β) result).events) ∧
    BuildCanonicalRequest r [] =
      r.Method ++ ascii "\n" ++ r.URL.Path ++ ascii "\n" ++ canonicalQueryOf r.URL.Query ++
        ascii "\n" ++
        (ascii "x-h3-date:" ++ r.Header.Get (ascii "X-H3-Date") ++ ascii "\n" ++
          (ascii "x-h3-key-id:" ++ r.Header.Get (ascii "X-H3-Key-Id"))) ++ ascii "\n" ++
        ascii "e3b0c44298fc1c149afbf4c8996fb92427ae41e4649b934ca495991b7852b855" := by
  have hbcr : ∀ q : Request, BuildCanonicalRequest q [] =
      q.Method ++ ascii "\n" ++ q.URL.Path ++ ascii "\n" ++ canonicalQueryOf q.URL.Query ++
        ascii "\n" ++
        (ascii "x-h3-date:" ++ q.Header.Get (ascii "X-H3-Date") ++ ascii "\n" ++
          (ascii "x-h3-key-id:" ++ q.Header.Get (ascii "X-H3-Key-Id"))) ++ ascii "\n" ++
        ascii "e3b0c44298fc1c149afbf4c8996fb92427ae41e4649b934ca495991b7852b855" := by
    intro q
    rw [BuildCanonicalRequest, BuildCanonicalRequestRange_eq, sha256_empty]
  refine ⟨rfl, sha256_empty, ?_, ?_, hbcr r⟩
  · intro k sent hmem
    cases hr : c.DoRequest method path queryParams [] with
    | none =>
      have hD : c.Do env json method path queryParams (none : Option β) result =
          ⟨some (Errorf (ascii "failed to create request: ") (some env.newRequestErr)), result,
            []⟩ := by
        simp only [Client.Do, marshalBody, hr]
      rw [hD] at hmem
      cases hmem
    | some req0 =>
      rw [Do_eq_retryLoop c env json method path queryParams none result [] req0 rfl hr] at hmem
      obtain ⟨hm, hu, hh, m, hb⟩ := retryLoop_requests_fixed c env json.Unmarshal method _ result _
        _ _ _ k sent hmem
      have hbody : sent.Body = [] := by
        rw [hb, signRequest_body, NewRequestWithContext_body _ _ _ _ hr]
        simp
      have hs := signRequest_headers c req0 [] env.date
      have hm2 : sent.Method = req0.Method := hm
      have hu2 : sent.URL = req0.URL := hu
      have hdate : sent.Header.Get (ascii "X-H3-Date") = env.date := by rw [hh]; exact hs.2.2.1
      have hkey : sent.Header.Get (ascii "X-H3-Key-Id") = c.keyID := by rw [hh]; exact hs.2.1
      refine ⟨hbody, hdate, hkey, ?_, ?_⟩
      · rw [hh, hs.2.2.2, hm2, hu2]
        unfold Client.signature
        rw [signCanonical_eq, sha256_empty]
      · rw [ReadBody, hbody, hbcr sent, hdate, hkey]
  · intro req hreq hmax
    rw [Do_eq_retryLoop c env json method path queryParams none result [] req rfl hreq]
    obtain ⟨n, hn⟩ : ∃ n, (c.maxRetries + 1).toNat = n + 1 :=
      ⟨(c.maxRetries + 1).toNat - 1, by omega⟩
    rw [hn]
    rcases retryLoop_succ_events c env json.Unmarshal method (c.DoURL path queryParams) result n 0
        (c.signRequest req [] env.date) none with ⟨_, h0⟩ | ⟨tail, hev, _⟩
    · exact absurd h0 (by decide)
    · rw [hev]
      exact List.mem_append_left _ (by simp [attemptEvents])

set_option maxRecDepth 1000000 in
/-- Witness for C21: a GET with a nil body against a transport that always answers 503.
The four requests have an empty body and carry the HMAC of the canonical string that
ends with the digest of the empty byte sequence. -/
theorem nil_body_digest_witness :
    Event.request 0
        (exampleClient.signRequest ⟨ascii "GET", ⟨ascii "/api/vms/v1/vm1", []⟩, ⟨[]⟩, []⟩ []
          env503.date) ∈
      (exampleClient.Do env503 exampleJSON (ascii "GET") (ascii "/api/vms/v1/vm1") []
        (none : Option GoString) (none : Option ExampleSink)).events ∧
    (requestsOf (exampleClient.Do env503 exampleJSON (ascii "GET") (ascii "/api/vms/v1/vm1") []
      none (none : Option ExampleSink)).events).map
        (fun r => (r.Body, r.Header.Get (ascii "X-H3-Signature"))) =
      List.replicate 4
        ([], ascii "67d807ec596ca72c1a75b81e7cf8717716563b659a9a1bf5bc107f6ce88fce4f") ∧
    hexEncode (hmacSha256 (ascii "secret")
      (ascii "GET\n/api/vms/v1/vm1\n\nx-h3-date:2024-01-01T00:00:00Z\nx-h3-key-id:key1\ne3b0c44298fc1c149afbf4c8996fb92427ae41e4649b934ca495991b7852b855")) =
      ascii "67d807ec596ca72c1a75b81e7cf8717716563b659a9a1bf5bc107f6ce88fce4f" :=
  ⟨(nil_body_digest (β := GoString) (σ := ExampleSink) exampleClient env503 exampleJSON
      (ascii "GET") (ascii "/api/vms/v1/vm1") [] none
      ⟨ascii "GET", ⟨ascii "/api/vms/v1/vm1", []⟩, ⟨[]⟩, []⟩).2.2.2.1
      ⟨ascii "GET", ⟨ascii "/api/vms/v1/vm1", []⟩, ⟨[]⟩, []⟩ (by decide) (by decide),
    by decide, by decide⟩

/-! ## `NewClient` -/

/-- C22. `NewClient` returns an error, and no client, exactly when the base URL, the key
id or the secret key of the configuration is empty; otherwise it returns a client whose
base URL, key id and secret key are the configured ones, so that every client it returns
has a non-empty base URL, key id and secret key. -/
theorem NewClient_error_iff_missing (cfg : Config) :
    ((cfg.BaseURL = [] ∨ cfg.KeyID = [] ∨ cfg.SecretKey = []) ↔
      ∃ err, NewClient cfg = Except.error err) ∧
    (¬ (cfg.BaseURL = [] ∨ cfg.KeyID = [] ∨ cfg.SecretKey = []) ↔
      ∃ c, NewClient cfg = Except.ok c) ∧
    (∀ c, NewClient cfg = Except.ok c →
      c.baseURL = cfg.BaseURL ∧ c.keyID = cfg.KeyID ∧ c.secretKey = cfg.SecretKey ∧
      c.baseURL ≠ [] ∧ c.keyID ≠ [] ∧ c.secretKey ≠ []) ∧
    (cfg.BaseURL = [] →
      NewClient cfg = Except.error (GoError.errorString (ascii "base URL is required"))) ∧
    (cfg.BaseURL ≠ [] → cfg.KeyID = [] ∨ cfg.SecretKey = [] →
      NewClient cfg = Except.error
        (GoError.errorString (ascii "HMAC credentials (key_id and secret_key) are required"))) := by
  by_cases hb : cfg.BaseURL = []
  · have hN : NewClient cfg =
        Except.error (GoError.errorString (ascii "base URL is required")) := by
      simp only [NewClient, hb, if_true]
    refine ⟨⟨fun _ => ⟨_, hN⟩, fun _ => Or.inl hb⟩, ⟨fun h => absurd (Or.inl hb) h, ?_⟩, ?_,
      fun _ => hN, fun h => absurd hb h⟩
    · rintro ⟨c, hc⟩
      rw [hN] at hc
      cases hc
    · intro c hc
      rw [hN] at hc
      cases hc
  · by_cases hk : cfg.KeyID = [] ∨ cfg.SecretKey = []
    · have hN : NewClient cfg = Except.error
          (GoError.errorString (ascii "HMAC credentials (key_id and secret_key) are required")) := by
        simp only [NewClient, hb, hk, if_true, if_false]
      refine ⟨⟨fun _ => ⟨_, hN⟩, fun _ => Or.inr hk⟩, ⟨fun h => absurd (Or.inr hk) h, ?_⟩, ?_,
        fun h => absurd h hb, fun _ _ => hN⟩
      · rintro ⟨c, hc⟩
        rw [hN] at hc
        cases hc
      · intro c hc
        rw [hN] at hc
        cases hc
    · have hN : NewClient cfg = Except.ok
          { baseURL := cfg.BaseURL
            keyID := cfg.KeyID
            secretKey := cfg.SecretKey
            timeout := if cfg.Timeout = 0 then 30 * timeSecond else cfg.Timeout
            maxRetries := if cfg.MaxRetries = 0 then 3 else cfg.MaxRetries } := by
        simp only [NewClient, hb, hk, if_false]
      have hmiss : ¬ (cfg.BaseURL = [] ∨ cfg.KeyID = [] ∨ cfg.SecretKey = []) := by
        rintro (h | h)
        · exact hb h
        · exact hk h
      refine ⟨⟨fun h => absurd h hmiss, ?_⟩, ⟨fun _ => ⟨_, hN⟩, fun _ => hmiss⟩, ?_,
        fun h => absurd h hb, fun _ h => absurd h hk⟩
      · rintro ⟨err, he⟩
        rw [hN] at he
        cases he
      · intro c hc
        rw [hN] at hc
        injection hc with hc
        subst hc
        exact ⟨rfl, rfl, rfl, hb, fun h => hk (Or.inl h), fun h => hk (Or.inr h)⟩

/-- Witness for C22: a configuration without a secret key, and a complete one. -/
theorem NewClient_error_iff_missing_witness :
    (∃ err, NewClient ⟨ascii "https://api.h3.cloud", ascii "key1", [], 0, 0⟩ = Except.error err) ∧
    (∃ c, NewClient ⟨ascii "https://api.h3.cloud", ascii "key1", ascii "secret", 0, 0⟩ =
      Except.ok c) :=
  ⟨(NewClient_error_iff_missing ⟨ascii "https://api.h3.cloud", ascii "key1", [], 0, 0⟩).1.mp
      (Or.inr (Or.inr rfl)),
    (NewClient_error_iff_missing
      ⟨ascii "https://api.h3.cloud", ascii "key1", ascii "secret", 0, 0⟩).2.1.mp (by decide)⟩

/-- The client `NewClient` builds from a valid configuration. -/
theorem NewClient_ok (cfg : Config) (c : Client) (h : NewClient cfg = Except.ok c) :
    c = { baseURL := cfg.BaseURL
          keyID := cfg.KeyID
          secretKey := cfg.SecretKey
          timeout := if cfg.Timeout = 0 then 30 * timeSecond else cfg.Timeout
          maxRetries := if cfg.MaxRetries = 0 then 3 else cfg.MaxRetries } := by
  unfold NewClient at h
  split at h
  · cases h
  · split at h
    · cases h
    · injection h with h
      exact h.symm

set_option maxRecDepth 1000000 in
/-- C23, evaluated where the code diverges from it. A configuration with `MaxRetries = 0`
and `Timeout = 0` gives a client with `maxRetries = 3` and a timeout of 30 s, which makes
4 attempts, that is 3 retries and not 0, against a transport that always answers 503.
The provider configuration `max_retries = 0`, an attribute that is set and that
`H3Provider.Configure` therefore passes on as 0, ends the same way. -/
theorem NewClient_replaces_zero_retries :
    NewClient ⟨ascii "https://api.h3.cloud", ascii "key1", ascii "secret", 0, 0⟩ =
      Except.ok exampleClient ∧
    exampleClient.maxRetries = 3 ∧ exampleClient.timeout = 30 * timeSecond ∧
    countRequests (exampleClient.Do env503 exampleJSON (ascii "GET") (ascii "/api/vms/v1/vm1")
      [] none (none : Option ExampleSink)).events = 4 ∧
    NewClient (providerConfig (ascii "https://api.h3.cloud") (ascii "key1") (ascii "secret")
      (some 30) (some 0)) = Except.ok exampleClient :=
  ⟨rfl, by decide, by decide, by decide, rfl⟩

/-- What `NewClient` does with the two numbers. For every valid configuration the client
built by `NewClient` uses `cfg.Timeout` unless it is 0, in which case it uses 30 seconds, and `cfg.MaxRetries`
unless it is 0, in which case it uses 3; a caller who configures a retry count `r ≥ 1`
gets a client that makes `r + 1` attempts, exactly `r` retries, when every attempt is
retryable and no wait is cancelled. -/
theorem NewClient_defaults_on_zero {β σ : Type} (cfg : Config) (c : Client)
    (hvalid : NewClient cfg = Except.ok c) :
    c.timeout = (if cfg.Timeout = 0 then 30 * timeSecond else cfg.Timeout) ∧
    c.maxRetries = (if cfg.MaxRetries = 0 then 3 else cfg.MaxRetries) ∧
    (cfg.Timeout ≠ 0 → c.timeout = cfg.Timeout) ∧
    (cfg.MaxRetries ≠ 0 → c.maxRetries = cfg.MaxRetries) ∧
    (cfg.Timeout = 0 → c.timeout = 30000000000) ∧
    (cfg.MaxRetries = 0 → c.maxRetries = 3) ∧
    (∀ (r : Nat) (env : Env) (json : JSON β σ) (method path : GoString)
      (queryParams : List (GoString × GoString)) (body : Option β) (result : Option σ)
      (bodyBytes : GoString) (req : Request),
      1 ≤ r → cfg.MaxRetries = r →
      marshalBody json body = Except.ok bodyBytes →
      c.DoRequest method path queryParams bodyBytes = some req →
      env.reaches r → (env.roundTripAt r).retryable = true →
      countRequests (c.Do env json method path queryParams body result).events = r + 1) := by
  have hc := NewClient_ok cfg c hvalid
  subst hc
  refine ⟨rfl, rfl, fun h => by simp [h], fun h => by simp [h], fun h => by simp [h, timeSecond],
    fun h => by simp [h], ?_⟩
  intro r env json method path queryParams body result bodyBytes req hr hcfg hbody hreq hreach
    hlast
  have hmr : (if cfg.MaxRetries = 0 then (3 : Int) else cfg.MaxRetries) = (r : Int) := by
    have : cfg.MaxRetries ≠ 0 := by omega
    rw [if_neg this, hcfg]
  rw [Do_exhausted _ env json method path queryParams body result bodyBytes req r hmr hbody hreq
    hreach hlast]
  exact countRequests_retryEvents env _ _ _

set_option maxRecDepth 1000000 in
/-- An instance with non-zero numbers: `MaxRetries = 2` and a `Timeout` of 5 s are kept,
and the client makes 3 attempts against a transport that always answers 503. -/
theorem NewClient_defaults_on_zero_witness :
    NewClient ⟨ascii "https://api.h3.cloud", ascii "key1", ascii "secret", 5000000000, 2⟩ =
      Except.ok ⟨ascii "https://api.h3.cloud", ascii "key1", ascii "secret", 5000000000, 2⟩ ∧
    countRequests (Client.Do
      ⟨ascii "https://api.h3.cloud", ascii "key1", ascii "secret", 5000000000, 2⟩
      env503 exampleJSON (ascii "GET") (ascii "/api/vms/v1/vm1") [] none
      (none : Option ExampleSink)).events = 2 + 1 :=
  ⟨rfl,
    (NewClient_defaults_on_zero
      ⟨ascii "https://api.h3.cloud", ascii "key1", ascii "secret", 5000000000, 2⟩
      ⟨ascii "https://api.h3.cloud", ascii "key1", ascii "secret", 5000000000, 2⟩
      rfl).2.2.2.2.2.2 2 env503 exampleJSON (ascii "GET") (ascii "/api/vms/v1/vm1") [] none
      (none : Option ExampleSink) [] ⟨ascii "GET", ⟨ascii "/api/vms/v1/vm1", []⟩, ⟨[]⟩, []⟩
      (by decide) rfl rfl (by decide) (by decide) (by decide)⟩

/-- C28. `NewClient` keeps a negative `MaxRetries` as it is. The client `c` it builds
from such a configuration makes no request in any call of `Client.Do`, and a call that
gets to the loop, the body marshalled and the request created, returns the error "request
failed after <maxRetries> retries: %!w(<nil>)", which wraps no error since `lastErr` is
nil. -/
theorem Do_negative_maxRetries {β σ : Type} (cfg : Config) (c : Client)
    (env : Env) (json : JSON β σ) (method path : GoString)
    (queryParams : List (GoString × GoString)) (body : Option β) (result : Option σ)
    (bodyBytes : GoString) (req : Request)
    (hvalid : NewClient cfg = Except.ok c) (hcfg : cfg.MaxRetries < 0)
    (hbody : marshalBody json body = Except.ok bodyBytes)
    (hreq : c.DoRequest method path queryParams bodyBytes = some req) :
    c.maxRetries = cfg.MaxRetries ∧
    c.Do env json method path queryParams body result =
      ⟨some (GoError.errorString
        (ascii "request failed after " ++ itoa cfg.MaxRetries ++
          ascii " retries: %!w(<nil>)")),
        result, []⟩ ∧
    (c.Do env json method path queryParams body result).err.bind GoError.Unwrap = none ∧
    (∀ (body2 : Option β) (method2 path2 : GoString) (params2 : List (GoString × GoString)),
      countRequests (c.Do env json method2 path2 params2 body2 result).events = 0) := by
  have hb := NewClient_ok cfg c hvalid
  have hmr : c.maxRetries = cfg.MaxRetries := by
    subst hb
    have : cfg.MaxRetries ≠ 0 := by omega
    simp [this]
  have hzero : (c.maxRetries + 1).toNat = 0 := by omega
  have hD : c.Do env json method path queryParams body result =
      ⟨some (GoError.errorString
        (ascii "request failed after " ++ itoa cfg.MaxRetries ++
          ascii " retries: %!w(<nil>)")),
        result, []⟩ := by
    rw [Do_eq_retryLoop c env json method path queryParams body result bodyBytes req hbody hreq,
      hzero, retryLoop_zero, hmr]
    simp [Errorf]
    rfl
  refine ⟨hmr, hD, ?_, ?_⟩
  · rw [hD]; rfl
  · intro body2 method2 path2 params2
    unfold Client.Do
    cases marshalBody json body2 with
    | error err => rfl
    | ok bytes2 =>
      dsimp only
      cases c.DoRequest method2 path2 params2 bytes2 with
      | none => rfl
      | some req2 =>
        simp only [hzero, retryLoop_zero]
        rfl

set_option maxRecDepth 1000000 in
/-- Witness for C28: `MaxRetries = -2`. -/
theorem Do_negative_maxRetries_witness :
    NewClient ⟨ascii "https://api.h3.cloud", ascii "key1", ascii "secret", 0, -2⟩ =
      Except.ok ⟨ascii "https://api.h3.cloud", ascii "key1", ascii "secret", 30000000000, -2⟩ ∧
    (Client.Do ⟨ascii "https://api.h3.cloud", ascii "key1", ascii "secret", 30000000000, -2⟩
      env503 exampleJSON (ascii "GET") (ascii "/api/vms/v1/vm1") [] none
      (none : Option ExampleSink)).err =
      some (GoError.errorString (ascii "request failed after -2 retries: %!w(<nil>)")) ∧
    (Client.Do ⟨ascii "https://api.h3.cloud", ascii "key1", ascii "secret", 30000000000, -2⟩
      env503 exampleJSON (ascii "GET") (ascii "/api/vms/v1/vm1") [] none
      (none : Option ExampleSink)).events = [] :=
  have h := Do_negative_maxRetries
    ⟨ascii "https://api.h3.cloud", ascii "key1", ascii "secret", 0, -2⟩
    ⟨ascii "https://api.h3.cloud", ascii "key1", ascii "secret", 30000000000, -2⟩
    env503 exampleJSON (ascii "GET") (ascii "/api/vms/v1/vm1") [] none
    (none : Option ExampleSink) [] ⟨ascii "GET", ⟨ascii "/api/vms/v1/vm1", []⟩, ⟨[]⟩, []⟩
    rfl (by decide) rfl (by decide)
  ⟨rfl, by rw [h.2.1]; rfl, by rw [h.2.1]⟩

/-! ## The bound on the number of requests -/

/-- One pass of the loop body, with the way the pass ends tied to whether the outcome of
the attempt is retryable: a pass is followed by another one only after a retryable
outcome, and after any other outcome at most a call of `json.Unmarshal` follows. -/
theorem retryLoop_succ_shape {σ : Type} (c : Client) (env : Env)
    (U : GoString → σ → σ × Option GoError) (method url : GoString) (result : Option σ)
    (rem a : Nat) (req : Request) (lastErr : Option GoError) :
    ((c.retryLoop env U method url result (rem + 1) a req lastErr).events =
        [Event.cancelled a (backoff a)] ∧ a > 0) ∨
    ∃ tail, (c.retryLoop env U method url result (rem + 1) a req lastErr).events =
        attemptEvents a req ++ tail ∧
      (((env.roundTripAt a).retryable = false ∧ (tail = [] ∨ ∃ b, tail = [Event.unmarshal a b])) ∨
        ((env.roundTripAt a).retryable = true ∧
          ∃ l2, tail = (c.retryLoop env U method url result rem (a + 1) (drainBody env a req)
            l2).events)) := by
  cases hs : (if a > 0 then env.selectAt a else SelectCase.timer) with
  | done ctxErr =>
    left
    have ha : a > 0 := by
      by_contra h
      simp [h] at hs
    rw [Client.retryLoop, hs]
    exact ⟨rfl, ha⟩
  | timer =>
    right
    rw [Client.retryLoop, hs]
    cases hrt : env.roundTripAt a with
    | failed err => exact ⟨_, rfl, Or.inr ⟨rfl, _, rfl⟩⟩
    | readFailed err => exact ⟨_, rfl, Or.inr ⟨rfl, _, rfl⟩⟩
    | response statusCode respBody =>
      by_cases h5 : statusCode ≥ 500
      · simp only [h5, if_true]
        exact ⟨_, rfl, Or.inr ⟨by simp [RoundTrip.retryable, h5], _, rfl⟩⟩
      · have hnr : (RoundTrip.response statusCode respBody).retryable = false := by
          simp [RoundTrip.retryable, h5]
        by_cases h4 : statusCode ≥ 400
        · simp only [h5, h4, if_true, if_false]
          exact ⟨_, rfl, Or.inl ⟨hnr, Or.inl rfl⟩⟩
        · simp only [h5, h4, if_false]
          cases result with
          | none => exact ⟨_, rfl, Or.inl ⟨hnr, Or.inl rfl⟩⟩
          | some sink =>
            by_cases hb : respBody.length > 0
            · simp only [hb, if_true]
              rcases hu : U respBody sink with ⟨sink2, _ | err⟩
              · exact ⟨_, rfl, Or.inl ⟨hnr, Or.inr ⟨_, rfl⟩⟩⟩
              · exact ⟨_, rfl, Or.inl ⟨hnr, Or.inr ⟨_, rfl⟩⟩⟩
            · simp only [hb, if_false]
              exact ⟨_, rfl, Or.inl ⟨hnr, Or.inl rfl⟩⟩

/-- A request among the events of one pass is the request of that attempt. -/
theorem mem_attemptEvents_request (a k : Nat) (req r : Request)
    (h : Event.request k r ∈ attemptEvents a req) : k = a := by
  unfold attemptEvents at h
  by_cases ha : a > 0
  · simp [ha] at h
    exact h.1
  · simp [ha] at h
    exact h.1

/-- What the loop started at `attempt = a` with `rem` passes left does: at most `rem`
requests; as many completed waits as requests, but for the request of attempt 0, which
no wait precedes; and a request of attempt `k` only when all the attempts from `a` up to
`k` had a retryable outcome. -/
theorem retryLoop_counts {σ : Type} (c : Client) (env : Env)
    (U : GoString → σ → σ × Option GoError) (method url : GoString) (result : Option σ)
    (rem : Nat) : ∀ (a : Nat) (req : Request) (lastErr : Option GoError),
    countRequests (c.retryLoop env U method url result rem a req lastErr).events ≤ rem ∧
    countWaits (c.retryLoop env U method url result rem a req lastErr).events +
        (if a = 0 ∧ rem > 0 then 1 else 0) =
      countRequests (c.retryLoop env U method url result rem a req lastErr).events ∧
    (∀ k r, Event.request k r ∈ (c.retryLoop env U method url result rem a req lastErr).events →
      a ≤ k ∧ k < a + rem ∧ ∀ j, a ≤ j → j < k → (env.roundTripAt j).retryable = true) := by
  induction rem with
  | zero =>
    intro a req lastErr
    rw [retryLoop_zero]
    refine ⟨Nat.le_refl _, by simp [countWaits, countRequests], ?_⟩
    intro k r h
    simp at h
  | succ rem ih =>
    intro a req lastErr
    rcases retryLoop_succ_shape c env U method url result rem a req lastErr with
      ⟨hev, ha⟩ | ⟨tail, hev, htail⟩
    · rw [hev]
      refine ⟨by simp [countRequests, Event.isRequest], ?_, ?_⟩
      · have : ¬ (a = 0 ∧ rem + 1 > 0) := by omega
        rw [if_neg this]
        simp [countWaits, countRequests, Event.isRequest, Event.isWait]
      · intro k r h
        simp at h
    · rw [hev, countRequests_append, countWaits_append, countRequests_attemptEvents,
        countWaits_attemptEvents]
      rcases htail with ⟨hnr, ht⟩ | ⟨hr, l2, ht⟩
      · have hz : countRequests tail = 0 ∧ countWaits tail = 0 := by
          rcases ht with ht | ⟨b, ht⟩ <;> subst ht <;>
            simp [countRequests, countWaits, Event.isRequest, Event.isWait]
        have hmem : ∀ k r, Event.request k r ∈ attemptEvents a req ++ tail → k = a := by
          intro k r h
          rcases List.mem_append.1 h with h | h
          · exact mem_attemptEvents_request a k req r h
          · rcases ht with ht | ⟨b, ht⟩ <;> subst ht <;> simp at h
        refine ⟨by omega, ?_, ?_⟩
        · by_cases ha : a = 0
          · simp [ha, hz.1, hz.2]
          · have h1 : a > 0 := by omega
            simp [ha, h1, hz.1, hz.2]
        · intro k r h
          have hk := hmem k r h
          subst hk
          exact ⟨Nat.le_refl _, by omega, fun j h1 h2 => absurd h2 (by omega)⟩
      · obtain ⟨ih1, ih2, ih3⟩ := ih (a + 1) (drainBody env a req) l2
        rw [← ht] at ih1 ih2 ih3
        have hne : ¬ (a + 1 = 0 ∧ rem > 0) := by omega
        rw [if_neg hne] at ih2
        refine ⟨by omega, ?_, ?_⟩
        · by_cases ha : a = 0
          · simp [ha]
            omega
          · have h1 : a > 0 := by omega
            simp [ha, h1]
            omega
        · intro k r h
          rcases List.mem_append.1 h with h | h
          · have hk := mem_attemptEvents_request a k req r h
            subst hk
            exact ⟨Nat.le_refl _, by omega, fun j h1 h2 => absurd h2 (by omega)⟩
          · obtain ⟨h1, h2, h3⟩ := ih3 k r h
            refine ⟨by omega, by omega, ?_⟩
            intro j hj1 hj2
            by_cases hja : j = a
            · rw [hja]; exact hr
            · exact h3 j (by omega) hj2

set_option maxRecDepth 1000000 in
/-- C24 fails as stated: a client built by `NewClient` with `MaxRetries = -2` issues no
request, which is more than `maxRetries + 1 = -1`; and a call that fails before the loop,
here a call of the default client with a method that is not a token, issues no request
and completes no wait, so that the number of waits, 0, is not the number of requests
minus one. -/
theorem Do_zero_requests_examples :
    NewClient ⟨ascii "https://api.h3.cloud", ascii "key1", ascii "secret", 0, -2⟩ =
      Except.ok ⟨ascii "https://api.h3.cloud", ascii "key1", ascii "secret", 30000000000, -2⟩ ∧
    ¬ ((countRequests (Client.Do
        ⟨ascii "https://api.h3.cloud", ascii "key1", ascii "secret", 30000000000, -2⟩
        env503 exampleJSON (ascii "GET") (ascii "/api/vms/v1/vm1") [] none
        (none : Option ExampleSink)).events : Int) ≤
      (⟨ascii "https://api.h3.cloud", ascii "key1", ascii "secret", 30000000000, -2⟩ :
        Client).maxRetries + 1) ∧
    (exampleClient.Do env503 exampleJSON (ascii "GET /") (ascii "/api/vms/v1/vm1") [] none
      (none : Option ExampleSink)).events = [] ∧
    (countWaits (exampleClient.Do env503 exampleJSON (ascii "GET /") (ascii "/api/vms/v1/vm1")
      [] none (none : Option ExampleSink)).events : Int) ≠
      (countRequests (exampleClient.Do env503 exampleJSON (ascii "GET /")
        (ascii "/api/vms/v1/vm1") [] none (none : Option ExampleSink)).events : Int) - 1 :=
  ⟨rfl, by decide, by decide, by decide⟩

/-- C24 as amended. Every call of `Client.Do` returns with at most `maxRetries + 1`
requests issued when `maxRetries ≥ 0` and none when `maxRetries` is negative; a request
of attempt `k` is issued only when every earlier attempt had a retryable outcome, so the
call stops at the first attempt whose outcome is not retryable; and when at least one
request was issued the number of completed backoff waits is the number of requests minus
one, while a call that issues no request completes no wait. -/
theorem Do_bounded_amplification {β σ : Type} (c : Client) (env : Env) (json : JSON β σ)
    (method path : GoString) (queryParams : List (GoString × GoString)) (body : Option β)
    (result : Option σ) :
    countRequests (c.Do env json method path queryParams body result).events ≤
      (c.maxRetries + 1).toNat ∧
    (0 ≤ c.maxRetries →
      (countRequests (c.Do env json method path queryParams body result).events : Int) ≤
        c.maxRetries + 1) ∧
    (c.maxRetries < 0 →
      countRequests (c.Do env json method path queryParams body result).events = 0) ∧
    (∀ k r, Event.request k r ∈ (c.Do env json method path queryParams body result).events →
      ∀ j, j < k → (env.roundTripAt j).retryable = true) ∧
    (∀ k r, Event.request k r ∈ (c.Do env json method path queryParams body result).events →
      (env.roundTripAt k).retryable = false →
      ∀ k2 r2, Event.request k2 r2 ∈
        (c.Do env json method path queryParams body result).events → k2 ≤ k) ∧
    (1 ≤ countRequests (c.Do env json method path queryParams body result).events →
      countWaits (c.Do env json method path queryParams body result).events + 1 =
        countRequests (c.Do env json method path queryParams body result).events) ∧
    (countRequests (c.Do env json method path queryParams body result).events = 0 →
      countWaits (c.Do env json method path queryParams body result).events = 0) := by
  have key : countRequests (c.Do env json method path queryParams body result).events ≤
        (c.maxRetries + 1).toNat ∧
      (∀ k r, Event.request k r ∈ (c.Do env json method path queryParams body result).events →
        ∀ j, j < k → (env.roundTripAt j).retryable = true) ∧
      (1 ≤ countRequests (c.Do env json method path queryParams body result).events →
        countWaits (c.Do env json method path queryParams body result).events + 1 =
          countRequests (c.Do env json method path queryParams body result).events) ∧
      (countRequests (c.Do env json method path queryParams body result).events = 0 →
        countWaits (c.Do env json method path queryParams body result).events = 0) := by
    unfold Client.Do
    cases marshalBody json body with
    | error err =>
      refine ⟨Nat.zero_le _, ?_, ?_, fun _ => rfl⟩
      · intro k r h
        simp at h
      · intro h
        simp [countRequests] at h
    | ok bodyBytes =>
      dsimp only
      cases c.DoRequest method path queryParams bodyBytes with
      | none =>
        refine ⟨Nat.zero_le _, ?_, ?_, fun _ => rfl⟩
        · intro k r h
          simp at h
        · intro h
          simp [countRequests] at h
      | some req =>
        dsimp only
        obtain ⟨h1, h2, h3⟩ := retryLoop_counts c env json.Unmarshal method
          (c.DoURL path queryParams) result (c.maxRetries + 1).toNat 0
          (c.signRequest req bodyBytes env.date) none
        refine ⟨h1, fun k r h j hj => (h3 k r h).2.2 j (Nat.zero_le _) hj, ?_, ?_⟩
        · intro hpos
          by_cases hrem : (c.maxRetries + 1).toNat > 0
          · simpa [hrem] using h2
          · omega
        · intro hz
          by_cases hrem : (c.maxRetries + 1).toNat > 0
          · simp [hrem] at h2
            omega
          · simp [hrem] at h2
            omega
  obtain ⟨k1, k2, k3, k4⟩ := key
  refine ⟨k1, fun h => by omega, fun h => by omega, k2, ?_, k3, k4⟩
  intro k r _ hnr kk r2 h2
  by_contra hlt
  have := k2 kk r2 h2 k (by omega)
  rw [this] at hnr
  cases hnr

set_option maxRecDepth 1000000 in
/-- Witness for C24 as amended: against a transport that answers 503, 503 and then 404,
the default client issues 3 requests and completes 2 waits. -/
theorem Do_bounded_amplification_witness :
    countRequests (exampleClient.Do
      (scriptEnv [RoundTrip.response 503 [], RoundTrip.response 503 [],
        RoundTrip.response 404 []] [] [])
      exampleJSON (ascii "GET") (ascii "/api/vms/v1/vm1") [] none
      (none : Option ExampleSink)).events = 3 ∧
    countWaits (exampleClient.Do
      (scriptEnv [RoundTrip.response 503 [], RoundTrip.response 503 [],
        RoundTrip.response 404 []] [] [])
      exampleJSON (ascii "GET") (ascii "/api/vms/v1/vm1") [] none
      (none : Option ExampleSink)).events + 1 = 3 :=
  have h3 : countRequests (exampleClient.Do
      (scriptEnv [RoundTrip.response 503 [], RoundTrip.response 503 [],
        RoundTrip.response 404 []] [] [])
      exampleJSON (ascii "GET") (ascii "/api/vms/v1/vm1") [] none
      (none : Option ExampleSink)).events = 3 := by decide
  ⟨h3, ((Do_bounded_amplification exampleClient
      (scriptEnv [RoundTrip.response 503 [], RoundTrip.response 503 [],
        RoundTrip.response 404 []] [] [])
      exampleJSON (ascii "GET") (ascii "/api/vms/v1/vm1") [] none
      (none : Option ExampleSink)).2.2.2.2.2.1 (by rw [h3]; decide)).trans h3⟩

/-! ## The total time spent in backoff waits -/

theorem totalWait_append (e₁ e₂ : List Event) :
    totalWait (e₁ ++ e₂) = totalWait e₁ + totalWait e₂ := by
  induction e₁ with
  | nil => simp [totalWait]
  | cons e rest ih => simp [totalWait, ih, add_assoc]

theorem totalWait_attemptEvents (a : Nat) (req : Request) :
    totalWait (attemptEvents a req) = if a > 0 then max (backoff a) 0 else 0 := by
  by_cases h : a > 0 <;> simp [attemptEvents, totalWait, Event.waited, h]

/-- The time spent waiting during `m` passes that each wait out the timer. -/
theorem totalWait_retryEvents (env : Env) (m : Nat) :
    ∀ (a : Nat) (req : Request), totalWait (retryEvents env m a req) = sumBackoff m a := by
  induction m with
  | zero => intro a req; rfl
  | succ m ih =>
    intro a req
    rw [retryEvents, totalWait_append, totalWait_attemptEvents, ih, sumBackoff]

set_option maxRecDepth 1000000 in
/-- The waits before the attempts 1 to `n` add up to `2^n - 1` seconds as long as
`n ≤ 34`. -/
theorem sumBackoff_upto_34 (n : Nat) (h34 : n ≤ 34) :
    sumBackoff (n + 1) 0 = (2 ^ n - 1) * timeSecond := by
  interval_cases n <;> decide

set_option maxRecDepth 1000000 in
/-- C25 fails as stated: with `maxRetries = 35` and a transport that always answers 503
the waits before the attempts 1 to 34 take 2^34 - 1 seconds together and the wait before
attempt 35, whose duration has wrapped to a negative `int64`, takes no time, so the total
is 2^34 - 1 seconds and not 2^35 - 1 seconds. -/
theorem total_backoff_wrong_at_35 :
    exampleClient35.maxRetries = 35 ∧
    totalWait (exampleClient35.Do env503 exampleJSON (ascii "GET") (ascii "/api/vms/v1/vm1") []
      none (none : Option ExampleSink)).events = (2 ^ 34 - 1) * timeSecond ∧
    totalWait (exampleClient35.Do env503 exampleJSON (ascii "GET") (ascii "/api/vms/v1/vm1") []
      none (none : Option ExampleSink)).events ≠ (2 ^ 35 - 1) * timeSecond := by
  decide

/-- C25 as amended. For `maxRetries = n` with `0 ≤ n ≤ 34`, when all `n + 1` attempts of
a call of `Client.Do` are retryable and no wait is cancelled, the time spent in backoff
waits is `2^n - 1` seconds in all, the sum of `2^(k-1)` seconds for `k` from 1 to `n`. -/
theorem Do_total_backoff_upto_34 {β σ : Type} (c : Client) (env : Env) (json : JSON β σ)
    (method path : GoString) (queryParams : List (GoString × GoString)) (body : Option β)
    (result : Option σ) (bodyBytes : GoString) (req : Request) (n : Nat)
    (hn : c.maxRetries = n) (h34 : n ≤ 34)
    (hbody : marshalBody json body = Except.ok bodyBytes)
    (hreq : c.DoRequest method path queryParams bodyBytes = some req)
    (hreach : env.reaches n) (hlast : (env.roundTripAt n).retryable = true) :
    totalWait (c.Do env json method path queryParams body result).events =
      (2 ^ n - 1) * timeSecond ∧
    totalWait (c.Do env json method path queryParams body result).events =
      ∑ k ∈ Finset.Icc 1 n, 2 ^ (k - 1) * timeSecond := by
  have h1 : totalWait (c.Do env json method path queryParams body result).events =
      (2 ^ n - 1) * timeSecond := by
    rw [Do_exhausted c env json method path queryParams body result bodyBytes req n hn hbody
      hreq hreach hlast]
    show totalWait (retryEvents env (n + 1) 0 (c.signRequest req bodyBytes env.date)) = _
    rw [totalWait_retryEvents, sumBackoff_upto_34 n h34]
  refine ⟨h1, ?_⟩
  rw [h1, ← Finset.sum_mul]
  congr 1
  clear h1 hn hreach hlast
  induction n with
  | zero => simp
  | succ m ih =>
    rw [Finset.sum_Icc_succ_top (by omega), ← ih (by omega)]
    simp only [Nat.add_sub_cancel]
    ring

set_option maxRecDepth 1000000 in
/-- Witness for C25 as amended: the default `maxRetries = 3` gives 7 seconds. -/
theorem Do_total_backoff_upto_34_witness :
    totalWait (exampleClient.Do env503 exampleJSON (ascii "GET") (ascii "/api/vms/v1/vm1") []
      none (none : Option ExampleSink)).events = 7 * timeSecond :=
  (Do_total_backoff_upto_34 exampleClient env503 exampleJSON (ascii "GET")
    (ascii "/api/vms/v1/vm1") [] none (none : Option ExampleSink) []
    ⟨ascii "GET", ⟨ascii "/api/vms/v1/vm1", []⟩, ⟨[]⟩, []⟩ 3 rfl (by decide) rfl (by decide)
    (by decide) (by decide)).1

/-! ## Signatures that are not lowercase hex -/

theorem hmacSha256_length (key msg : GoString) : (hmacSha256 key msg).length = 32 := by
  unfold hmacSha256
  exact sha256_length _

/-- C29. `VerifyHMAC` returns false for every signature that is not 64 characters long
or holds a character outside `0123456789abcdef`, whatever the secret key and the
canonical string; the empty signature is rejected, and so is the upper-case rendering of
the correct digest whenever it differs from the lower-case one, which itself is
accepted. -/
theorem VerifyHMAC_rejects_non_lower_hex (secretKey canonical signature : GoString) :
    ((signature.length ≠ 64 ∨ ∃ ch ∈ signature, ch ∉ ascii "0123456789abcdef") →
      VerifyHMAC secretKey canonical signature = false) ∧
    VerifyHMAC secretKey canonical [] = false ∧
    (upperHex (hexEncode (hmacSha256 secretKey canonical)) ≠
        hexEncode (hmacSha256 secretKey canonical) →
      VerifyHMAC secretKey canonical (upperHex (hexEncode (hmacSha256 secretKey canonical))) =
        false) ∧
    VerifyHMAC secretKey canonical (hexEncode (hmacSha256 secretKey canonical)) = true := by
  have hlen : (hexEncode (hmacSha256 secretKey canonical)).length = 64 := by
    rw [hexEncode_length, hmacSha256_length]
  have hfalse : ∀ s : GoString, s ≠ hexEncode (hmacSha256 secretKey canonical) →
      VerifyHMAC secretKey canonical s = false := by
    intro s hs
    cases hv : VerifyHMAC secretKey canonical s with
    | false => rfl
    | true => exact absurd ((VerifyHMAC_eq_true_iff _ _ _).1 hv) hs
  refine ⟨?_, ?_, fun h => hfalse _ h, (VerifyHMAC_eq_true_iff _ _ _).2 rfl⟩
  · rintro (h | ⟨ch, hch, hout⟩)
    · apply hfalse
      intro heq
      rw [heq] at h
      exact h hlen
    · apply hfalse
      intro heq
      rw [heq] at hch
      exact hout (hexEncode_lower _ ch hch)
  · apply hfalse
    intro heq
    rw [← heq] at hlen
    simp at hlen

set_option maxRecDepth 1000000 in
/-- Witness for C29: the upper-case rendering of the RFC 4231 digest is rejected. -/
theorem VerifyHMAC_rejects_non_lower_hex_witness :
    hexEncode (hmacSha256 (ascii "Jefe") (ascii "what do ya want for nothing?")) =
      ascii "5bdcc146bf60754e6a042426089575c75a003f089d2739839dec58b964ec3843" ∧
    VerifyHMAC (ascii "Jefe") (ascii "what do ya want for nothing?")
      (ascii "5BDCC146BF60754E6A042426089575C75A003F089D2739839DEC58B964EC3843") = false :=
  ⟨by decide,
    (VerifyHMAC_rejects_non_lower_hex (ascii "Jefe") (ascii "what do ya want for nothing?")
      (ascii "5BDCC146BF60754E6A042426089575C75A003F089D2739839DEC58B964EC3843")).1
      (Or.inr ⟨66, by decide, by decide⟩)⟩

/-! ## Injectivity of the canonical string -/

/-- Two texts that agree and are each cut at a separator their first part does not
contain have the same first part and the same remainder. -/
theorem eq_of_append_sep {α : Type} (x : α) :
    ∀ (a a2 rest rest2 : List α), x ∉ a → x ∉ a2 → a ++ x :: rest = a2 ++ x :: rest2 →
      a = a2 ∧ rest = rest2 := by
  intro a
  induction a with
  | nil =>
    intro a2 rest rest2 _ h2 heq
    cases a2 with
    | nil => simpa using heq
    | cons y ys =>
      simp only [List.nil_append, List.cons_append, List.cons.injEq] at heq
      exact absurd (heq.1 ▸ List.mem_cons_self _ _) h2
  | cons b bs ih =>
    intro a2 rest rest2 h1 h2 heq
    cases a2 with
    | nil =>
      simp only [List.nil_append, List.cons_append, List.cons.injEq] at heq
      exact absurd (heq.1 ▸ List.mem_cons_self _ _) h1
    | cons y ys =>
      simp only [List.cons_append, List.cons.injEq] at heq
      obtain ⟨hby, hrest⟩ := heq
      obtain ⟨h3, h4⟩ := ih ys rest rest2 (fun h => h1 (List.mem_cons_of_mem _ h))
        (fun h => h2 (List.mem_cons_of_mem _ h)) hrest
      exact ⟨by rw [hby, h3], h4⟩

/-- The five-field layout is injective on fields without the separator. -/
theorem layout_injective {α : Type} (x : α) (m m2 p p2 q q2 dp d d2 kp k k2 h h2 : List α)
    (hm : x ∉ m) (hm2 : x ∉ m2) (hp : x ∉ p) (hp2 : x ∉ p2) (hq : x ∉ q) (hq2 : x ∉ q2)
    (hdp : x ∉ dp) (hd : x ∉ d) (hd2 : x ∉ d2) (hkp : x ∉ kp) (hk : x ∉ k) (hk2 : x ∉ k2)
    (heq : m ++ [x] ++ p ++ [x] ++ q ++ [x] ++ (dp ++ d ++ [x] ++ (kp ++ k)) ++ [x] ++ h =
      m2 ++ [x] ++ p2 ++ [x] ++ q2 ++ [x] ++ (dp ++ d2 ++ [x] ++ (kp ++ k2)) ++ [x] ++ h2) :
    m = m2 ∧ p = p2 ∧ q = q2 ∧ d = d2 ∧ k = k2 ∧ h = h2 := by
  have e : ∀ (m p q d k h : List α),
      m ++ [x] ++ p ++ [x] ++ q ++ [x] ++ (dp ++ d ++ [x] ++ (kp ++ k)) ++ [x] ++ h =
        m ++ x :: (p ++ x :: (q ++ x :: ((dp ++ d) ++ x :: ((kp ++ k) ++ x :: h)))) := by
    intro m p q d k h
    simp [List.append_assoc]
  have hcat : ∀ (a b : List α), x ∉ a → x ∉ b → x ∉ a ++ b := by
    intro a b ha hb hmem
    rcases List.mem_append.1 hmem with hmem | hmem
    · exact ha hmem
    · exact hb hmem
  rw [e, e] at heq
  obtain ⟨e1, heq⟩ := eq_of_append_sep x _ _ _ _ hm hm2 heq
  obtain ⟨e2, heq⟩ := eq_of_append_sep x _ _ _ _ hp hp2 heq
  obtain ⟨e3, heq⟩ := eq_of_append_sep x _ _ _ _ hq hq2 heq
  obtain ⟨e4, heq⟩ := eq_of_append_sep x _ _ _ _ (hcat _ _ hdp hd) (hcat _ _ hdp hd2) heq
  obtain ⟨e5, heq⟩ := eq_of_append_sep x _ _ _ _ (hcat _ _ hkp hk) (hcat _ _ hkp hk2) heq
  exact ⟨e1, e2, e3, List.append_cancel_left e4, List.append_cancel_left e5, heq⟩

set_option maxRecDepth 1000000 in
/-- C27. When method, path, canonical query, `X-H3-Date` value and `X-H3-Key-Id` value of
two requests hold no newline, equal results of `BuildCanonicalRequest` mean equal method,
path, canonical query, date, key id and body digest. Without that hypothesis the
requests with method `A\nB` and path `C` and with method `A` and path `B\nC` have the
same canonical string. -/
theorem BuildCanonicalRequest_injective (r r2 : Request) (body body2 : GoString)
    (hm : (10 : UInt8) ∉ r.Method) (hm2 : (10 : UInt8) ∉ r2.Method)
    (hp : (10 : UInt8) ∉ r.URL.Path) (hp2 : (10 : UInt8) ∉ r2.URL.Path)
    (hq : (10 : UInt8) ∉ canonicalQueryOf r.URL.Query)
    (hq2 : (10 : UInt8) ∉ canonicalQueryOf r2.URL.Query)
    (hd : (10 : UInt8) ∉ r.Header.Get (ascii "X-H3-Date"))
    (hd2 : (10 : UInt8) ∉ r2.Header.Get (ascii "X-H3-Date"))
    (hk : (10 : UInt8) ∉ r.Header.Get (ascii "X-H3-Key-Id"))
    (hk2 : (10 : UInt8) ∉ r2.Header.Get (ascii "X-H3-Key-Id"))
    (heq : BuildCanonicalRequest r body = BuildCanonicalRequest r2 body2) :
    (r.Method = r2.Method ∧ r.URL.Path = r2.URL.Path ∧
      canonicalQueryOf r.URL.Query = canonicalQueryOf r2.URL.Query ∧
      r.Header.Get (ascii "X-H3-Date") = r2.Header.Get (ascii "X-H3-Date") ∧
      r.Header.Get (ascii "X-H3-Key-Id") = r2.Header.Get (ascii "X-H3-Key-Id") ∧
      hexEncode (sha256 body) = hexEncode (sha256 body2) ∧ sha256 body = sha256 body2) ∧
    ((⟨[65, 10, 66], ⟨[67], []⟩, ⟨[]⟩, []⟩ : Request).Method ≠
        (⟨[65], ⟨[66, 10, 67], []⟩, ⟨[]⟩, []⟩ : Request).Method ∧
      BuildCanonicalRequest ⟨[65, 10, 66], ⟨[67], []⟩, ⟨[]⟩, []⟩ [] =
        BuildCanonicalRequest ⟨[65], ⟨[66, 10, 67], []⟩, ⟨[]⟩, []⟩ []) := by
  refine ⟨?_, by decide, by decide⟩
  unfold BuildCanonicalRequest at heq
  rw [BuildCanonicalRequestRange_eq, BuildCanonicalRequestRange_eq] at heq
  generalize hH : hexEncode (sha256 body) = hh at heq ⊢
  generalize hH2 : hexEncode (sha256 body2) = hh2 at heq ⊢
  have key := layout_injective (10 : UInt8) r.Method r2.Method r.URL.Path r2.URL.Path
    (canonicalQueryOf r.URL.Query) (canonicalQueryOf r2.URL.Query) (ascii "x-h3-date:")
    (r.Header.Get (ascii "X-H3-Date")) (r2.Header.Get (ascii "X-H3-Date"))
    (ascii "x-h3-key-id:") (r.Header.Get (ascii "X-H3-Key-Id"))
    (r2.Header.Get (ascii "X-H3-Key-Id")) hh hh2 hm hm2 hp hp2 hq hq2 (by decide) hd hd2
    (by decide) hk hk2 heq
  obtain ⟨k1, k2, k3, k4, k5, k6⟩ := key
  refine ⟨k1, k2, k3, k4, k5, k6, ?_⟩
  rw [← hH, ← hH2] at k6
  exact hexEncode_injective _ _ k6

set_option maxRecDepth 1000000 in
/-- Witness for C27: two requests without newlines that differ in nothing but the body
bytes and the unsigned headers. -/
theorem BuildCanonicalRequest_injective_witness :
    (exampleRequest (ascii "a=1") (ascii "key1") []).Method =
      (exampleRequest (ascii "a=1") (ascii "key1") [(ascii "Accept", [ascii "x"])]).Method ∧
    sha256 ([] : GoString) = sha256 [] :=
  have h := BuildCanonicalRequest_injective
    (exampleRequest (ascii "a=1") (ascii "key1") [])
    (exampleRequest (ascii "a=1") (ascii "key1") [(ascii "Accept", [ascii "x"])]) [] []
    (by decide) (by decide) (by decide) (by decide) (by decide) (by decide) (by decide)
    (by decide) (by decide) (by decide) (by decide)
  ⟨h.1.1, h.1.2.2.2.2.2.2⟩

/-! ## Lemmas: cutting and splitting -/

theorem Cut_append_of_not_mem (c : UInt8) (pre s : GoString) (h : c ∉ pre) :
    Cut c (pre ++ s) = (pre ++ (Cut c s).1, (Cut c s).2.1, (Cut c s).2.2) := by
  induction pre with
  | nil => rfl
  | cons x rest ih =>
    have hx : x ≠ c := fun e => h (e ▸ List.mem_cons_self _ _)
    have ih2 := ih (fun hm => h (List.mem_cons_of_mem _ hm))
    simp only [List.cons_append, Cut, hx, if_false, List.append_eq, ih2]

theorem Cut_of_not_mem (c : UInt8) (s : GoString) (h : c ∉ s) : Cut c s = (s, [], false) := by
  have := Cut_append_of_not_mem c s [] h
  simpa [Cut] using this

theorem Cut_append_sep (c : UInt8) (pre t : GoString) (h : c ∉ pre) :
    Cut c (pre ++ c :: t) = (pre, t, true) := by
  rw [Cut_append_of_not_mem c pre _ h]
  simp [Cut]

theorem Cut_append_of_mem (c : UInt8) (a t : GoString) (h : c ∈ a) :
    (Cut c (a ++ t)).1 = (Cut c a).1 := by
  induction a with
  | nil => simp at h
  | cons x rest ih =>
    by_cases hx : x = c
    · simp [Cut, hx]
    · have hr : c ∈ rest := by
        rcases List.mem_cons.1 h with h | h
        · exact absurd h.symm hx
        · exact h
      simp only [List.cons_append, Cut, hx, if_false, List.append_eq, ih hr]

/-- A text that ends with its only separator has nothing after it. -/
theorem Cut_snd_of_last (c : UInt8) (s : GoString) (hlast : s.getLast? = some c)
    (hcount : s.count c = 1) : (Cut c s).2.1 = [] := by
  induction s with
  | nil => simp at hlast
  | cons x rest ih =>
    by_cases hx : x = c
    · subst hx
      simp only [Cut, if_true]
      cases rest with
      | nil => rfl
      | cons y ys =>
        have h0 : (y :: ys).count x = 0 := by
          simpa [List.count_cons] using hcount
        have hmem : x ∈ y :: ys := by
          have : (y :: ys).getLast? = some x := by simpa [List.getLast?_cons_cons] using hlast
          exact List.mem_of_getLast?_eq_some this
        exact absurd (List.count_pos_iff.2 hmem) (by omega)
    · simp only [Cut, hx, if_false]
      cases rest with
      | nil =>
        simp at hlast
        exact absurd hlast hx
      | cons y ys =>
        apply ih
        · simpa [List.getLast?_cons_cons] using hlast
        · have hxc : (x == c) = false := by simpa using hx
          simpa [List.count_cons, hxc] using hcount

/-- The second result of the query split is what follows the first `?`. -/
theorem splitQuery_snd (rest0 : GoString) : (splitQuery rest0).2 = (Cut 63 rest0).2.1 := by
  unfold splitQuery
  by_cases h : rest0.getLast? = some 63 ∧ rest0.count 63 = 1
  · rw [if_pos h]
    exact (Cut_snd_of_last 63 rest0 h.1 h.2).symm
  · rw [if_neg h]

/-- What `getScheme` leaves as the rest is the whole text or what follows a `:` that no
`?` precedes. -/
theorem getSchemeFrom_rest (rawURL : GoString) : ∀ (s : GoString) (i : Nat)
    (scheme rest0 : GoString), getSchemeFrom rawURL s i = some (scheme, rest0) →
    rest0 = rawURL ∨ ∃ pre, s = pre ++ 58 :: rest0 ∧ (63 : UInt8) ∉ pre := by
  intro s
  induction s with
  | nil =>
    intro i scheme rest0 h
    simp only [getSchemeFrom, Option.some.injEq, Prod.mk.injEq] at h
    exact Or.inl h.2.symm
  | cons c cs ih =>
    intro i scheme rest0 h
    have step : ∀ (hc : c ≠ 63), getSchemeFrom rawURL cs (i + 1) = some (scheme, rest0) →
        rest0 = rawURL ∨ ∃ pre, c :: cs = pre ++ 58 :: rest0 ∧ (63 : UInt8) ∉ pre := by
      intro hc h2
      rcases ih (i + 1) scheme rest0 h2 with h3 | ⟨pre, h3, h4⟩
      · exact Or.inl h3
      · refine Or.inr ⟨c :: pre, by rw [h3]; rfl, ?_⟩
        intro hm
        rcases List.mem_cons.1 hm with hm | hm
        · exact hc hm.symm
        · exact h4 hm
    unfold getSchemeFrom at h
    by_cases h1 : isAlpha c = true
    · rw [if_pos h1] at h
      exact step (by intro e; subst e; exact absurd h1 (by decide)) h
    · rw [if_neg h1] at h
      by_cases h2 : (isDigit c || c = 43 || c = 45 || c = 46) = true
      · rw [if_pos h2] at h
        by_cases h0 : i = 0
        · rw [if_pos h0] at h
          simp only [Option.some.injEq, Prod.mk.injEq] at h
          exact Or.inl h.2.symm
        · rw [if_neg h0] at h
          exact step (by intro e; subst e; exact absurd h2 (by decide)) h
      · rw [if_neg h2] at h
        by_cases h58 : c = 58
        · rw [if_pos h58] at h
          by_cases h0 : i = 0
          · rw [if_pos h0] at h
            cases h
          · rw [if_neg h0] at h
            simp only [Option.some.injEq, Prod.mk.injEq] at h
            exact Or.inr ⟨[], by rw [h58, h.2]; rfl, by simp⟩
        · rw [if_neg h58] at h
          simp only [Option.some.injEq, Prod.mk.injEq] at h
          exact Or.inl h.2.symm

theorem getScheme_cut (s scheme rest0 : GoString) (h : getScheme s = some (scheme, rest0)) :
    (Cut 63 rest0).2.1 = (Cut 63 s).2.1 := by
  rcases getSchemeFrom_rest s s 0 scheme rest0 h with h1 | ⟨pre, h1, h2⟩
  · rw [h1]
  · rw [h1, Cut_append_of_not_mem 63 pre _ h2]
    simp [Cut]

/-- The raw query `url.parse` stores is what follows the first `?` of its input. -/
theorem urlParseNoFragment_RawQuery (s : GoString) (u : URL)
    (h : urlParseNoFragment s = some u) : u.RawQuery = (Cut 63 s).2.1 := by
  unfold urlParseNoFragment at h
  by_cases hctl : containsCTL s = true
  · rw [if_pos hctl] at h
    cases h
  · rw [if_neg hctl] at h
    by_cases hstar : s = [42]
    · rw [if_pos hstar] at h
      simp only [Option.some.injEq] at h
      rw [← h, hstar]
      rfl
    · rw [if_neg hstar] at h
      cases hg : getScheme s with
      | none =>
        rw [hg] at h
        cases h
      | some sr =>
        obtain ⟨scheme, rest0⟩ := sr
        rw [hg] at h
        have hq : (splitQuery rest0).2 = (Cut 63 s).2.1 := by
          rw [splitQuery_snd, getScheme_cut s scheme rest0 hg]
        dsimp only at h
        by_cases ha : (splitQuery rest0).1.head? ≠ some 47 ∧ scheme ≠ []
        · rw [if_pos ha] at h
          simp only [Option.some.injEq] at h
          rw [← h]
          exact hq
        · rw [if_neg ha] at h
          by_cases hb : (splitQuery rest0).1.head? ≠ some 47 ∧
              (Cut 47 (splitQuery rest0).1).1.contains 58 = true
          · rw [if_pos hb] at h
            cases h
          · rw [if_neg hb] at h
            cases hp : unescape false (pathAfterAuthority scheme (splitQuery rest0).1) with
            | none =>
              rw [hp] at h
              cases h
            | some p =>
              rw [hp] at h
              simp only [Option.some.injEq] at h
              rw [← h]
              exact hq

/-- The raw query `url.Parse` stores is what follows the first `?` of its input up to
the first hash sign. -/
theorem urlParse_RawQuery (s : GoString) (u : URL) (h : urlParse s = some u) :
    u.RawQuery = (Cut 63 (Cut 35 s).1).2.1 := by
  unfold urlParse at h
  cases hn : urlParseNoFragment (Cut 35 s).1 with
  | none =>
    rw [hn] at h
    cases h
  | some u2 =>
    rw [hn] at h
    have hu : u = u2 := by
      dsimp only at h
      by_cases h1 : (Cut 35 s).2.1 = []
      · rw [if_pos h1] at h
        exact (Option.some.inj h).symm
      · rw [if_neg h1] at h
        by_cases h2 : (unescape false (Cut 35 s).2.1).isSome = true
        · rw [if_pos h2] at h
          exact (Option.some.inj h).symm
        · rw [if_neg h2] at h
          cases h
    rw [hu]
    exact urlParseNoFragment_RawQuery _ u2 hn

/-- The request `http.NewRequestWithContext` returns holds the parsed URL. -/
theorem NewRequestWithContext_url (method url body : GoString) (req : Request)
    (h : NewRequestWithContext method url body = some req) :
    urlParse url = some req.URL ∧
      req.Method = (if method = [] then ascii "GET" else method) ∧ req.Header = ⟨[]⟩ := by
  unfold NewRequestWithContext at h
  by_cases hv : validMethod (if method = [] then ascii "GET" else method) = true
  · rw [if_pos hv] at h
    cases hu : urlParse url with
    | none =>
      rw [hu] at h
      cases h
    | some u =>
      rw [hu] at h
      simp only [Option.some.injEq] at h
      rw [← h]
      exact ⟨rfl, rfl, rfl⟩
  · rw [if_neg hv] at h
    cases h

/-- Splitting a join gives back the joined strings when none of them holds the
separator. -/
theorem Split_Join (c : UInt8) : ∀ (l : List GoString), l ≠ [] → (∀ s ∈ l, c ∉ s) →
    Split c (Join l [c]) = l := by
  have single : ∀ (s : GoString), c ∉ s → Split c s = [s] := by
    intro s
    induction s with
    | nil => intro _; rfl
    | cons x rest ih =>
      intro h
      have hx : x ≠ c := fun e => h (e ▸ List.mem_cons_self _ _)
      have ih2 := ih (fun hm => h (List.mem_cons_of_mem _ hm))
      simp only [Split, hx, if_false, ih2]
  have app : ∀ (s t : GoString), c ∉ s → Split c (s ++ c :: t) = s :: Split c t := by
    intro s t
    induction s with
    | nil => intro _; simp [Split]
    | cons x rest ih =>
      intro h
      have hx : x ≠ c := fun e => h (e ▸ List.mem_cons_self _ _)
      have ih2 := ih (fun hm => h (List.mem_cons_of_mem _ hm))
      simp only [List.cons_append, Split, hx, if_false, List.append_eq, ih2]
  intro l
  induction l with
  | nil => intro h; exact absurd rfl h
  | cons a rest ih =>
    intro _ hall
    cases rest with
    | nil => exact single a (hall a (List.mem_cons_self _ _))
    | cons b rest2 =>
      have ih2 := ih (by simp) (fun s hs => hall s (List.mem_cons_of_mem _ hs))
      show Split c (a ++ [c] ++ Join (b :: rest2) [c]) = _
      rw [List.append_assoc, List.singleton_append, app a _ (hall a (List.mem_cons_self _ _)), ih2]

/-! ## Agreement of signer and verifier on unreserved parameters -/

/-- An unreserved character is none of the characters the URL and query syntax reads. -/
theorem isUnreserved_ne (b : UInt8) (h : isUnreserved b = true) :
    b ≠ 35 ∧ b ≠ 37 ∧ b ≠ 38 ∧ b ≠ 43 ∧ b ≠ 59 ∧ b ≠ 61 ∧ b ≠ 63 := by
  refine ⟨?_, ?_, ?_, ?_, ?_, ?_, ?_⟩ <;>
    · intro e
      subst e
      exact absurd h (by decide)

theorem filterMap_of_some {α : Type} (f : α → Option α) (l : List α)
    (h : ∀ s ∈ l, f s = some s) : l.filterMap f = l := by
  induction l with
  | nil => rfl
  | cons a rest ih =>
    rw [List.filterMap_cons, h a (List.mem_cons_self _ _),
      ih (fun s hs => h s (List.mem_cons_of_mem _ hs))]

/-- A byte of a join comes from the separator or from one of the joined strings. -/
theorem mem_Join (b : UInt8) (sep : GoString) : ∀ (l : List GoString), b ∈ Join l sep →
    b ∈ sep ∨ ∃ s ∈ l, b ∈ s := by
  intro l
  induction l with
  | nil => intro h; simp [Join] at h
  | cons a rest ih =>
    intro h
    cases rest with
    | nil => exact Or.inr ⟨a, List.mem_cons_self _ _, by simpa [Join] using h⟩
    | cons a2 rest2 =>
      simp only [Join, List.mem_append] at h
      rcases h with (h | h) | h
      · exact Or.inr ⟨a, List.mem_cons_self _ _, h⟩
      · exact Or.inl h
      · rcases ih h with h | ⟨s, hs, hb⟩
        · exact Or.inl h
        · exact Or.inr ⟨s, List.mem_cons_of_mem _ hs, hb⟩

/-- The parts `k=v` of unreserved keys and values: what their bytes are, and that
`url.ParseQuery` reads each of them back as it is written. -/
theorem part_of_unreserved (queryParams : List (GoString × GoString))
    (hun : ∀ kv ∈ queryParams,
      (∀ b ∈ kv.1, isUnreserved b = true) ∧ (∀ b ∈ kv.2, isUnreserved b = true))
    (s : GoString) (hs : s ∈ queryPartsOfParams queryParams) :
    (∀ b ∈ s, b = 61 ∨ isUnreserved b = true) ∧ decodedPart s = some s := by
  unfold queryPartsOfParams at hs
  obtain ⟨kv, hkv, rfl⟩ := List.mem_map.1 hs
  obtain ⟨hk, hv⟩ := hun kv hkv
  have hbytes : ∀ b ∈ kv.1 ++ ascii "=" ++ kv.2, b = 61 ∨ isUnreserved b = true := by
    intro b hb
    rcases List.mem_append.1 hb with hb | hb
    · rcases List.mem_append.1 hb with hb | hb
      · exact Or.inr (hk b hb)
      · left
        simpa [ascii] using hb
    · exact Or.inr (hv b hb)
  refine ⟨hbytes, ?_⟩
  have hne : kv.1 ++ ascii "=" ++ kv.2 ≠ [] := by
    intro h
    have := congrArg List.length h
    simp [ascii] at this
  have hplain : ∀ b ∈ kv.1 ++ ascii "=" ++ kv.2, b ≠ 37 ∧ b ≠ 43 ∧ b ≠ 59 := by
    intro b hb
    rcases hbytes b hb with h | h
    · subst h
      decide
    · have := isUnreserved_ne b h
      exact ⟨this.2.1, this.2.2.2.1, this.2.2.2.2.1⟩
  rw [decodedPart_of_plain _ hne hplain]
  have h61 : (61 : UInt8) ∉ kv.1 := fun hm => (isUnreserved_ne 61 (hk 61 hm)).2.2.2.2.2.1 rfl
  have hcut : Cut 61 (kv.1 ++ ascii "=" ++ kv.2) = (kv.1, kv.2, true) := by
    have : kv.1 ++ ascii "=" ++ kv.2 = kv.1 ++ 61 :: kv.2 := by
      simp [ascii]
    rw [this, Cut_append_sep 61 kv.1 kv.2 h61]
  simp only [rawPart, hcut]

/-- The verifier rebuilds the joined sorted parts of unreserved parameters from their
parsed form. -/
theorem canonicalQueryOf_joined (queryParams : List (GoString × GoString))
    (hun : ∀ kv ∈ queryParams,
      (∀ b ∈ kv.1, isUnreserved b = true) ∧ (∀ b ∈ kv.2, isUnreserved b = true)) :
    canonicalQueryOf (ParseQuery (Join (sortStrings (queryPartsOfParams queryParams)) (ascii "&"))) =
      Join (sortStrings (queryPartsOfParams queryParams)) (ascii "&") := by
  cases hqp : queryParams with
  | nil => rfl
  | cons kv0 rest0 =>
    rw [← hqp]
    have hmem : ∀ s ∈ sortStrings (queryPartsOfParams queryParams),
        s ∈ queryPartsOfParams queryParams :=
      fun s hs => (sortStrings_perm _).mem_iff.1 hs
    have hne : sortStrings (queryPartsOfParams queryParams) ≠ [] := by
      intro h
      have := (sortStrings_perm (queryPartsOfParams queryParams)).length_eq
      rw [h, hqp] at this
      simp [queryPartsOfParams] at this
    have h38 : ∀ s ∈ sortStrings (queryPartsOfParams queryParams), (38 : UInt8) ∉ s := by
      intro s hs hm
      rcases (part_of_unreserved queryParams hun s (hmem s hs)).1 38 hm with h | h
      · exact absurd h (by decide)
      · exact absurd h (by decide)
    have hsplit : Split 38 (Join (sortStrings (queryPartsOfParams queryParams)) (ascii "&")) =
        sortStrings (queryPartsOfParams queryParams) :=
      Split_Join 38 _ hne h38
    have hperm := queryPartsOfValues_ParseQuery
      (Join (sortStrings (queryPartsOfParams queryParams)) (ascii "&"))
    rw [hsplit, filterMap_of_some decodedPart _
      (fun s hs => (part_of_unreserved queryParams hun s (hmem s hs)).2)] at hperm
    unfold canonicalQueryOf
    rw [sortStrings_eq_of_perm hperm, sortStrings_of_sorted (sortStrings_sorted _)]

/-- The raw query of the request `Client.Do` creates, when base URL and path hold no
`?`: nothing, or when they hold no hash sign either, the joined sorted parts. -/
theorem DoRequest_RawQuery (c : Client) (method path : GoString)
    (queryParams : List (GoString × GoString)) (bodyBytes : GoString) (req : Request)
    (hun : ∀ kv ∈ queryParams,
      (∀ b ∈ kv.1, isUnreserved b = true) ∧ (∀ b ∈ kv.2, isUnreserved b = true))
    (hq : (63 : UInt8) ∉ c.baseURL ++ path)
    (hreq : c.DoRequest method path queryParams bodyBytes = some req) :
    ((35 : UInt8) ∉ c.baseURL ++ path →
      req.URL.RawQuery = Join (sortStrings (queryPartsOfParams queryParams)) (ascii "&")) ∧
    (req.URL.RawQuery = [] ∨
      req.URL.RawQuery = Join (sortStrings (queryPartsOfParams queryParams)) (ascii "&")) := by
  have hu := (NewRequestWithContext_url _ _ _ req hreq).1
  have hraw := urlParse_RawQuery _ _ hu
  have hnoq : ∀ (s : GoString), (∀ b ∈ s, b ∈ c.baseURL ++ path) → (Cut 63 s).2.1 = [] := by
    intro s hs
    rw [Cut_of_not_mem 63 s (fun hm => hq (hs 63 hm))]
  by_cases hlen : queryParams.length > 0
  · have hurl : c.DoURL path queryParams = (c.baseURL ++ path) ++
        63 :: Join (sortStrings (queryPartsOfParams queryParams)) (ascii "&") := by
      simp only [Client.DoURL, hlen, if_true]
      rfl
    rw [hurl] at hraw
    by_cases h35 : (35 : UInt8) ∈ c.baseURL ++ path
    · have hempty : req.URL.RawQuery = [] := by
        rw [hraw, Cut_append_of_mem 35 _ _ h35]
        exact hnoq _ (Cut_fst_subset 35 _)
      exact ⟨fun h => absurd h35 h, Or.inl hempty⟩
    · have hj : (35 : UInt8) ∉
          Join (sortStrings (queryPartsOfParams queryParams)) (ascii "&") := by
        intro hm
        rcases mem_Join 35 _ _ hm with h | ⟨s, hs, hb⟩
        · exact absurd h (by decide)
        · rcases (part_of_unreserved queryParams hun s
            ((sortStrings_perm _).mem_iff.1 hs)).1 35 hb with h | h
          · exact absurd h (by decide)
          · exact absurd h (by decide)
      have hall : (35 : UInt8) ∉ (c.baseURL ++ path) ++
          63 :: Join (sortStrings (queryPartsOfParams queryParams)) (ascii "&") := by
        intro hm
        rcases List.mem_append.1 hm with h | h
        · exact h35 h
        · rcases List.mem_cons.1 h with h | h
          · exact absurd h (by decide)
          · exact hj h
      have hfull : req.URL.RawQuery =
          Join (sortStrings (queryPartsOfParams queryParams)) (ascii "&") := by
        rw [hraw, Cut_of_not_mem 35 _ hall, Cut_append_sep 63 _ _ hq]
      exact ⟨fun _ => hfull, Or.inr hfull⟩
  · have hnil : queryParams = [] := by
      cases queryParams with
      | nil => rfl
      | cons a b => simp at hlen
    have hurl : c.DoURL path queryParams = c.baseURL ++ path := by
      simp only [Client.DoURL, hlen, if_false]
    rw [hurl] at hraw
    have hempty : req.URL.RawQuery = [] := by
      rw [hraw]
      exact hnoq _ (Cut_fst_subset 35 _)
    refine ⟨fun _ => ?_, Or.inl hempty⟩
    rw [hempty, hnil]
    rfl

set_option maxRecDepth 1000000 in
/-- C26, evaluated where the code diverges from it. The call
`Do(ctx, "GET", "/p?z=1&b=1", {"a": "1"}, nil, ...)`, whose one parameter has an
unreserved key and value, creates a request with the raw query `z=1&b=1?a=1`, which is
not sorted and which `signRequest` signs as it is, while `BuildCanonicalRequest` derives
`b=1?a=1&z=1` from the parsed query of the same URL; the canonical strings differ and
`VerifyHMAC` rejects the signature. -/
theorem signer_verifier_differ_on_path_query :
    (exampleClient.DoSigned (ascii "GET") (ascii "/p?z=1&b=1") [(ascii "a", ascii "1")] []
        exampleDate).map
      (fun req => (req.URL.RawQuery, canonicalQueryOf req.URL.Query,
        verifyRequest exampleClient.secretKey req)) =
      some (ascii "z=1&b=1?a=1", ascii "b=1?a=1&z=1", some false) := by
  decide

/-- Where signer and verifier do agree. When `baseURL + path` holds no `?` and the keys
and values of the query parameters consist of unreserved characters only, the raw query of the request
`Client.Do` creates, which `signRequest` uses as canonical query, equals the canonical
query `BuildCanonicalRequest` derives from the parsed query of the same URL; the two
canonical strings coincide and `VerifyHMAC` accepts the signature header of the signed
request. When `baseURL + path` holds no hash sign either, that raw query is the sorted
parts `k=v` joined with `&`. -/
theorem signer_verifier_agree_on_unreserved (c : Client) (method path : GoString)
    (queryParams : List (GoString × GoString)) (bodyBytes date : GoString) (req : Request)
    (hun : ∀ kv ∈ queryParams,
      (∀ b ∈ kv.1, isUnreserved b = true) ∧ (∀ b ∈ kv.2, isUnreserved b = true))
    (hq : (63 : UInt8) ∉ c.baseURL ++ path)
    (hreq : c.DoRequest method path queryParams bodyBytes = some req) :
    canonicalQueryOf (c.signRequest req bodyBytes date).URL.Query = req.URL.RawQuery ∧
    ((35 : UInt8) ∉ c.baseURL ++ path →
      req.URL.RawQuery = Join (sortStrings (queryPartsOfParams queryParams)) (ascii "&")) ∧
    BuildCanonicalRequest (c.signRequest req bodyBytes date) bodyBytes =
      c.signCanonical req bodyBytes date ∧
    VerifyHMAC c.secretKey
      (BuildCanonicalRequest (c.signRequest req bodyBytes date)
        (ReadBody (c.signRequest req bodyBytes date)))
      ((c.signRequest req bodyBytes date).Header.Get (ascii "X-H3-Signature")) = true := by
  obtain ⟨h1, h2⟩ := DoRequest_RawQuery c method path queryParams bodyBytes req hun hq hreq
  have hcq : canonicalQueryOf (c.signRequest req bodyBytes date).URL.Query = req.URL.RawQuery := by
    show canonicalQueryOf (ParseQuery req.URL.RawQuery) = req.URL.RawQuery
    rcases h2 with h | h
    · rw [h]; rfl
    · rw [h]; exact canonicalQueryOf_joined queryParams hun
  have hh := signRequest_headers c req bodyBytes date
  have hcanon : BuildCanonicalRequest (c.signRequest req bodyBytes date) bodyBytes =
      c.signCanonical req bodyBytes date := by
    unfold BuildCanonicalRequest
    rw [BuildCanonicalRequestRange_eq, signCanonical_eq, hcq, hh.2.1, hh.2.2.1]
    rfl
  have hbody : ReadBody (c.signRequest req bodyBytes date) = bodyBytes :=
    NewRequestWithContext_body _ _ _ req hreq
  refine ⟨hcq, h1, hcanon, ?_⟩
  rw [hbody, hcanon, hh.2.2.2, VerifyHMAC_eq_true_iff]
  rfl

set_option maxRecDepth 1000000 in
/-- An instance of the agreement: the parameters `project_id=p-1` and `limit=10`. -/
theorem signer_verifier_agree_on_unreserved_witness :
    (⟨ascii "GET", ⟨ascii "/api/vms/v1", ascii "limit=10&project_id=p-1"⟩, ⟨[]⟩, []⟩ :
      Request).URL.RawQuery =
      Join (sortStrings (queryPartsOfParams
        [(ascii "project_id", ascii "p-1"), (ascii "limit", ascii "10")])) (ascii "&") :=
  (signer_verifier_agree_on_unreserved exampleClient (ascii "GET") (ascii "/api/vms/v1")
    [(ascii "project_id", ascii "p-1"), (ascii "limit", ascii "10")] [] exampleDate
    ⟨ascii "GET", ⟨ascii "/api/vms/v1", ascii "limit=10&project_id=p-1"⟩, ⟨[]⟩, []⟩
    (by decide) (by decide) (by decide)).2.1 (by decide)

/-! ## The SSH key fields of `VMResource.Create` -/

theorem mem_Append_single (d : Diagnostics) (x : Diagnostic) : x ∈ d.Append [x] := by
  unfold Diagnostics.Append
  by_cases h : x ∈ d
  · simp [h]
  · simp [h]

/-- The SSH key fields of the request built from a plan: a field is set exactly when the
attribute is provided, and is the empty string, which `json.Marshal` leaves out,
otherwise. -/
theorem createReqOf_ssh (plan : VMResourceModel) :
    (createReqOf plan).SSHKey = (if hasSSHKey plan then plan.SSHKey.ValueString else []) ∧
    (createReqOf plan).SSHKeyID =
      (if hasSSHKeyID plan then plan.SSHKeyID.ValueString else []) := by
  unfold createReqOf
  constructor
  · simp only [apply_ite CreateVMRequest.SSHKey, ite_self]
  · simp only [apply_ite CreateVMRequest.SSHKeyID, ite_self]

theorem mem_optional_key (c : Prop) [Decidable c] (x s : String) :
    x ∈ (if c then [] else [s]) ↔ ¬ c ∧ x = s := by
  by_cases h : c <;> simp [h]

/-- The keys `ssh_key` and `ssh_key_id` are written exactly for a non-empty field. -/
theorem jsonKeys_ssh (r : CreateVMRequest) :
    ("ssh_key" ∈ r.jsonKeys ↔ r.SSHKey ≠ []) ∧ ("ssh_key_id" ∈ r.jsonKeys ↔ r.SSHKeyID ≠ []) := by
  unfold CreateVMRequest.jsonKeys
  constructor
  · simp only [List.mem_append, mem_optional_key, List.mem_cons, List.mem_singleton]
    simp
  · simp only [List.mem_append, mem_optional_key, List.mem_cons, List.mem_singleton]
    simp

/-- C30. Once the plan has been read without an error diagnostic, `VMResource.Create`
calls the API, with `POST /api/vms/v1`, if and only if exactly one of `ssh_key` and
`ssh_key_id` is provided, that is non-null and non-empty. With neither it reports
"Missing SSH Key", with both "Conflicting SSH Key Fields", and in these two cases it makes
no API call. The request of a call carries the field that was provided and leaves the
other one empty, so that `json.Marshal` writes only the key of the provided one. When
reading the plan gave an error, no API call is made either. -/
theorem Create_calls_API_iff_one_ssh_field (respDiags planDiags : Diagnostics)
    (plan : VMResourceModel) :
    ((respDiags.Append planDiags).HasError = true →
      (VMResource.Create respDiags planDiags plan).call = none) ∧
    ((respDiags.Append planDiags).HasError = false →
      (((VMResource.Create respDiags planDiags plan).call.isSome = true ↔
          (hasSSHKey plan = true ∧ hasSSHKeyID plan = false) ∨
            (hasSSHKey plan = false ∧ hasSSHKeyID plan = true)) ∧
        (hasSSHKey plan = false → hasSSHKeyID plan = false →
          (VMResource.Create respDiags planDiags plan).call = none ∧
          ⟨Severity.Error, "Missing SSH Key", "Either ssh_key or ssh_key_id must be provided"⟩ ∈
            (VMResource.Create respDiags planDiags plan).Diagnostics) ∧
        (hasSSHKey plan = true → hasSSHKeyID plan = true →
          (VMResource.Create respDiags planDiags plan).call = none ∧
          ⟨Severity.Error, "Conflicting SSH Key Fields",
            "ssh_key and ssh_key_id are mutually exclusive - provide only one"⟩ ∈
            (VMResource.Create respDiags planDiags plan).Diagnostics) ∧
        (∀ call, (VMResource.Create respDiags planDiags plan).call = some call →
          call.method = ascii "POST" ∧ call.path = ascii "/api/vms/v1" ∧
          call.body = createReqOf plan ∧
          (hasSSHKey plan = true →
            call.body.SSHKey = plan.SSHKey.ValueString ∧ call.body.SSHKeyID = [] ∧
            "ssh_key" ∈ call.body.jsonKeys ∧ "ssh_key_id" ∉ call.body.jsonKeys) ∧
          (hasSSHKeyID plan = true →
            call.body.SSHKeyID = plan.SSHKeyID.ValueString ∧ call.body.SSHKey = [] ∧
            "ssh_key_id" ∈ call.body.jsonKeys ∧ "ssh_key" ∉ call.body.jsonKeys)))) := by
  constructor
  · intro herr
    simp only [VMResource.Create, herr, if_true]
  · intro hok
    have hne1 : hasSSHKey plan = true → plan.SSHKey.ValueString ≠ [] := by
      intro h
      simp only [hasSSHKey, Bool.and_eq_true, decide_eq_true_eq] at h
      exact h.2
    have hne2 : hasSSHKeyID plan = true → plan.SSHKeyID.ValueString ≠ [] := by
      intro h
      simp only [hasSSHKeyID, Bool.and_eq_true, decide_eq_true_eq] at h
      exact h.2
    obtain ⟨hs1, hs2⟩ := createReqOf_ssh plan
    obtain ⟨hj1, hj2⟩ := jsonKeys_ssh (createReqOf plan)
    cases h1 : hasSSHKey plan <;> cases h2 : hasSSHKeyID plan
    · have hC : VMResource.Create respDiags planDiags plan =
          ⟨(respDiags.Append planDiags).AddError "Missing SSH Key"
            "Either ssh_key or ssh_key_id must be provided", none⟩ := by
        simp [VMResource.Create, hok, h1, h2]
      rw [hC]
      refine ⟨by simp, fun _ _ => ⟨rfl, mem_Append_single _ _⟩, (fun h => by cases h), ?_⟩
      intro call h
      cases h
    · have hC : VMResource.Create respDiags planDiags plan =
          ⟨respDiags.Append planDiags, some ⟨ascii "POST", ascii "/api/vms/v1", createReqOf plan⟩⟩ := by
        simp [VMResource.Create, hok, h1, h2]
      rw [hC]
      refine ⟨by simp, (fun _ h => by cases h), (fun h => by cases h), ?_⟩
      intro call h
      simp only [Option.some.injEq] at h
      subst h
      rw [h1] at hs1
      rw [h2] at hs2
      refine ⟨rfl, rfl, rfl, (fun h => by cases h), fun _ => ⟨hs2, hs1, ?_, ?_⟩⟩
      · exact hj2.2 (by rw [hs2]; exact hne2 h2)
      · exact fun hm => hj1.1 hm hs1
    · have hC : VMResource.Create respDiags planDiags plan =
          ⟨respDiags.Append planDiags, some ⟨ascii "POST", ascii "/api/vms/v1", createReqOf plan⟩⟩ := by
        simp [VMResource.Create, hok, h1, h2]
      rw [hC]
      refine ⟨by simp, (fun h => by cases h), (fun _ h => by cases h), ?_⟩
      intro call h
      simp only [Option.some.injEq] at h
      subst h
      rw [h1] at hs1
      rw [h2] at hs2
      refine ⟨rfl, rfl, rfl, fun _ => ⟨hs1, hs2, ?_, ?_⟩, (fun h => by cases h)⟩
      · exact hj1.2 (by rw [hs1]; exact hne1 h1)
      · exact fun hm => hj2.1 hm hs2
    · have hC : VMResource.Create respDiags planDiags plan =
          ⟨(respDiags.Append planDiags).AddError "Conflicting SSH Key Fields"
            "ssh_key and ssh_key_id are mutually exclusive - provide only one", none⟩ := by
        simp [VMResource.Create, hok, h1, h2]
      rw [hC]
      refine ⟨by simp, (fun h => by cases h), fun _ _ => ⟨rfl, mem_Append_single _ _⟩, ?_⟩
      intro call h
      cases h

set_option maxRecDepth 1000000 in
/-- Witness for C30: a plan with `ssh_key_id` alone, one with neither field (an empty
`ssh_key` counts as not provided) and one with both. -/
theorem Create_calls_API_iff_one_ssh_field_witness :
    ((VMResource.Create [] [] (examplePlan Attr.null (Attr.known (ascii "key-7")))).call.map
      (fun call => (call.method, call.path, call.body.SSHKey, call.body.SSHKeyID,
        call.body.jsonKeys))) =
      some (ascii "POST", ascii "/api/vms/v1", [], ascii "key-7",
        ["project_id", "name", "cpu", "memory", "image", "ssh_key_id", "white_ip"]) ∧
    VMResource.Create [] [] (examplePlan (Attr.known []) Attr.null) =
      ⟨[⟨Severity.Error, "Missing SSH Key", "Either ssh_key or ssh_key_id must be provided"⟩],
        none⟩ ∧
    VMResource.Create [] []
        (examplePlan (Attr.known (ascii "ssh-ed25519 AAAA")) (Attr.known (ascii "key-7"))) =
      ⟨[⟨Severity.Error, "Conflicting SSH Key Fields",
        "ssh_key and ssh_key_id are mutually exclusive - provide only one"⟩], none⟩ ∧
    (VMResource.Create [] [] (examplePlan Attr.null (Attr.known (ascii "key-7")))).call.isSome =
      true :=
  ⟨by decide, by decide, by decide,
    ((Create_calls_API_iff_one_ssh_field [] []
      (examplePlan Attr.null (Attr.known (ascii "key-7")))).2 (by decide)).1.2
      (Or.inr ⟨by decide, by decide⟩)⟩
